import Mathlib

/-!
# NVMe-oF target, offload (XRP) read path

A shallow embedding of `drivers/nvme/target/io-cmd-bdev.c`,
`drivers/nvme/target/bpfof.h` and `drivers/nvme/host/bpfof.h`, followed by
theorems about the per-CPU hugepage pool, the descriptor codec and the
request executor.

Conventions of the embedding:
* a `struct page *` is a natural number, `0` is `NULL`;
* global variables are passed explicitly (`hugepage_pool` is a list of entries);
* `smp_processor_id()` is the explicit argument `cpu`;
* an access outside the `hugepage_pool` array is the result `none`.
-/

set_option maxRecDepth 100000

namespace NvmetBdev

/-! ## The hugepage pool (io-cmd-bdev.c, lines 13-71) -/

/-- The `struct hugepage_pool_entry` of the source. -/
structure hugepage_pool_entry where
  page : Nat
  in_use : Bool
deriving DecidableEq, Repr

/-- The constant `#define HUGEPAGE_POOL_SIZE 100`. -/
def HUGEPAGE_POOL_SIZE : Nat := 100

/-- The `for` loop of `get_available_hugepage`: `i` is the loop variable and `n` the
number of iterations left before `i` reaches the end of the slice. -/
def get_available_hugepage_loop (hugepage_pool : List hugepage_pool_entry) :
    Nat → Nat → Option (List hugepage_pool_entry × Nat)
  | _, 0 => some (hugepage_pool, 0)
  | i, n + 1 =>
    match hugepage_pool[i]? with
    | none => none
    | some e =>
      if e.in_use = false then
        some (hugepage_pool.set i { e with in_use := true }, e.page)
      else get_available_hugepage_loop hugepage_pool (i + 1) n

/-- The function `get_available_hugepage` run on processor `cpu`: the new pool and the
returned page (`0` for `NULL`). -/
def get_available_hugepage (hugepage_pool : List hugepage_pool_entry) (cpu : Nat) :
    Option (List hugepage_pool_entry × Nat) :=
  get_available_hugepage_loop hugepage_pool (cpu * HUGEPAGE_POOL_SIZE) HUGEPAGE_POOL_SIZE

/-- The `for` loop of `put_hugepage`; the `break` on an entry that is not in use leaves
the loop and reaches the final `return -1`. -/
def put_hugepage_loop (hugepage_pool : List hugepage_pool_entry) (hugepage : Nat) :
    Nat → Nat → Option (List hugepage_pool_entry × Int)
  | _, 0 => some (hugepage_pool, -1)
  | i, n + 1 =>
    match hugepage_pool[i]? with
    | none => none
    | some e =>
      if e.page = hugepage then
        if e.in_use = false then some (hugepage_pool, -1)
        else some (hugepage_pool.set i { e with in_use := false }, 0)
      else put_hugepage_loop hugepage_pool hugepage (i + 1) n

/-- The function `put_hugepage` run on processor `cpu`: the new pool and the return value. -/
def put_hugepage (hugepage_pool : List hugepage_pool_entry) (cpu : Nat) (hugepage : Nat) :
    Option (List hugepage_pool_entry × Int) :=
  put_hugepage_loop hugepage_pool hugepage (cpu * HUGEPAGE_POOL_SIZE) HUGEPAGE_POOL_SIZE

/-- The slice of the pool that belongs to processor `cpu`:
indices `cpu * HUGEPAGE_POOL_SIZE` up to `cpu * HUGEPAGE_POOL_SIZE + HUGEPAGE_POOL_SIZE - 1`. -/
def pool_slice (hugepage_pool : List hugepage_pool_entry) (cpu : Nat) :
    List hugepage_pool_entry :=
  (hugepage_pool.drop (cpu * HUGEPAGE_POOL_SIZE)).take HUGEPAGE_POOL_SIZE

/-- Number of entries of the slice of `cpu` with `in_use == false`. -/
def available_count (hugepage_pool : List hugepage_pool_entry) (cpu : Nat) : Nat :=
  (pool_slice hugepage_pool cpu).countP (fun e => !e.in_use)

/-- The index `i` lies in the slice of processor `cpu`. -/
def in_slice (cpu i : Nat) : Prop :=
  cpu * HUGEPAGE_POOL_SIZE ≤ i ∧ i < cpu * HUGEPAGE_POOL_SIZE + HUGEPAGE_POOL_SIZE

instance (cpu i : Nat) : Decidable (in_slice cpu i) := by
  unfold in_slice; infer_instance

/-- A pool of `n` available entries holding the pages `first, first + 1, ...`. -/
def fresh_pool (first n : Nat) : List hugepage_pool_entry :=
  (List.range n).map (fun k => { page := first + k, in_use := false })

/-- The pool of one processor after every `alloc_pages` of the initialisation returned
`NULL` and one `get_available_hugepage` marked the first entry: all pages are `NULL`. -/
def null_pool : List hugepage_pool_entry :=
  { page := 0, in_use := true } :: List.replicate 99 { page := 0, in_use := false }

/-- One call made by a worker on the pool. -/
inductive pool_call where
  | get : pool_call
  | put (hugepage : Nat) : pool_call
deriving DecidableEq, Repr

/-- Number of calls to `get_available_hugepage` in a sequence. -/
def count_get : List pool_call → Nat
  | [] => 0
  | pool_call.get :: cs => count_get cs + 1
  | pool_call.put _ :: cs => count_get cs

/-- Number of calls to `put_hugepage` in a sequence. -/
def count_put : List pool_call → Nat
  | [] => 0
  | pool_call.get :: cs => count_put cs
  | pool_call.put _ :: cs => count_put cs + 1

/-- Runs a sequence of calls, all on processor `cpu`, and gives the final pool. -/
def run_calls (cpu : Nat) :
    List pool_call → List hugepage_pool_entry → Option (List hugepage_pool_entry)
  | [], pool => some pool
  | pool_call.get :: cs, pool =>
    match get_available_hugepage pool cpu with
    | none => none
    | some (pool', _) => run_calls cpu cs pool'
  | pool_call.put p :: cs, pool =>
    match put_hugepage pool cpu p with
    | none => none
    | some (pool', _) => run_calls cpu cs pool'

/-- Every `put` of the sequence is on a page that an earlier `get` returned and that has not
been released since; `held` lists the pages acquired and not yet released. -/
def calls_valid (cpu : Nat) :
    List pool_call → List hugepage_pool_entry → List Nat → Bool
  | [], _, _ => true
  | pool_call.get :: cs, pool, held =>
    match get_available_hugepage pool cpu with
    | none => true
    | some (pool', p) => calls_valid cpu cs pool' (p :: held)
  | pool_call.put p :: cs, pool, held =>
    decide (p ∈ held) &&
      match put_hugepage pool cpu p with
      | none => true
      | some (pool', _) => calls_valid cpu cs pool' (held.erase p)

/-- Invariant of a slice `sl` during a run: the pages are pairwise distinct, and `held`
lists, without repetition, exactly the pages of the entries that are in use. -/
def slice_inv (sl : List hugepage_pool_entry) (held : List Nat) : Prop :=
  (sl.map (fun e => e.page)).Nodup ∧ held.Nodup ∧
  (∀ q, q ∈ held ↔
    ∃ (j : Nat) (e : hugepage_pool_entry), sl[j]? = some e ∧ e.page = q ∧ e.in_use = true) ∧
  sl.countP (fun e => !e.in_use) + held.length = sl.length

/-! ## The descriptor codec (host/bpfof.h and target/bpfof.h)

A buffer is a list of bytes, each byte a natural number read modulo 256. The caller of
either function passes the size of the buffer as `buffer_size`. -/

/-- The `struct bpfof_fd_info`: a 4-byte `fd` and an 8-byte `inode_identifier`. -/
structure bpfof_fd_info where
  fd : Nat
  inode_identifier : Nat
deriving DecidableEq, Repr

/-- The `struct bpfof_cmd_config`: the 4-byte unsigned `data_buffer_size` and the array
`bpfof_fd_info_arr` of 10 entries. -/
structure bpfof_cmd_config where
  data_buffer_size : Nat
  bpfof_fd_info_arr : List bpfof_fd_info
deriving DecidableEq, Repr

/-- The `struct xrp_fd_info` as far as the codec reads it: `fd` and `inode->i_ino`. -/
structure xrp_fd_info where
  fd : Nat
  i_ino : Nat
deriving DecidableEq, Repr

/-- The `w` bytes of the little-endian representation of `v`. -/
def le_bytes : Nat → Nat → List Nat
  | 0, _ => []
  | w + 1, v => v % 256 :: le_bytes w (v / 256)

/-- The value of a little-endian byte string. -/
def le_value : List Nat → Nat
  | [] => 0
  | b :: bs => b % 256 + 256 * le_value bs

/-- Modelled from the spec: the declaration of `struct bpfof_cmd_config` is in a header
that is not among the sources; section 6 of the specification gives the record as the
4-byte `result_buffer_size` followed by 10 pairs of a 4-byte handle and an 8-byte
identifier. These are the bytes of one pair. -/
def fd_info_bytes (e : bpfof_fd_info) : List Nat :=
  le_bytes 4 e.fd ++ le_bytes 8 e.inode_identifier

/-- Modelled from the spec: the bytes of the array `bpfof_fd_info_arr`, pair after pair. -/
def fd_info_arr_bytes : List bpfof_fd_info → List Nat
  | [] => []
  | e :: es => fd_info_bytes e ++ fd_info_arr_bytes es

/-- Modelled from the spec: the object representation of a `struct bpfof_cmd_config`,
which is what `memcpy(buffer, &tmp, sizeof(struct bpfof_cmd_config))` copies. -/
def config_bytes (c : bpfof_cmd_config) : List Nat :=
  le_bytes 4 c.data_buffer_size ++ fd_info_arr_bytes c.bpfof_fd_info_arr

/-- Modelled from the spec: `n` pairs read from consecutive 12-byte groups. -/
def fd_info_arr_of_bytes : Nat → List Nat → List bpfof_fd_info
  | 0, _ => []
  | n + 1, bs =>
    { fd := le_value (bs.take 4), inode_identifier := le_value ((bs.drop 4).take 8) } ::
      fd_info_arr_of_bytes n (bs.drop 12)

/-- Modelled from the spec: the `struct bpfof_cmd_config` whose object representation is
at the start of `bs`, which is what `memcpy(config, buffer, sizeof(...))` produces. -/
def config_of_bytes (bs : List Nat) : bpfof_cmd_config :=
  { data_buffer_size := le_value (bs.take 4),
    bpfof_fd_info_arr := fd_info_arr_of_bytes 10 (bs.drop 4) }

/-- Modelled from the spec: `sizeof(struct bpfof_cmd_config)`, 4 + 10 * (4 + 8) bytes. -/
def sizeof_bpfof_cmd_config : Nat := 124

/-- The function `deserialize_bpfof_cmd_config` of target/bpfof.h: the return value and the
contents of `*config` afterwards. -/
def deserialize_bpfof_cmd_config (buffer : List Nat) (buffer_size : Nat)
    (config : bpfof_cmd_config) : Int × bpfof_cmd_config :=
  if buffer_size < sizeof_bpfof_cmd_config then (-1, config)
  else
    let config' := config_of_bytes (buffer.take sizeof_bpfof_cmd_config)
    if config'.data_buffer_size = 0 then (-1, config') else (0, config')

/-- The first loop of `serialize_bpfof_cmd_config`, `for (i = 0; i < bio->xrp_fd_count; i++)`:
`i` is the loop variable, `n` the number of iterations left; `none` is an access outside
`tmp.bpfof_fd_info_arr` or outside `bio->xrp_fd_info_arr`. -/
def serialize_copy_loop (xrp_fd_info_arr : List xrp_fd_info) :
    Nat → Nat → List bpfof_fd_info → Option (List bpfof_fd_info)
  | _, 0, tmp => some tmp
  | i, n + 1, tmp =>
    match xrp_fd_info_arr[i]? with
    | none => none
    | some x =>
      if i < tmp.length then
        serialize_copy_loop xrp_fd_info_arr (i + 1) n
          (tmp.set i { fd := x.fd, inode_identifier := x.i_ino })
      else none

/-- The second loop of `serialize_bpfof_cmd_config`, `for (i = bio->xrp_fd_count; i < 10; i++)`. -/
def serialize_zero_loop : Nat → Nat → List bpfof_fd_info → List bpfof_fd_info
  | _, 0, tmp => tmp
  | i, n + 1, tmp =>
    serialize_zero_loop (i + 1) n (tmp.set i { fd := 0, inode_identifier := 0 })

/-- The function `serialize_bpfof_cmd_config` of host/bpfof.h, applied to the fields of
`rq->bio` that it reads: the return value and the contents of `buffer` afterwards. -/
def serialize_bpfof_cmd_config (bpfof_data_buffer_count : Nat) (xrp_fd_count : Nat)
    (xrp_fd_info_arr : List xrp_fd_info) (buffer : List Nat) (buffer_size : Nat) :
    Option (Int × List Nat) :=
  if buffer_size < sizeof_bpfof_cmd_config then some (-1, buffer)
  else
    let tmp0 : List bpfof_fd_info := List.replicate 10 { fd := 0, inode_identifier := 0 }
    if bpfof_data_buffer_count = 0 then some (-1, buffer)
    else
      match serialize_copy_loop xrp_fd_info_arr 0 xrp_fd_count tmp0 with
      | none => none
      | some tmp1 =>
        let tmp2 := serialize_zero_loop xrp_fd_count (10 - xrp_fd_count) tmp1
        let tmp : bpfof_cmd_config :=
          { data_buffer_size := bpfof_data_buffer_count, bpfof_fd_info_arr := tmp2 }
        some (0, config_bytes tmp ++ buffer.drop sizeof_bpfof_cmd_config)

/-! ## The request executor (io-cmd-bdev.c, lines 163-250 and 304-508)

Declarations that the source takes from kernel headers are modelled by enumerations
(`nvme_opcode`, `blk_status_t`, the NVMe status codes) or are fields of the environment
`rw_env` (the collaborators of the executor). Calls that leave the executor are recorded
in the `trace` of the `world`. -/

/-- The opcodes that the source names; `other` is any other opcode byte. -/
inductive nvme_opcode where
  | nvme_cmd_flush
  | nvme_cmd_write
  | nvme_cmd_read
  | nvme_cmd_write_zeroes
  | nvme_cmd_dsm
  | nvme_cmd_xrp_read
  | other (code : Nat)
deriving DecidableEq, Repr

/-- The block layer status codes that the source names; `other` is any other failure code. -/
inductive blk_status_t where
  | BLK_STS_OK
  | BLK_STS_NOTSUPP
  | BLK_STS_NOSPC
  | BLK_STS_TARGET
  | BLK_STS_MEDIUM
  | BLK_STS_IOERR
  | other (code : Nat)
deriving DecidableEq, Repr

/-- The NVMe status code values that the source names; `other` is any other value. -/
inductive nvme_sc where
  | NVME_SC_SUCCESS
  | NVME_SC_CAP_EXCEEDED
  | NVME_SC_LBA_RANGE
  | NVME_SC_ONCS_NOT_SUPPORTED
  | NVME_SC_INVALID_OPCODE
  | NVME_SC_ACCESS_DENIED
  | NVME_SC_INTERNAL
  | other (code : Nat)
deriving DecidableEq, Repr

/-- A 16-bit NVMe status: a status code, possibly or-ed with `NVME_SC_DNR`. -/
structure nvme_status where
  sc : nvme_sc
  dnr : Bool
deriving DecidableEq, Repr

/-- The values written to `req->error_loc`: `offsetof` of a command field. -/
inductive error_loc_t where
  | offsetof_common_opcode
  | offsetof_rw_nsid
  | offsetof_rw_slba
  | offsetof_rw_length
  | other (offset : Nat)
deriving DecidableEq, Repr

/-- One entry of a scatter list: `sg_page(sg)`, `sg->length`, `sg->offset`. -/
structure scatterlist where
  page : Nat
  length : Nat
  offset : Nat
deriving DecidableEq, Repr

/-- A `struct bio_vec`. -/
structure bio_vec where
  bv_page : Nat
  bv_len : Nat
  bv_offset : Nat
deriving DecidableEq, Repr

/-- The flags of `bi_opf` that the source uses. -/
structure req_opf where
  REQ_OP_WRITE : Bool
  REQ_SYNC : Bool
  REQ_IDLE : Bool
  REQ_FUA : Bool
  REQ_NOMERGE : Bool
deriving DecidableEq, Repr

/-- The completion callback stored in `bi_end_io`. -/
inductive bio_end_io_t where
  | unset
  | nvmet_bio_done
  | bio_chain_endio
deriving DecidableEq, Repr

/-- The pointer stored in `bi_private`: nothing, the request, or the parent bio of a chain
(identified by its number). -/
inductive bi_private_t where
  | unset
  | req
  | parent (id : Nat)
deriving DecidableEq, Repr

/-- The fields of a `struct bio` that the executor reads or writes. `id` numbers the bios of
one command in order of creation, `is_inline` says that the bio is `req->b.inline_bio`,
`bi_io_vec` is the vector table (all `bi_max_vecs` slots, used or not). -/
structure bio where
  id : Nat
  is_inline : Bool
  bi_sector : Nat
  bi_size : Nat
  bi_opf : req_opf
  bi_status : blk_status_t
  bi_end_io : bio_end_io_t
  bi_private : bi_private_t
  bi_remaining : Nat
  bi_max_vecs : Nat
  bi_vcnt : Nat
  bi_io_vec : List bio_vec
  xrp_enabled : Bool
  xrp_scratch_page : Nat
  xrp_count : Nat
  xrp_cur_fd : Nat
  xrp_bpf_prog : Nat
  xrp_fd_info_arr : List xrp_fd_info
  xrp_fd_count : Nat
deriving DecidableEq, Repr

/-- The fields of a `struct nvmet_req` (and of its command `req->cmd->rw`) that the
executor reads or writes. `sg` holds the `sg_cnt` entries of the scatter list, `fua` is
`cmd->rw.control & NVME_RW_FUA`, `slba` the decoded little-endian `slba` field. -/
structure nvmet_req where
  opcode : nvme_opcode
  slba : Nat
  fua : Bool
  sg : List scatterlist
  transfer_len : Nat
  metadata_len : Nat
  inline_bvec : List bio_vec
  error_loc : error_loc_t
  error_slba : Nat
deriving DecidableEq, Repr

/-- What the resolver `driver_get_nvmeof_xrp_info` writes through its pointers. -/
structure xrp_info where
  ret : Int
  xrp_enabled : Bool
  xrp_prog : Nat
  xrp_fd_info_arr : List xrp_fd_info
  xrp_fd_count : Nat

/-- A call that leaves the executor. -/
inductive event where
  | submit_bio (b : bio)
  | bio_endio (b : bio)
  | nvmet_req_complete (status : nvme_status)
  | free_page (page : Nat)
  | bio_put (b : bio)
  | pr_err_put_hugepage (ret : Int)
  | blkdev_issue_discard (sector : Nat) (nr_sects : Nat)
deriving DecidableEq, Repr

/-- The mutable state: the request, the global pool, and the calls made so far. -/
structure world where
  req : nvmet_req
  hugepage_pool : List hugepage_pool_entry
  trace : List event
deriving DecidableEq, Repr

/-- The collaborators of the executor and the globals it only reads: the processor it
runs on, the flag `nvmeof_xrp_use_hugepages`, the result of `nvmet_check_transfer_len`,
`is_pci_p2pdma_page`, `nvmet_lba_to_sect`, `NVMET_MAX_INLINE_DATA_LEN`, `bio_max_segs`,
the stale contents of the vector table of a bio that `bio_alloc` returns, the resolver
pointer (`none` is `NULL`), the bytes of a page, the result of `alloc_page`, and the
return code of `nvmet_bdev_alloc_bip`. -/
structure rw_env where
  cpu : Nat
  nvmeof_xrp_use_hugepages : Bool
  nvmet_check_transfer_len : Bool
  is_pci_p2pdma_page : Nat → Bool
  nvmet_lba_to_sect : Nat → Nat
  NVMET_MAX_INLINE_DATA_LEN : Nat
  bio_max_segs : Nat → Nat
  bio_alloc_table : Nat → List bio_vec
  driver_get_nvmeof_xrp_info : Option (List bpfof_fd_info → xrp_info)
  page_address : Nat → List Nat
  alloc_page : Nat
  nvmet_bdev_alloc_bip : bio → Int

/-- The page size; the source itself writes it as `4096` in its hex dump (line 387). -/
def PAGE_SIZE : Nat := 4096

/-- The largest `unsigned int`. -/
def UINT_MAX : Nat := 2 ^ 32 - 1

/-- Conversion of a 32-bit unsigned value to `int`. -/
def int_of_u32 (v : Nat) : Int :=
  if v % 2 ^ 32 < 2 ^ 31 then ((v % 2 ^ 32 : Nat) : Int) else ((v % 2 ^ 32 : Nat) : Int) - 2 ^ 32

/-- Conversion of an `int` to `unsigned int`. -/
def u32_of_int (v : Int) : Nat := (v % 2 ^ 32).toNat

/-- Appends an event to the trace. -/
def world.emit (w : world) (e : event) : world :=
  { w with trace := w.trace ++ [e] }

/-- The function `blk_to_nvme_status`: the status it returns and the request with
`error_loc` and `error_slba` as it leaves them. -/
def blk_to_nvme_status (req : nvmet_req) (blk_sts : blk_status_t) : nvme_status × nvmet_req :=
  if blk_sts = blk_status_t.BLK_STS_OK then
    ({ sc := nvme_sc.NVME_SC_SUCCESS, dnr := false }, req)
  else
    let r1 : nvme_status × nvmet_req :=
      match blk_sts with
      | blk_status_t.BLK_STS_NOSPC =>
        ({ sc := nvme_sc.NVME_SC_CAP_EXCEEDED, dnr := true },
          { req with error_loc := error_loc_t.offsetof_rw_length })
      | blk_status_t.BLK_STS_TARGET =>
        ({ sc := nvme_sc.NVME_SC_LBA_RANGE, dnr := true },
          { req with error_loc := error_loc_t.offsetof_rw_slba })
      | blk_status_t.BLK_STS_NOTSUPP =>
        (match req.opcode with
          | nvme_opcode.nvme_cmd_dsm => { sc := nvme_sc.NVME_SC_ONCS_NOT_SUPPORTED, dnr := true }
          | nvme_opcode.nvme_cmd_write_zeroes =>
            { sc := nvme_sc.NVME_SC_ONCS_NOT_SUPPORTED, dnr := true }
          | _ => { sc := nvme_sc.NVME_SC_INVALID_OPCODE, dnr := true },
          { req with error_loc := error_loc_t.offsetof_common_opcode })
      | blk_status_t.BLK_STS_MEDIUM =>
        ({ sc := nvme_sc.NVME_SC_ACCESS_DENIED, dnr := false },
          { req with error_loc := error_loc_t.offsetof_rw_nsid })
      | _ =>
        ({ sc := nvme_sc.NVME_SC_INTERNAL, dnr := true },
          { req with error_loc := error_loc_t.offsetof_common_opcode })
    let req2 : nvmet_req :=
      match req.opcode with
      | nvme_opcode.nvme_cmd_read => { r1.2 with error_slba := req.slba }
      | nvme_opcode.nvme_cmd_write => { r1.2 with error_slba := req.slba }
      | nvme_opcode.nvme_cmd_write_zeroes => { r1.2 with error_slba := req.slba }
      | _ => { r1.2 with error_slba := 0 }
    (r1.1, req2)

/-- The function `nvmet_bio_done` run on processor `cpu`; `none` is an access outside the
pool or a read of `bio->bi_io_vec` when the bio has no vector table. -/
def nvmet_bio_done (cpu : Nat) (nvmeof_xrp_use_hugepages : Bool) (w : world) (b : bio) :
    Option world :=
  let freed : Option world :=
    if b.xrp_enabled then
      match b.bi_io_vec.head? with
      | none => none
      | some v =>
        if v.bv_page ≠ 0 then
          if !nvmeof_xrp_use_hugepages then some (w.emit (event.free_page v.bv_page))
          else
            match put_hugepage w.hugepage_pool cpu v.bv_page with
            | none => none
            | some (pool', ret) =>
              let w1 : world := { w with hugepage_pool := pool' }
              if ret ≠ 0 then some (w1.emit (event.pr_err_put_hugepage ret)) else some w1
        else some w
    else some w
  match freed with
  | none => none
  | some w1 =>
    let r := blk_to_nvme_status w1.req b.bi_status
    let w2 : world := ({ w1 with req := r.2 }).emit (event.nvmet_req_complete r.1)
    if !b.is_inline then some (w2.emit (event.bio_put b)) else some w2

/-- Modelled from the spec: `bio_endio` of the block layer, which is not among the sources.
Section 6 of the specification gives the contract "invoking
operation.completion_callback(status) exactly once": a bio whose callback is
`nvmet_bio_done` and that is not waited on by a chained bio has its callback run at once;
the completion of any other bio is handed to the block layer and recorded. -/
def bio_endio (cpu : Nat) (nvmeof_xrp_use_hugepages : Bool) (w : world) (b : bio) :
    Option world :=
  if b.bi_end_io = bio_end_io_t.nvmet_bio_done ∧ b.bi_remaining ≤ 1 then
    nvmet_bio_done cpu nvmeof_xrp_use_hugepages w b
  else some (w.emit (event.bio_endio b))

/-- The inline helper `bio_io_error` of the block layer:
`bio->bi_status = BLK_STS_IOERR; bio_endio(bio);`. -/
def bio_io_error (cpu : Nat) (nvmeof_xrp_use_hugepages : Bool) (w : world) (b : bio) :
    Option world :=
  bio_endio cpu nvmeof_xrp_use_hugepages w { b with bi_status := blk_status_t.BLK_STS_IOERR }

/-- Modelled from the spec: `bio_add_page` of the block layer, which is not among the
sources. Section 3 of the specification speaks of what "one operation can address": the
fragment is stored in the next free slot of the vector table and `len` is returned, unless
the table is full or the size would pass `UINT_MAX`, when nothing changes and 0 is
returned. -/
def bio_add_page (b : bio) (page len offset : Nat) : bio × Nat :=
  if b.bi_vcnt < b.bi_max_vecs ∧ b.bi_size + len ≤ UINT_MAX then
    ({ b with
        bi_io_vec :=
          b.bi_io_vec.set b.bi_vcnt { bv_page := page, bv_len := len, bv_offset := offset },
        bi_vcnt := b.bi_vcnt + 1,
        bi_size := b.bi_size + len }, len)
  else (b, 0)

/-- Modelled from the spec: `bio_init` of the block layer: a zeroed bio over the given
vector table. -/
def bio_init (id : Nat) (is_inline : Bool) (table : List bio_vec) (max_vecs : Nat) : bio :=
  { id := id, is_inline := is_inline, bi_sector := 0, bi_size := 0,
    bi_opf := { REQ_OP_WRITE := false, REQ_SYNC := false, REQ_IDLE := false,
                REQ_FUA := false, REQ_NOMERGE := false },
    bi_status := blk_status_t.BLK_STS_OK, bi_end_io := bio_end_io_t.unset,
    bi_private := bi_private_t.unset, bi_remaining := 1, bi_max_vecs := max_vecs,
    bi_vcnt := 0, bi_io_vec := table, xrp_enabled := false, xrp_scratch_page := 0,
    xrp_count := 0, xrp_cur_fd := 0, xrp_bpf_prog := 0, xrp_fd_info_arr := [],
    xrp_fd_count := 0 }

/-- Where a part of `nvmet_bdev_execute_rw` leaves the function: it has returned, or it
goes on with the current `bio`, `sector` and `sg_cnt`. -/
inductive rw_step where
  | returned (w : world)
  | running (w : world) (b : bio) (sector : Nat) (sg_cnt : Nat)

/-- The page of the first entry of the scatter list, `sg_page(req->sg)`. -/
def first_sg_page (req : nvmet_req) : Nat :=
  match req.sg with
  | [] => 0
  | sg :: _ => sg.page

/-- The `while` loop of lines 472-491 for the scatter list entry `sg`; the first argument
bounds the number of iterations, `none` when it is used up. -/
def rw_add_loop (env : rw_env) (op : req_opf) (sg : scatterlist) :
    Nat → world → bio → Nat → Nat → Option rw_step
  | 0, _, _, _, _ => none
  | fuel + 1, w, b, sector, sg_cnt =>
    let r := bio_add_page b sg.page sg.length sg.offset
    if r.2 ≠ sg.length then
      let prev := r.1
      if w.req.metadata_len ≠ 0 ∧ env.nvmet_bdev_alloc_bip prev ≠ 0 then
        (bio_io_error env.cpu env.nvmeof_xrp_use_hugepages w prev).map rw_step.returned
      else
        let nr := env.bio_max_segs sg_cnt
        let fresh : bio :=
          { bio_init (prev.id + 1) false (env.bio_alloc_table nr) nr with
            bi_sector := sector, bi_opf := op,
            bi_private := bi_private_t.parent prev.id,
            bi_end_io := bio_end_io_t.bio_chain_endio }
        let prev' : bio := { prev with bi_remaining := prev.bi_remaining + 1 }
        rw_add_loop env op sg fuel (w.emit (event.submit_bio prev')) fresh sector sg_cnt
    else some (rw_step.running w r.1 sector sg_cnt)

/-- The `for_each_sg` loop of lines 471-495 over the remaining entries of the scatter list. -/
def rw_sg_loop (env : rw_env) (op : req_opf) (fuel : Nat) :
    List scatterlist → world → bio → Nat → Nat → Option rw_step
  | [], w, b, sector, sg_cnt => some (rw_step.running w b sector sg_cnt)
  | sg :: rest, w, b, sector, sg_cnt =>
    match rw_add_loop env op sg fuel w b sector sg_cnt with
    | none => none
    | some (rw_step.returned w') => some (rw_step.returned w')
    | some (rw_step.running w' b' _ _) =>
      rw_sg_loop env op fuel rest w' b' ((sector + sg.length / 512) % 2 ^ 64) (sg_cnt - 1)

/-- The branch at the label `no_xrp` (lines 467-496). -/
def rw_no_xrp (env : rw_env) (op : req_opf) (fuel : Nat) (w : world) (b : bio)
    (sector sg_cnt : Nat) : Option rw_step :=
  rw_sg_loop env op fuel w.req.sg w { b with xrp_enabled := false } sector sg_cnt

/-- The byte offset in the scratch page at which the executor reads the descriptor:
`scratch_buffer_addr + PAGE_SIZE - 1 - sizeof(struct bpfof_cmd_config)` (line 391). -/
def xrp_config_offset : Nat := PAGE_SIZE - 1 - sizeof_bpfof_cmd_config

/-- The call of `deserialize_bpfof_cmd_config` at lines 390-392 on the scratch page. -/
def xrp_read_config (env : rw_env) (scratch_page : Nat) : Int × bpfof_cmd_config :=
  deserialize_bpfof_cmd_config ((env.page_address scratch_page).drop xrp_config_offset)
    sizeof_bpfof_cmd_config { data_buffer_size := 0, bpfof_fd_info_arr := [] }

/-- The branch for `nvme_cmd_xrp_read` (lines 367-465). -/
def rw_xrp (env : rw_env) (op : req_opf) (fuel : Nat) (w : world) (b : bio)
    (sector sg_cnt : Nat) : Option rw_step :=
  let fail := fun (w' : world) (b' : bio) =>
    (bio_io_error env.cpu env.nvmeof_xrp_use_hugepages w' b').map rw_step.returned
  match env.driver_get_nvmeof_xrp_info with
  | none => fail w b
  | some resolver =>
    let b1 : bio := { b with xrp_scratch_page := first_sg_page w.req }
    let d := xrp_read_config env b1.xrp_scratch_page
    if d.1 < 0 then fail w b1
    else
      let info := resolver d.2.bpfof_fd_info_arr
      let b2 : bio :=
        { b1 with xrp_fd_info_arr := info.xrp_fd_info_arr, xrp_fd_count := info.xrp_fd_count }
      if info.ret ≠ 0 then fail w b2
      else if !info.xrp_enabled then fail w b2
      else
        let b3 : bio :=
          { b2 with
            xrp_count := 1, xrp_enabled := true,
            xrp_cur_fd := (b2.xrp_fd_info_arr.head?.map (fun x => x.fd)).getD 0,
            xrp_bpf_prog := info.xrp_prog }
        let xrp_read_length : Int := int_of_u32 d.2.data_buffer_size
        let alloc : Option (List hugepage_pool_entry × Nat) :=
          if !env.nvmeof_xrp_use_hugepages then some (w.hugepage_pool, env.alloc_page)
          else get_available_hugepage w.hugepage_pool env.cpu
        match alloc with
        | none => none
        | some (pool', data_page) =>
          let w1 : world := { w with hugepage_pool := pool' }
          if env.nvmeof_xrp_use_hugepages ∧ data_page = 0 then fail w1 b3
          else if xrp_read_length > 2 ^ 21 then fail w1 b3
          else if xrp_read_length = 0 then rw_no_xrp env op fuel w1 b3 sector sg_cnt
          else
            let r := bio_add_page b3 data_page (u32_of_int xrp_read_length) 0
            if int_of_u32 r.2 ≠ xrp_read_length then fail w1 r.1
            else some (rw_step.running w1 r.1 sector sg_cnt)

/-- The value of `op` after lines 334-344: the write flags for `nvme_cmd_write`,
`REQ_OP_READ` for every other opcode, and `REQ_NOMERGE` for a peer-to-peer page. -/
def rw_op (env : rw_env) (req : nvmet_req) : req_opf :=
  let op0 : req_opf :=
    if req.opcode = nvme_opcode.nvme_cmd_write then
      { REQ_OP_WRITE := true, REQ_SYNC := true, REQ_IDLE := true, REQ_FUA := req.fua,
        REQ_NOMERGE := false }
    else
      { REQ_OP_WRITE := false, REQ_SYNC := false, REQ_IDLE := false, REQ_FUA := false,
        REQ_NOMERGE := false }
  if env.is_pci_p2pdma_page (first_sg_page req) then { op0 with REQ_NOMERGE := true }
  else op0

/-- The first bio of the command as lines 346-359 set it up: the inline bio of the request
or an allocated one, with sector, owner, callback and flags. -/
def rw_first_bio (env : rw_env) (req : nvmet_req) : bio :=
  let bio0 : bio :=
    if req.transfer_len ≤ env.NVMET_MAX_INLINE_DATA_LEN then
      bio_init 0 true req.inline_bvec req.inline_bvec.length
    else
      bio_init 0 false (env.bio_alloc_table (env.bio_max_segs req.sg.length))
        (env.bio_max_segs req.sg.length)
  { bio0 with
    bi_sector := env.nvmet_lba_to_sect req.slba, bi_private := bi_private_t.req,
    bi_end_io := bio_end_io_t.nvmet_bio_done, bi_opf := rw_op env req }

/-- The function `nvmet_bdev_execute_rw` run in the environment `env`; `fuel` bounds the
iterations of each `while` loop of lines 472-491, and `none` is used-up fuel or an access
outside an array. -/
def nvmet_bdev_execute_rw (env : rw_env) (fuel : Nat) (w : world) : Option world :=
  if !env.nvmet_check_transfer_len then some w
  else if w.req.sg.length = 0 then
    some (w.emit (event.nvmet_req_complete { sc := nvme_sc.NVME_SC_SUCCESS, dnr := false }))
  else
    let sg_cnt := w.req.sg.length
    let op := rw_op env w.req
    let sector := env.nvmet_lba_to_sect w.req.slba
    let b := rw_first_bio env w.req
    let step : Option rw_step :=
      if w.req.opcode = nvme_opcode.nvme_cmd_xrp_read then rw_xrp env op fuel w b sector sg_cnt
      else rw_no_xrp env op fuel w b sector sg_cnt
    match step with
    | none => none
    | some (rw_step.returned w') => some w'
    | some (rw_step.running w' b' _ _) =>
      if w'.req.metadata_len ≠ 0 ∧ env.nvmet_bdev_alloc_bip b' ≠ 0 then
        bio_io_error env.cpu env.nvmeof_xrp_use_hugepages w' b'
      else some (w'.emit (event.submit_bio b'))

/-! ## Concrete inputs -/

/-- An environment for an offload read on processor `cpu` with the pool enabled: the
transfer length check passes, the resolver reports "enabled" with program handle 77 and
hands back the pairs it is given, and every page holds the bytes `scratch`. -/
def xrp_env (scratch : List Nat) (cpu : Nat) : rw_env :=
  { cpu := cpu,
    nvmeof_xrp_use_hugepages := true,
    nvmet_check_transfer_len := true,
    is_pci_p2pdma_page := fun _ => false,
    nvmet_lba_to_sect := fun lba => lba * 8,
    NVMET_MAX_INLINE_DATA_LEN := 32768,
    bio_max_segs := fun n => min n 256,
    bio_alloc_table := fun n => List.replicate n { bv_page := 0, bv_len := 0, bv_offset := 0 },
    driver_get_nvmeof_xrp_info := some (fun arr =>
      { ret := 0, xrp_enabled := true, xrp_prog := 77,
        xrp_fd_info_arr := arr.map (fun e => { fd := e.fd, i_ino := e.inode_identifier }),
        xrp_fd_count := 1 }),
    page_address := fun _ => scratch,
    alloc_page := 900,
    nvmet_bdev_alloc_bip := fun _ => 0 }

/-- An offload read of one page at logical block 16, with the scratch page 5 as its only
scatter list entry, on a pool of two processors that is all available. -/
def xrp_world : world :=
  { req :=
      { opcode := nvme_opcode.nvme_cmd_xrp_read, slba := 16, fua := false,
        sg := [{ page := 5, length := 4096, offset := 0 }],
        transfer_len := 4096, metadata_len := 0,
        inline_bvec := List.replicate 8 { bv_page := 0, bv_len := 0, bv_offset := 0 },
        error_loc := error_loc_t.other 65535, error_slba := 0 },
    hugepage_pool := fresh_pool 1 200,
    trace := [] }

/-- A scratch page of zero bytes. -/
def zero_page : List Nat := List.replicate 4096 0

/-- A scratch page that is zero except for the byte at offset 3971, which is 1. -/
def one_at_3971_page : List Nat :=
  List.replicate 3971 0 ++ 1 :: List.replicate 124 0

/-- The first 4095 bytes of a scratch page holding, at offset 3971, a record with
`data_buffer_size` 4096 (bytes `00 10 00 00`) and ten zero pairs. -/
def size_4096_bytes : List Nat :=
  List.replicate 3971 0 ++ 0 :: 16 :: List.replicate 122 0

/-- The scratch page made of `size_4096_bytes` and a last byte 0. -/
def size_4096_page : List Nat := size_4096_bytes ++ [0]

/-- The scratch page made of `size_4096_bytes` and a last byte 255. -/
def size_4096_page_last_255 : List Nat := size_4096_bytes ++ [255]

/-- The device completes the bio that was submitted last, with the status the bio holds
(`BLK_STS_OK`), and the callback `nvmet_bio_done` runs on processor `cpu`. -/
def complete_last_submitted (cpu : Nat) (nvmeof_xrp_use_hugepages : Bool) (w : world) :
    Option world :=
  match w.trace.getLast? with
  | some (event.submit_bio b) => nvmet_bio_done cpu nvmeof_xrp_use_hugepages w b
  | _ => none

/-- A resolver that returns 0 and reports "not enabled". -/
def not_enabled_resolver : List bpfof_fd_info → xrp_info :=
  fun _ => { ret := 0, xrp_enabled := false, xrp_prog := 0, xrp_fd_info_arr := [],
             xrp_fd_count := 0 }

/-- The environment `xrp_env` with a valid descriptor of size 4096 in the scratch page and
the resolver `not_enabled_resolver`. -/
def xrp_env_not_enabled : rw_env :=
  { xrp_env size_4096_page 0 with driver_get_nvmeof_xrp_info := some not_enabled_resolver }

/-- A scratch page holding, at offset 3971, a record with `data_buffer_size` 2^31
(bytes `00 00 00 80`) and ten zero pairs. -/
def size_2g_page : List Nat :=
  List.replicate 3971 0 ++ 0 :: 0 :: 0 :: 128 :: List.replicate 121 0

/-- A scratch page holding, at offset 3971, a record with `data_buffer_size` 8192
(bytes `00 20 00 00`) and ten zero pairs. -/
def size_8192_page : List Nat :=
  List.replicate 3971 0 ++ 0 :: 32 :: List.replicate 123 0

/-- A scratch page holding, at offset 3971, a record with `data_buffer_size` 2^21 + 1
(bytes `01 00 20 00`) and ten zero pairs. -/
def size_over_2m_page : List Nat :=
  List.replicate 3971 0 ++ 1 :: 0 :: 32 :: List.replicate 122 0

/-- The environment `xrp_env` on processor 0 with the pool switched off
(`nvmeof_xrp_use_hugepages == false`) and `alloc_page` returning `page`. -/
def xrp_env_alloc_page (scratch : List Nat) (page : Nat) : rw_env :=
  { xrp_env scratch 0 with nvmeof_xrp_use_hugepages := false, alloc_page := page }

/-- The used vectors (the first `bi_vcnt` slots of the table) of the bios passed to
`submit_bio`, in order of submission. -/
def submitted_vecs (w : world) : List (List bio_vec) :=
  w.trace.filterMap (fun e =>
    match e with
    | event.submit_bio b => some (b.bi_io_vec.take b.bi_vcnt)
    | _ => none)

/-- The statuses passed to `nvmet_req_complete`, in order. -/
def completions (w : world) : List nvme_status :=
  w.trace.filterMap (fun e =>
    match e with
    | event.nvmet_req_complete s => some s
    | _ => none)

/-! ## The pool initialisation (io-cmd-bdev.c, lines 20-38) -/

/-- The globals `hugepage_pool` (`none` is `NULL`), `hugepage_pool_size`, `num_cpus` and
`nvmeof_xrp_use_hugepages`. -/
structure pool_globals where
  hugepage_pool : Option (List hugepage_pool_entry)
  hugepage_pool_size : Nat
  num_cpus : Nat
  nvmeof_xrp_use_hugepages : Bool
deriving DecidableEq, Repr

/-- The `for` loop of `hugepage_pool_init_for_all_cpus`: `alloc_pages i` is what the call
of `alloc_pages(GFP_KERNEL, 9)` for entry `i` returns (`0` for `NULL`); `none` is a write
outside the array. -/
def hugepage_pool_init_loop (alloc_pages : Nat → Nat) :
    Nat → Nat → List hugepage_pool_entry → Option (List hugepage_pool_entry)
  | _, 0, pool => some pool
  | i, n + 1, pool =>
    if i < pool.length then
      hugepage_pool_init_loop alloc_pages (i + 1) n
        (pool.set i { page := alloc_pages i, in_use := false })
    else none

/-- The function `hugepage_pool_init_for_all_cpus`: `kmalloc_array n` is the memory that
`kmalloc_array(n, sizeof(struct hugepage_pool_entry), GFP_KERNEL)` returns, with whatever
it holds, or `none` for `NULL`; the result is `none` when the loop writes through the
`NULL` pointer or outside the array. -/
def hugepage_pool_init_for_all_cpus (num_online_cpus : Nat)
    (kmalloc_array : Nat → Option (List hugepage_pool_entry)) (alloc_pages : Nat → Nat)
    (g : pool_globals) : Option pool_globals :=
  let num_cpus := num_online_cpus
  let hugepage_pool := kmalloc_array (num_cpus * HUGEPAGE_POOL_SIZE)
  let hugepage_pool_size := num_cpus * HUGEPAGE_POOL_SIZE
  match hugepage_pool with
  | none =>
    if hugepage_pool_size = 0 then
      some { g with hugepage_pool := none, hugepage_pool_size := hugepage_pool_size,
                    num_cpus := num_cpus }
    else none
  | some mem =>
    match hugepage_pool_init_loop alloc_pages 0 hugepage_pool_size mem with
    | none => none
    | some pool =>
      some { g with hugepage_pool := some pool, hugepage_pool_size := hugepage_pool_size,
                    num_cpus := num_cpus }

/-- An allocator for one processor whose first `alloc_pages` fails: `kmalloc_array` hands
out memory holding stale entries, `alloc_pages` returns `NULL` for entry 0 and the page
`1000 + i` for every other entry `i`. -/
def failing_alloc_pages : Nat → Nat := fun i => if i = 0 then 0 else 1000 + i

/-- Memory of `n` stale pool entries. -/
def stale_memory : Nat → Option (List hugepage_pool_entry) :=
  fun n => some (List.replicate n { page := 7, in_use := true })

/-- The globals before the initialisation, with the pool feature switched on. -/
def globals_before_init : pool_globals :=
  { hugepage_pool := none, hugepage_pool_size := 0, num_cpus := 0,
    nvmeof_xrp_use_hugepages := true }

/-! ## The discard path (io-cmd-bdev.c, lines 530-571) -/

/-- A `struct nvme_dsm_range` with its three little-endian fields decoded. -/
structure nvme_dsm_range where
  cattr : Nat
  nlb : Nat
  slba : Nat
deriving DecidableEq, Repr

/-- The collaborators of `nvmet_bdev_execute_discard` and the values it only reads: the
processor, the flag `nvmeof_xrp_use_hugepages`, the field `dsm.nr` (decoded),
`sizeof(struct nvme_dsm_range)`, `ns->blksize_shift`, `nvmet_lba_to_sect`,
`nvmet_copy_from_sgl` (given the byte offset: the status, the `error_loc` it writes if
any, and the range it copies), `__blkdev_issue_discard` (given sector, sector count and
the current `*bio`: the return code and the new `*bio`), the errno `EOPNOTSUPP`, and
`errno_to_nvme_status` (the status and the `error_loc` it writes if any). -/
structure discard_env where
  cpu : Nat
  nvmeof_xrp_use_hugepages : Bool
  nr : Nat
  sizeof_nvme_dsm_range : Nat
  blksize_shift : Nat
  nvmet_lba_to_sect : Nat → Nat
  nvmet_copy_from_sgl : Nat → nvme_status × Option error_loc_t × nvme_dsm_range
  blkdev_issue_discard : Nat → Nat → Option bio → Int × Option bio
  EOPNOTSUPP : Int
  errno_to_nvme_status : Int → nvme_status × Option error_loc_t

/-- The status 0, `NVME_SC_SUCCESS`. -/
def nvme_success : nvme_status := { sc := nvme_sc.NVME_SC_SUCCESS, dnr := false }

/-- The sector count `le32_to_cpu(range->nlb) << (ns->blksize_shift - 9)`, a 32-bit value. -/
def discard_nr_sects (env : discard_env) (range : nvme_dsm_range) : Nat :=
  (range.nlb * 2 ^ (env.blksize_shift - 9)) % 2 ^ 32

/-- The function `nvmet_bdev_discard_range` called with `*bio` equal to `cur`: the world,
`*bio` and the status afterwards. -/
def nvmet_bdev_discard_range (env : discard_env) (w : world) (range : nvme_dsm_range)
    (cur : Option bio) : world × Option bio × nvme_status :=
  let sector := env.nvmet_lba_to_sect range.slba
  let nr_sects := discard_nr_sects env range
  let r := env.blkdev_issue_discard sector nr_sects cur
  let w1 := w.emit (event.blkdev_issue_discard sector nr_sects)
  if r.1 ≠ 0 ∧ r.1 ≠ -env.EOPNOTSUPP then
    let s := env.errno_to_nvme_status r.1
    ({ w1 with req := { w1.req with error_slba := range.slba,
                                    error_loc := s.2.getD w1.req.error_loc } }, r.2, s.1)
  else (w1, r.2, nvme_success)

/-- The world after `nvmet_copy_from_sgl` has been called for the range with index `i`:
`req->error_loc` holds what the call wrote, if it wrote. -/
def after_copy (env : discard_env) (w : world) (i : Nat) : world :=
  let c := env.nvmet_copy_from_sgl (i * env.sizeof_nvme_dsm_range)
  { w with req := { w.req with error_loc := c.2.1.getD w.req.error_loc } }

/-- The `for` loop of `nvmet_bdev_execute_discard`: `i` is the loop variable, the first
argument the number of iterations left before `i` passes `dsm.nr`; `none` is an overflow
of the `int i`. -/
def discard_loop (env : discard_env) :
    Nat → Nat → world → Option bio → nvme_status → Option (world × Option bio × nvme_status)
  | 0, _, w, cur, status => some (w, cur, status)
  | n + 1, i, w, cur, _ =>
    let c := env.nvmet_copy_from_sgl (i * env.sizeof_nvme_dsm_range)
    let w1 : world := after_copy env w i
    if c.1 ≠ nvme_success then some (w1, cur, c.1)
    else
      let d := nvmet_bdev_discard_range env w1 c.2.2 cur
      if d.2.2 ≠ nvme_success then some d
      else if i + 1 < 2 ^ 31 then discard_loop env n (i + 1) d.1 d.2.1 d.2.2
      else none

/-- The function `nvmet_bdev_execute_discard`. -/
def nvmet_bdev_execute_discard (env : discard_env) (w : world) : Option world :=
  match discard_loop env (env.nr + 1) 0 w none nvme_success with
  | none => none
  | some (w1, cur, status) =>
    match cur with
    | some b =>
      let b' : bio :=
        { b with bi_private := bi_private_t.req, bi_end_io := bio_end_io_t.nvmet_bio_done }
      if status ≠ nvme_success then bio_io_error env.cpu env.nvmeof_xrp_use_hugepages w1 b'
      else some (w1.emit (event.submit_bio b'))
    | none => some (w1.emit (event.nvmet_req_complete status))

/-- The range with index `i`, as `nvmet_copy_from_sgl` reads it from byte offset
`i * sizeof(struct nvme_dsm_range)` of the scatter list. -/
def dsm_range (env : discard_env) (i : Nat) : nvme_dsm_range :=
  (env.nvmet_copy_from_sgl (i * env.sizeof_nvme_dsm_range)).2.2

/-- The status of the copy of the range with index `i`. -/
def copy_status (env : discard_env) (i : Nat) : nvme_status :=
  (env.nvmet_copy_from_sgl (i * env.sizeof_nvme_dsm_range)).1

/-- The status that `nvmet_bdev_discard_range` returns for the range with index `i` when
the current `*bio` is `cur`. -/
def discard_status (env : discard_env) (i : Nat) (cur : Option bio) : nvme_status :=
  let r := env.blkdev_issue_discard (env.nvmet_lba_to_sect (dsm_range env i).slba)
    (discard_nr_sects env (dsm_range env i)) cur
  if r.1 ≠ 0 ∧ r.1 ≠ -env.EOPNOTSUPP then (env.errno_to_nvme_status r.1).1 else nvme_success

/-- The call of `__blkdev_issue_discard` for the range with index `i`. -/
def discard_event (env : discard_env) (i : Nat) : event :=
  event.blkdev_issue_discard (env.nvmet_lba_to_sect (dsm_range env i).slba)
    (discard_nr_sects env (dsm_range env i))

/-- The discard calls recorded in a trace, in order. -/
def discard_calls (trace : List event) : List event :=
  trace.filter (fun e =>
    match e with
    | event.blkdev_issue_discard _ _ => true
    | _ => false)

/-- A deallocate command. -/
def dsm_world : world :=
  { req :=
      { opcode := nvme_opcode.nvme_cmd_dsm, slba := 0, fua := false,
        sg := [{ page := 5, length := 4096, offset := 0 }],
        transfer_len := 32, metadata_len := 0, inline_bvec := [],
        error_loc := error_loc_t.other 65535, error_slba := 0 },
    hugepage_pool := [],
    trace := [] }

/-- A deallocate of two ranges of 8 blocks, at blocks 0 and 4096 (`dsm.nr` is 1): every
copy succeeds, the discard of the range at sector 0 succeeds and hands back a bio, the
discard of any other range returns -28 (`-ENOSPC`), which `errno_to_nvme_status` maps to
`NVME_SC_CAP_EXCEEDED | NVME_SC_DNR`. -/
def discard_env_second_fails : discard_env :=
  { cpu := 0,
    nvmeof_xrp_use_hugepages := false,
    nr := 1,
    sizeof_nvme_dsm_range := 16,
    blksize_shift := 12,
    nvmet_lba_to_sect := fun lba => lba * 8,
    nvmet_copy_from_sgl := fun off =>
      (nvme_success, none, { cattr := 0, nlb := 8, slba := 4096 * (off / 16) }),
    blkdev_issue_discard := fun sector _ cur =>
      if sector = 0 then (0, some (bio_init 0 false [] 0)) else (-28, cur),
    EOPNOTSUPP := 95,
    errno_to_nvme_status := fun e =>
      if e = -28 then
        ({ sc := nvme_sc.NVME_SC_CAP_EXCEEDED, dnr := true }, some error_loc_t.offsetof_rw_length)
      else
        ({ sc := nvme_sc.NVME_SC_INTERNAL, dnr := true },
          some error_loc_t.offsetof_common_opcode) }

/-- A deallocate of three ranges (`dsm.nr` is 2) on a device without discard support:
every copy succeeds and every discard returns -95 (`-EOPNOTSUPP`) without a bio. -/
def discard_env_unsupported : discard_env :=
  { discard_env_second_fails with
    nr := 2,
    blkdev_issue_discard := fun _ _ cur => (-95, cur) }

/-! ## Completion of a chain of bios

The block layer is not among the sources. The definitions of this section are modelled
from the spec: section 6 gives "invoking operation.completion_callback(status) exactly
once, asynchronously", and the chaining contract is that a chained parent completes only
after itself and its chained child have completed. -/

/-- The bios passed to `submit_bio`, in order of submission. -/
def submitted_bios (trace : List event) : List bio :=
  trace.filterMap (fun e =>
    match e with
    | event.submit_bio b => some b
    | _ => none)

/-- Modelled from the spec: the state of the block layer for the submitted bios of one
command, by bio number: the counter `__bi_remaining` and `bi_status` of each, and the
world. -/
structure chain_state where
  remaining : List Nat
  status : List blk_status_t
  w : world

/-- Modelled from the spec: the state when the bios `bios` have just been submitted. -/
def chain_init (bios : List bio) (w : world) : chain_state :=
  { remaining := bios.map (fun b => b.bi_remaining),
    status := bios.map (fun b => b.bi_status),
    w := w }

/-- Modelled from the spec: `bio_endio` on the bio number `id`, on processor `cpu`. The
counter of the bio is decremented; when it reaches zero, a chained bio hands its status
to its parent, is put, and `bio_endio` goes on with the parent, and a bio whose callback is
`nvmet_bio_done` has it called. The first argument bounds the length of the walk up the
chain. -/
def chain_bio_endio (cpu : Nat) (nvmeof_xrp_use_hugepages : Bool) (bios : List bio) :
    Nat → chain_state → Nat → Option chain_state
  | 0, _, _ => none
  | fuel + 1, st, id =>
    match bios[id]?, st.remaining[id]?, st.status[id]? with
    | some b, some r, some sts =>
      let st1 : chain_state := { st with remaining := st.remaining.set id (r - 1) }
      if r - 1 ≠ 0 then some st1
      else
        match b.bi_end_io, b.bi_private with
        | bio_end_io_t.bio_chain_endio, bi_private_t.parent p =>
          let st2 : chain_state :=
            if sts ≠ blk_status_t.BLK_STS_OK ∧
                st1.status[p]? = some blk_status_t.BLK_STS_OK then
              { st1 with status := st1.status.set p sts }
            else st1
          chain_bio_endio cpu nvmeof_xrp_use_hugepages bios fuel
            { st2 with w := st2.w.emit (event.bio_put b) } p
        | bio_end_io_t.nvmet_bio_done, _ =>
          (nvmet_bio_done cpu nvmeof_xrp_use_hugepages st1.w { b with bi_status := sts }).map
            (fun w' => { st1 with w := w' })
        | _, _ => some st1
    | _, _, _ => none

/-- The completion of one submitted bio by the device: the number of the bio, the status
the device reports, and the processor on which the completion runs. -/
structure completion where
  id : Nat
  status : blk_status_t
  cpu : Nat
deriving DecidableEq, Repr

/-- Modelled from the spec: the device completes one bio: a failure status is stored in
the bio, then `bio_endio` is called. -/
def device_complete (nvmeof_xrp_use_hugepages : Bool) (bios : List bio) (st : chain_state)
    (c : completion) : Option chain_state :=
  let st1 : chain_state :=
    if c.status ≠ blk_status_t.BLK_STS_OK then
      { st with status := st.status.set c.id c.status }
    else st
  chain_bio_endio c.cpu nvmeof_xrp_use_hugepages bios (bios.length + 1) st1 c.id

/-- Modelled from the spec: the device completes the bios in the order of the list. -/
def device_complete_all (nvmeof_xrp_use_hugepages : Bool) (bios : List bio) :
    List completion → chain_state → Option chain_state
  | [], st => some st
  | c :: rest, st =>
    match device_complete nvmeof_xrp_use_hugepages bios st c with
    | none => none
    | some st1 => device_complete_all nvmeof_xrp_use_hugepages bios rest st1

/-- The shape of the chain that `nvmet_bdev_execute_rw` builds: bio `j` has number `j`, is
not an offload bio, bio 0 has the callback `nvmet_bio_done`, every later bio is chained to
the bio before it, and every bio but the last is waited on by the next one
(`__bi_remaining` is 2). -/
def chain_shape (bios : List bio) : Prop :=
  ∀ j b, bios[j]? = some b →
    b.id = j ∧ b.xrp_enabled = false ∧
    b.bi_remaining = (if j + 1 = bios.length then 1 else 2) ∧
    (j = 0 → b.bi_end_io = bio_end_io_t.nvmet_bio_done) ∧
    (0 < j → b.bi_end_io = bio_end_io_t.bio_chain_endio ∧
      b.bi_private = bi_private_t.parent (j - 1))

/-- Every bio after `i` is among the completed ones `done`. -/
def later_done (n : Nat) (done : List Nat) (i : Nat) : Prop :=
  ∀ j, i < j → j < n → j ∈ done

/-- The counter of bio `i` when the bios `done` have been completed by the device, plus
`extra`: one for the bio's own completion if it is still to come, one for the chained
bio after it if that one has not finished. -/
def remaining_ok (n : Nat) (done : List Nat) (remaining : List Nat) (i extra : Nat) : Prop :=
  ∃ a s, remaining[i]? = some (a + s + extra) ∧
    (i ∈ done → a = 0) ∧ (i ∉ done → a = 1) ∧
    (later_done n done i → s = 0) ∧ (¬ later_done n done i → s = 1)

/-- The state of the chain inside the loop of `nvmet_bdev_execute_rw`: `subs` are the bios
submitted so far and `b` is the current one. Every submitted bio is waited on by the bio
after it (`__bi_remaining` is 2), the current bio is not. -/
def chain_open (subs : List bio) (b : bio) : Prop :=
  (∀ j s, subs[j]? = some s →
    s.id = j ∧ s.xrp_enabled = false ∧ s.bi_remaining = 2 ∧
    (j = 0 → s.bi_end_io = bio_end_io_t.nvmet_bio_done) ∧
    (0 < j → s.bi_end_io = bio_end_io_t.bio_chain_endio ∧
      s.bi_private = bi_private_t.parent (j - 1))) ∧
  b.id = subs.length ∧ b.xrp_enabled = false ∧ b.bi_remaining = 1 ∧
  (subs.length = 0 → b.bi_end_io = bio_end_io_t.nvmet_bio_done) ∧
  (0 < subs.length → b.bi_end_io = bio_end_io_t.bio_chain_endio ∧
    b.bi_private = bi_private_t.parent (subs.length - 1))

/-- An environment for a plain read or write on a device whose allocated bios hold one
fragment each (`bio_max_segs` returns 1). -/
def chain_env : rw_env :=
  { xrp_env [] 0 with bio_max_segs := fun _ => 1 }

/-- A write of three fragments of 16384 bytes at logical block 16; the transfer is too
long for the inline bio. -/
def chain_world : world :=
  { req :=
      { opcode := nvme_opcode.nvme_cmd_write, slba := 16, fua := false,
        sg := [{ page := 5, length := 16384, offset := 0 },
               { page := 6, length := 16384, offset := 0 },
               { page := 7, length := 16384, offset := 0 }],
        transfer_len := 49152, metadata_len := 0,
        inline_bvec := List.replicate 8 { bv_page := 0, bv_len := 0, bv_offset := 0 },
        error_loc := error_loc_t.other 65535, error_slba := 0 },
    hugepage_pool := [],
    trace := [] }

/-- The world after `nvmet_bdev_execute_rw` has run on `chain_world`. -/
def chain_world_submitted : world :=
  (nvmet_bdev_execute_rw chain_env 2 chain_world).getD chain_world

/-- The device completes bio 2, then bio 0, then bio 1 with an error, on two processors. -/
def chain_order : List completion :=
  [{ id := 2, status := blk_status_t.BLK_STS_OK, cpu := 0 },
   { id := 0, status := blk_status_t.BLK_STS_OK, cpu := 1 },
   { id := 1, status := blk_status_t.BLK_STS_IOERR, cpu := 0 }]

/-! ## The geometry of a chain (io-cmd-bdev.c, lines 346-359 and 467-506) -/

/-- The vector that `bio_add_page` stores for the scatter list entry `sg`. -/
def sg_vec (sg : scatterlist) : bio_vec :=
  { bv_page := sg.page, bv_len := sg.length, bv_offset := sg.offset }

/-- The number of sectors by which the loop of lines 471-495 advances `sector` over the
entries `sgl`: the sum of `sg->length >> 9`. -/
def sectors_of (sgl : List scatterlist) : Nat :=
  (sgl.map (fun sg => sg.length / 512)).sum

/-- The bios `bios` carry the fragments of `chunks`, one run of consecutive fragments per
bio: bio `k` holds exactly the fragments of `chunks[k]` in its used vectors, at least one,
it starts at the sector `s0` advanced (in 64-bit arithmetic) by the sectors of all
fragments before its first one, and its size is the sum of the lengths of its fragments. -/
def chain_geometry (s0 : Nat) (chunks : List (List scatterlist)) (bios : List bio) : Prop :=
  chunks.length = bios.length ∧
  ∀ k c b, chunks[k]? = some c → bios[k]? = some b →
    c ≠ [] ∧ b.bi_io_vec.take b.bi_vcnt = c.map sg_vec ∧
    b.bi_sector = (s0 + sectors_of (chunks.take k).flatten) % 2 ^ 64 ∧
    b.bi_size = (c.map (fun sg => sg.length)).sum

/-- The state of the loop of lines 471-495 when the fragments `done` have been attached:
the submitted bios `subs` carry the chunks before the current one, and the current bio `b`
carries the current chunk in a table of `bi_max_vecs` slots. -/
def geometry_open (s0 : Nat) (done : List scatterlist) (subs : List bio) (b : bio) : Prop :=
  ∃ chunks cur, chunks.flatten ++ cur = done ∧ chain_geometry s0 chunks subs ∧
    (done ≠ [] → cur ≠ []) ∧
    b.bi_io_vec.take b.bi_vcnt = cur.map sg_vec ∧ b.bi_vcnt = cur.length ∧
    b.bi_max_vecs = b.bi_io_vec.length ∧ 0 < b.bi_max_vecs ∧ b.bi_vcnt ≤ b.bi_max_vecs ∧
    b.bi_sector = (s0 + sectors_of chunks.flatten) % 2 ^ 64 ∧
    b.bi_size = (cur.map (fun sg => sg.length)).sum

/-- The write `chain_world` moved to logical block 2^61 - 1, whose first sector is
2^64 - 8. -/
def chain_world_last_sectors : world :=
  { chain_world with req := { chain_world.req with slba := 2 ^ 61 - 1 } }

/-- The write `chain_world` with a second fragment of length 0. -/
def chain_world_empty_fragment : world :=
  { chain_world with
    req := { chain_world.req with
      sg := [{ page := 5, length := 16384, offset := 0 },
             { page := 6, length := 0, offset := 0 },
             { page := 7, length := 16384, offset := 0 }] } }

/-- The start sector and the used vectors of the bios passed to `submit_bio`, in order of
submission. -/
def submitted_layout (w : world) : List (Nat × List bio_vec) :=
  (submitted_bios w.trace).map (fun b => (b.bi_sector, b.bi_io_vec.take b.bi_vcnt))

/-! ## A bio that chained bios wait on

The block layer is not among the sources. The definitions of this section are modelled
from the spec, under the chaining contract that a chained parent completes only after
itself and its chained children have completed. -/

/-- Modelled from the spec: the bio of a `bio_endio` call that found chained bios still
outstanding, as the block layer holds it afterwards: its counter `__bi_remaining` has been
decremented for its own completion. -/
def pending_bio (b : bio) : bio :=
  { b with bi_remaining := b.bi_remaining - 1 }

/-- Modelled from the spec: `bio_chain_endio` of the block layer for a chained bio that
completes with status `sts` on processor `cpu` and whose parent is `parent`, a bio with
the callback `nvmet_bio_done`: a failure status is handed to the parent if the parent
holds none, the chained bio goes on with `bio_endio` of the parent, which decrements the
parent's counter and, when it reaches zero, runs the parent's callback. The result is the
world and the parent as they are left. -/
def bio_chain_endio (cpu : Nat) (nvmeof_xrp_use_hugepages : Bool) (w : world) (parent : bio)
    (sts : blk_status_t) : Option (world × bio) :=
  let p1 : bio :=
    if sts ≠ blk_status_t.BLK_STS_OK ∧ parent.bi_status = blk_status_t.BLK_STS_OK then
      { parent with bi_status := sts }
    else parent
  let p2 : bio := { p1 with bi_remaining := p1.bi_remaining - 1 }
  if p2.bi_remaining ≠ 0 then some (w, p2)
  else (nvmet_bio_done cpu nvmeof_xrp_use_hugepages w p2).map (fun w' => (w', p2))

/-- Modelled from the spec: the chained bios that `parent` waits on complete in the order
of the list, each with its own status and on its own processor. -/
def complete_chained (nvmeof_xrp_use_hugepages : Bool) :
    world → bio → List completion → Option (world × bio)
  | w, parent, [] => some (w, parent)
  | w, parent, c :: rest =>
    match bio_chain_endio c.cpu nvmeof_xrp_use_hugepages w parent c.status with
    | none => none
    | some (w1, parent1) => complete_chained nvmeof_xrp_use_hugepages w1 parent1 rest

/-- The bio that `__blkdev_issue_discard` hands back for the second range of
`discard_env_third_fails`: the bio of the first range has been chained to it and
submitted, so its counter `__bi_remaining` is 2. -/
def discard_chained_bio : bio :=
  { bio_init 1 false [] 0 with bi_remaining := 2 }

/-- A deallocate of three ranges of 8 blocks, at blocks 0, 4096 and 8192 (`dsm.nr` is 2):
every copy succeeds, the discards of the first two ranges succeed, the second handing
back a bio that waits on the bio of the first, and the discard of the third range returns
-28 (`-ENOSPC`). -/
def discard_env_third_fails : discard_env :=
  { discard_env_second_fails with
    nr := 2,
    blkdev_issue_discard := fun sector _ cur =>
      if sector = 0 then (0, some (bio_init 0 false [] 0))
      else if sector = 32768 then (0, some discard_chained_bio)
      else (-28, cur) }

/-- The bio `discard_chained_bio` as `nvmet_bdev_execute_discard` passes it to
`bio_io_error`: owner and callback set, status `BLK_STS_IOERR`. -/
def discard_failed_bio : bio :=
  { discard_chained_bio with
    bi_private := bi_private_t.req,
    bi_end_io := bio_end_io_t.nvmet_bio_done,
    bi_status := blk_status_t.BLK_STS_IOERR }

/-! ## Theorems: the hugepage pool -/

theorem get_loop_spec (pool : List hugepage_pool_entry) (n i : Nat)
    (h : i + n ≤ pool.length) :
    (∃ k e, i ≤ k ∧ k < i + n ∧ pool[k]? = some e ∧ e.in_use = false ∧
        (∀ j e', i ≤ j → j < k → pool[j]? = some e' → e'.in_use = true) ∧
        get_available_hugepage_loop pool i n =
          some (pool.set k { e with in_use := true }, e.page))
    ∨ ((∀ j e', i ≤ j → j < i + n → pool[j]? = some e' → e'.in_use = true) ∧
        get_available_hugepage_loop pool i n = some (pool, 0)) := by
  induction n generalizing i with
  | zero => right; exact ⟨fun j e' h1 h2 => by omega, rfl⟩
  | succ n ih =>
    have hi : i < pool.length := by omega
    have hget : pool[i]? = some pool[i] := List.getElem?_eq_getElem hi
    by_cases hu : pool[i].in_use = false
    · left
      refine ⟨i, pool[i], le_refl _, by omega, hget, hu, fun j e' h1 h2 => by omega, ?_⟩
      simp [get_available_hugepage_loop, hget, hu]
    · have hstep : get_available_hugepage_loop pool i (n + 1) =
          get_available_hugepage_loop pool (i + 1) n := by
        simp [get_available_hugepage_loop, hget, hu]
      have hprev : ∀ j e', i ≤ j → j < i + 1 → pool[j]? = some e' → e'.in_use = true := by
        intro j e' h1 h2 hje
        have hji : j = i := by omega
        subst hji
        rw [hget] at hje
        cases hje
        simpa using hu
      rcases ih (i + 1) (by omega) with ⟨k, e, h1, h2, h3, h4, h5, h6⟩ | ⟨h1, h2⟩
      · left
        refine ⟨k, e, by omega, by omega, h3, h4, ?_, by rw [hstep, h6]⟩
        intro j e' hj1 hj2 hje
        by_cases hji : j < i + 1
        · exact hprev j e' hj1 hji hje
        · exact h5 j e' (by omega) hj2 hje
      · right
        refine ⟨?_, by rw [hstep, h2]⟩
        intro j e' hj1 hj2 hje
        by_cases hji : j < i + 1
        · exact hprev j e' hj1 hji hje
        · exact h1 j e' (by omega) (by omega) hje

theorem put_loop_spec (pool : List hugepage_pool_entry) (p : Nat) (n i : Nat)
    (h : i + n ≤ pool.length) :
    (∃ k e, i ≤ k ∧ k < i + n ∧ pool[k]? = some e ∧ e.page = p ∧
        (∀ j e', i ≤ j → j < k → pool[j]? = some e' → e'.page ≠ p) ∧
        put_hugepage_loop pool p i n =
          if e.in_use = false then some (pool, -1)
          else some (pool.set k { e with in_use := false }, 0))
    ∨ ((∀ j e', i ≤ j → j < i + n → pool[j]? = some e' → e'.page ≠ p) ∧
        put_hugepage_loop pool p i n = some (pool, -1)) := by
  induction n generalizing i with
  | zero => right; exact ⟨fun j e' h1 h2 => by omega, rfl⟩
  | succ n ih =>
    have hi : i < pool.length := by omega
    have hget : pool[i]? = some pool[i] := List.getElem?_eq_getElem hi
    by_cases hu : pool[i].page = p
    · left
      refine ⟨i, pool[i], le_refl _, by omega, hget, hu, fun j e' h1 h2 => by omega, ?_⟩
      simp [put_hugepage_loop, hget, hu]
    · have hstep : put_hugepage_loop pool p i (n + 1) =
          put_hugepage_loop pool p (i + 1) n := by
        simp [put_hugepage_loop, hget, hu]
      have hprev : ∀ j e', i ≤ j → j < i + 1 → pool[j]? = some e' → e'.page ≠ p := by
        intro j e' h1 h2 hje
        have hji : j = i := by omega
        subst hji
        rw [hget] at hje
        cases hje
        exact hu
      rcases ih (i + 1) (by omega) with ⟨k, e, h1, h2, h3, h4, h5, h6⟩ | ⟨h1, h2⟩
      · left
        refine ⟨k, e, by omega, by omega, h3, h4, ?_, by rw [hstep, h6]⟩
        intro j e' hj1 hj2 hje
        by_cases hji : j < i + 1
        · exact hprev j e' hj1 hji hje
        · exact h5 j e' (by omega) hj2 hje
      · right
        refine ⟨?_, by rw [hstep, h2]⟩
        intro j e' hj1 hj2 hje
        by_cases hji : j < i + 1
        · exact hprev j e' hj1 hji hje
        · exact h1 j e' (by omega) (by omega) hje

theorem nodup_pages_index (l : List hugepage_pool_entry)
    (hd : (l.map (fun e => e.page)).Nodup) (i j : Nat) (e e' : hugepage_pool_entry)
    (hi : l[i]? = some e) (hj : l[j]? = some e') (hp : e.page = e'.page) : i = j := by
  have hil : i < l.length := by
    by_contra hc
    rw [List.getElem?_eq_none (by omega)] at hi
    cases hi
  have hjl : j < l.length := by
    by_contra hc
    rw [List.getElem?_eq_none (by omega)] at hj
    cases hj
  rw [List.getElem?_eq_getElem hil] at hi
  rw [List.getElem?_eq_getElem hjl] at hj
  cases hi
  cases hj
  have hi' : i < (l.map (fun e => e.page)).length := by simpa using hil
  have hj' : j < (l.map (fun e => e.page)).length := by simpa using hjl
  have hq : (l.map (fun e => e.page))[i] = (l.map (fun e => e.page))[j] := by
    simpa using hp
  exact (List.Nodup.getElem_inj_iff hd).1 hq

/-- C10: on processor `cpu`, `get_available_hugepage` returns the page of the lowest-index
entry of the slice of `cpu` whose `in_use` flag is false and sets only that flag; it returns
`NULL` and changes nothing when every entry of the slice is in use; it always returns, and
no entry outside the slice of `cpu` changes. -/
theorem get_available_hugepage_contract (hugepage_pool : List hugepage_pool_entry)
    (cpu : Nat)
    (hb : cpu * HUGEPAGE_POOL_SIZE + HUGEPAGE_POOL_SIZE ≤ hugepage_pool.length) :
    (∀ k e, in_slice cpu k → hugepage_pool[k]? = some e → e.in_use = false →
        (∀ j e', in_slice cpu j → j < k → hugepage_pool[j]? = some e' → e'.in_use = true) →
        get_available_hugepage hugepage_pool cpu =
          some (hugepage_pool.set k { page := e.page, in_use := true }, e.page)) ∧
    ((∀ j e', in_slice cpu j → hugepage_pool[j]? = some e' → e'.in_use = true) →
        get_available_hugepage hugepage_pool cpu = some (hugepage_pool, 0)) ∧
    (∃ pool' r, get_available_hugepage hugepage_pool cpu = some (pool', r) ∧
        pool'.length = hugepage_pool.length ∧
        ∀ j, ¬ in_slice cpu j → pool'[j]? = hugepage_pool[j]?) := by
  have hspec := get_loop_spec hugepage_pool HUGEPAGE_POOL_SIZE (cpu * HUGEPAGE_POOL_SIZE) hb
  refine ⟨?_, ?_, ?_⟩
  · intro k e hk hke hfree hlow
    rcases hspec with ⟨k', e', h1, h2, h3, h4, h5, h6⟩ | ⟨h1, _⟩
    · have hkk : k = k' := by
        rcases Nat.lt_trichotomy k k' with hlt | heq | hgt
        · have := h5 k e hk.1 hlt hke
          rw [hfree] at this
          cases this
        · exact heq
        · have := hlow k' e' ⟨h1, h2⟩ hgt h3
          rw [h4] at this
          cases this
      subst hkk
      rw [hke] at h3
      cases h3
      exact h6
    · have := h1 k e hk.1 hk.2 hke
      rw [hfree] at this
      cases this
  · intro hall
    rcases hspec with ⟨k', e', h1, h2, h3, h4, _, _⟩ | ⟨_, h2⟩
    · have := hall k' e' ⟨h1, h2⟩ h3
      rw [h4] at this
      cases this
    · exact h2
  · rcases hspec with ⟨k', e', h1, h2, _, _, _, h6⟩ | ⟨_, h2⟩
    · refine ⟨_, _, h6, by simp, ?_⟩
      intro j hj
      have hne : k' ≠ j := by
        intro hkj
        subst hkj
        exact hj ⟨h1, h2⟩
      exact List.getElem?_set_ne hne
    · exact ⟨_, _, h2, rfl, fun _ _ => rfl⟩

/-- C9: with pairwise distinct pages in the pool, `put_hugepage(p)` on processor `cpu`
returns 0 exactly when an entry of the slice of `cpu` holds `p` and is in use; then exactly
that entry's `in_use` flag is cleared; when no entry of the slice holds `p` it returns `-1`
and changes nothing. -/
theorem put_hugepage_contract (hugepage_pool : List hugepage_pool_entry) (cpu p : Nat)
    (hb : cpu * HUGEPAGE_POOL_SIZE + HUGEPAGE_POOL_SIZE ≤ hugepage_pool.length)
    (hd : (hugepage_pool.map (fun e => e.page)).Nodup) :
    ∃ pool' r, put_hugepage hugepage_pool cpu p = some (pool', r) ∧
      (r = 0 ↔ ∃ k e, in_slice cpu k ∧ hugepage_pool[k]? = some e ∧
          e.page = p ∧ e.in_use = true) ∧
      (∀ k e, in_slice cpu k → hugepage_pool[k]? = some e → e.page = p → e.in_use = true →
          pool' = hugepage_pool.set k { page := p, in_use := false }) ∧
      ((∀ k e, in_slice cpu k → hugepage_pool[k]? = some e → e.page ≠ p) →
          r = -1 ∧ pool' = hugepage_pool) := by
  have hspec := put_loop_spec hugepage_pool p HUGEPAGE_POOL_SIZE (cpu * HUGEPAGE_POOL_SIZE) hb
  rcases hspec with ⟨k', e', h1, h2, h3, h4, _, h6⟩ | ⟨h1, h2⟩
  · have huniq : ∀ k e, hugepage_pool[k]? = some e → e.page = p → k = k' ∧ e = e' := by
      intro k e hke hkp
      have hkk := nodup_pages_index hugepage_pool hd k k' e e' hke h3 (by rw [hkp, h4])
      subst hkk
      rw [hke] at h3
      cases h3
      exact ⟨rfl, rfl⟩
    by_cases hu : e'.in_use = false
    · rw [if_pos hu] at h6
      refine ⟨_, _, h6, ?_, ?_, ?_⟩
      · constructor
        · intro h; cases h
        · rintro ⟨k, e, _, hke, hkp, hin⟩
          obtain ⟨_, rfl⟩ := huniq k e hke hkp
          rw [hu] at hin
          cases hin
      · intro k e _ hke hkp hin
        obtain ⟨_, rfl⟩ := huniq k e hke hkp
        rw [hu] at hin
        cases hin
      · intro _
        exact ⟨rfl, rfl⟩
    · rw [if_neg hu] at h6
      have hu' : e'.in_use = true := by simpa using hu
      refine ⟨_, _, h6, ?_, ?_, ?_⟩
      · constructor
        · intro _
          exact ⟨k', e', ⟨h1, h2⟩, h3, h4, hu'⟩
        · intro _; rfl
      · intro k e _ hke hkp _
        obtain ⟨rfl, rfl⟩ := huniq k e hke hkp
        rw [h4]
      · intro hnone
        exact absurd h4 (hnone k' e' ⟨h1, h2⟩ h3)
  · refine ⟨_, _, h2, ?_, ?_, ?_⟩
    · constructor
      · intro h; cases h
      · rintro ⟨k, e, hk, hke, hkp, _⟩
        exact absurd hkp (h1 k e hk.1 hk.2 hke)
    · intro k e hk hke hkp _
      exact absurd hkp (h1 k e hk.1 hk.2 hke)
    · intro _
      exact ⟨rfl, rfl⟩

theorem pool_slice_getElem? (pool : List hugepage_pool_entry) (cpu k : Nat)
    (hk : in_slice cpu k) :
    (pool_slice pool cpu)[k - cpu * HUGEPAGE_POOL_SIZE]? = pool[k]? := by
  obtain ⟨h1, h2⟩ := hk
  unfold pool_slice
  rw [List.getElem?_take_of_lt (by omega), List.getElem?_drop]
  congr 1
  omega

theorem pool_slice_set (pool : List hugepage_pool_entry) (cpu k : Nat)
    (e : hugepage_pool_entry) (hk : in_slice cpu k) :
    pool_slice (pool.set k e) cpu =
      (pool_slice pool cpu).set (k - cpu * HUGEPAGE_POOL_SIZE) e := by
  obtain ⟨h1, _⟩ := hk
  unfold pool_slice
  rw [List.drop_set, if_neg (by omega), List.set_take]

theorem pool_slice_length (pool : List hugepage_pool_entry) (cpu : Nat)
    (hb : cpu * HUGEPAGE_POOL_SIZE + HUGEPAGE_POOL_SIZE ≤ pool.length) :
    (pool_slice pool cpu).length = HUGEPAGE_POOL_SIZE := by
  unfold pool_slice
  rw [List.length_take, List.length_drop]
  omega

theorem pool_slice_index (pool : List hugepage_pool_entry) (cpu j : Nat)
    (e : hugepage_pool_entry) (h : (pool_slice pool cpu)[j]? = some e) :
    in_slice cpu (cpu * HUGEPAGE_POOL_SIZE + j) ∧
      pool[cpu * HUGEPAGE_POOL_SIZE + j]? = some e := by
  have hj : j < HUGEPAGE_POOL_SIZE := by
    by_contra hc
    unfold pool_slice at h
    rw [List.getElem?_eq_none (by rw [List.length_take]; omega)] at h
    cases h
  have hin : in_slice cpu (cpu * HUGEPAGE_POOL_SIZE + j) := ⟨by omega, by omega⟩
  refine ⟨hin, ?_⟩
  rw [← pool_slice_getElem? pool cpu _ hin, ← h]
  congr 1
  omega

theorem map_page_set (sl : List hugepage_pool_entry) (j : Nat) (e : hugepage_pool_entry)
    (b : Bool) (hj : sl[j]? = some e) :
    (sl.set j { page := e.page, in_use := b }).map (fun e => e.page) =
      sl.map (fun e => e.page) := by
  apply List.ext_getElem?
  intro n
  rw [List.map_set, List.getElem?_set]
  by_cases hn : j = n
  · subst hn
    have hlt : j < sl.length := by
      by_contra hc
      rw [List.getElem?_eq_none (by omega)] at hj
      cases hj
    rw [List.getElem?_eq_getElem hlt] at hj
    cases hj
    simp [hlt]
  · simp [hn]

theorem getElem?_lt_length {α : Type} (l : List α) (j : Nat) (a : α)
    (h : l[j]? = some a) : j < l.length := by
  by_contra hc
  rw [List.getElem?_eq_none (by omega)] at h
  cases h

theorem slice_inv_acquire (sl : List hugepage_pool_entry) (held : List Nat) (j : Nat)
    (e : hugepage_pool_entry) (hinv : slice_inv sl held) (hj : sl[j]? = some e)
    (hfree : e.in_use = false) :
    slice_inv (sl.set j { page := e.page, in_use := true }) (e.page :: held) := by
  obtain ⟨hd, hh, hiff, hcnt⟩ := hinv
  have hlt : j < sl.length := getElem?_lt_length sl j e hj
  have hje : sl[j] = e := by
    rw [List.getElem?_eq_getElem hlt] at hj
    exact Option.some.inj hj
  have hnot : e.page ∉ held := by
    intro hmem
    obtain ⟨j', e', h1, h2, h3⟩ := (hiff e.page).1 hmem
    have hjj := nodup_pages_index sl hd j' j e' e h1 hj h2
    subst hjj
    rw [hj] at h1
    cases h1
    rw [hfree] at h3
    cases h3
  refine ⟨?_, List.nodup_cons.2 ⟨hnot, hh⟩, ?_, ?_⟩
  · rw [map_page_set sl j e true hj]
    exact hd
  · intro q
    constructor
    · intro hq
      rcases List.mem_cons.1 hq with hq | hq
      · exact ⟨j, _, List.getElem?_set_self hlt, hq.symm, rfl⟩
      · obtain ⟨j', e', h1, h2, h3⟩ := (hiff q).1 hq
        have hne : j ≠ j' := by
          intro hjj
          subst hjj
          rw [hj] at h1
          cases h1
          rw [hfree] at h3
          cases h3
        exact ⟨j', e', by rw [List.getElem?_set_ne hne]; exact h1, h2, h3⟩
    · rintro ⟨j', e', h1, h2, h3⟩
      by_cases hjj : j = j'
      · subst hjj
        rw [List.getElem?_set_self hlt] at h1
        cases h1
        exact List.mem_cons.2 (Or.inl h2.symm)
      · rw [List.getElem?_set_ne hjj] at h1
        exact List.mem_cons.2 (Or.inr ((hiff q).2 ⟨j', e', h1, h2, h3⟩))
  · have hpos : 1 ≤ sl.countP (fun e => !e.in_use) := by
      apply List.countP_pos_iff.2
      exact ⟨e, List.mem_iff_getElem?.2 ⟨j, hj⟩, by simp [hfree]⟩
    rw [List.countP_set _ _ _ _ hlt, hje, List.length_set, List.length_cons]
    simp only [hfree, Bool.not_false, if_true, Bool.not_true, Bool.false_eq_true, if_false]
    omega

theorem slice_inv_release (sl : List hugepage_pool_entry) (held : List Nat) (j : Nat)
    (e : hugepage_pool_entry) (hinv : slice_inv sl held) (hj : sl[j]? = some e)
    (hused : e.in_use = true) :
    slice_inv (sl.set j { page := e.page, in_use := false }) (held.erase e.page) := by
  obtain ⟨hd, hh, hiff, hcnt⟩ := hinv
  have hlt : j < sl.length := getElem?_lt_length sl j e hj
  have hje : sl[j] = e := by
    rw [List.getElem?_eq_getElem hlt] at hj
    exact Option.some.inj hj
  have hmem : e.page ∈ held := (hiff e.page).2 ⟨j, e, hj, rfl, hused⟩
  refine ⟨?_, hh.erase _, ?_, ?_⟩
  · rw [map_page_set sl j e false hj]
    exact hd
  · intro q
    rw [hh.mem_erase_iff]
    constructor
    · rintro ⟨hne, hq⟩
      obtain ⟨j', e', h1, h2, h3⟩ := (hiff q).1 hq
      have hjj : j ≠ j' := by
        intro hjj
        subst hjj
        rw [hj] at h1
        cases h1
        exact hne h2.symm
      exact ⟨j', e', by rw [List.getElem?_set_ne hjj]; exact h1, h2, h3⟩
    · rintro ⟨j', e', h1, h2, h3⟩
      by_cases hjj : j = j'
      · subst hjj
        rw [List.getElem?_set_self hlt] at h1
        cases h1
        cases h3
      · rw [List.getElem?_set_ne hjj] at h1
        refine ⟨?_, (hiff q).2 ⟨j', e', h1, h2, h3⟩⟩
        intro hqp
        exact hjj (nodup_pages_index sl hd j j' e e' hj h1 (by rw [h2, hqp]))
  · have hpos : 1 ≤ held.length := List.length_pos_of_mem hmem
    rw [List.countP_set _ _ _ _ hlt, hje, List.length_set, List.length_erase_of_mem hmem]
    simp only [hused, Bool.not_false, if_true, Bool.not_true, Bool.false_eq_true, if_false]
    omega

theorem run_calls_inv (cpu : Nat) (calls : List pool_call) :
    ∀ (pool : List hugepage_pool_entry) (held : List Nat),
      cpu * HUGEPAGE_POOL_SIZE + HUGEPAGE_POOL_SIZE ≤ pool.length →
      slice_inv (pool_slice pool cpu) held →
      calls_valid cpu calls pool held = true →
      held.length + count_get calls ≤ HUGEPAGE_POOL_SIZE →
      ∃ pool', run_calls cpu calls pool = some pool' ∧
        cpu * HUGEPAGE_POOL_SIZE + HUGEPAGE_POOL_SIZE ≤ pool'.length ∧
        count_put calls ≤ held.length + count_get calls ∧
        available_count pool' cpu + held.length + count_get calls =
          HUGEPAGE_POOL_SIZE + count_put calls := by
  induction calls with
  | nil =>
    intro pool held hb hinv _ _
    refine ⟨pool, rfl, hb, by simp [count_put], ?_⟩
    have hlen := pool_slice_length pool cpu hb
    have hcnt := hinv.2.2.2
    simp only [available_count, count_get, count_put]
    omega
  | cons c cs ih =>
    intro pool held hb hinv hv hN
    have hlen := pool_slice_length pool cpu hb
    cases c with
    | get =>
      simp only [count_get, count_put] at hN ⊢
      rcases get_loop_spec pool HUGEPAGE_POOL_SIZE (cpu * HUGEPAGE_POOL_SIZE) hb with
        ⟨k, e, h1, h2, h3, h4, _, h6⟩ | ⟨h1, _⟩
      · have hk : in_slice cpu k := ⟨h1, h2⟩
        have hget : get_available_hugepage pool cpu =
            some (pool.set k { page := e.page, in_use := true }, e.page) := h6
        have hsl : (pool_slice pool cpu)[k - cpu * HUGEPAGE_POOL_SIZE]? = some e := by
          rw [pool_slice_getElem? pool cpu k hk]
          exact h3
        have hinv' := slice_inv_acquire _ held _ e hinv hsl h4
        rw [← pool_slice_set pool cpu k _ hk] at hinv'
        simp only [calls_valid, hget] at hv
        obtain ⟨pool', hr, hb', hle, hcount⟩ :=
          ih (pool.set k { page := e.page, in_use := true }) (e.page :: held)
            (by rw [List.length_set]; exact hb) hinv' hv
            (by rw [List.length_cons]; omega)
        refine ⟨pool', by simp only [run_calls, hget]; exact hr, hb', ?_, ?_⟩
        · rw [List.length_cons] at hle
          omega
        · rw [List.length_cons] at hcount
          omega
      · exfalso
        have hzero : (pool_slice pool cpu).countP (fun e => !e.in_use) = 0 := by
          apply List.countP_eq_zero.2
          intro a ha
          obtain ⟨j, hj⟩ := List.mem_iff_getElem?.1 ha
          obtain ⟨hin, hpj⟩ := pool_slice_index pool cpu j a hj
          have := h1 _ a hin.1 hin.2 hpj
          simp [this]
        have hcnt := hinv.2.2.2
        omega
    | put p =>
      simp only [count_get, count_put] at hN ⊢
      simp only [calls_valid, Bool.and_eq_true, decide_eq_true_eq] at hv
      obtain ⟨hmem, hv⟩ := hv
      obtain ⟨j, e, hj, hp, hused⟩ := (hinv.2.2.1 p).1 hmem
      subst hp
      obtain ⟨hin, hpj⟩ := pool_slice_index pool cpu j e hj
      have hpos : 1 ≤ held.length := List.length_pos_of_mem hmem
      rcases put_loop_spec pool e.page HUGEPAGE_POOL_SIZE (cpu * HUGEPAGE_POOL_SIZE) hb with
        ⟨k, e', h1, h2, h3, h4, _, h6⟩ | ⟨h1, _⟩
      · have hk : in_slice cpu k := ⟨h1, h2⟩
        have hsl : (pool_slice pool cpu)[k - cpu * HUGEPAGE_POOL_SIZE]? = some e' := by
          rw [pool_slice_getElem? pool cpu k hk]
          exact h3
        have hjj := nodup_pages_index _ hinv.1 _ _ e' e hsl hj h4
        rw [hjj, hj] at hsl
        cases hsl
        rw [if_neg (by simp [hused])] at h6
        have hput : put_hugepage pool cpu e.page =
            some (pool.set k { page := e.page, in_use := false }, 0) := h6
        have hinv' := slice_inv_release _ held _ e hinv hj hused
        rw [← hjj, ← pool_slice_set pool cpu k _ hk] at hinv'
        simp only [hput] at hv
        have herase : (held.erase e.page).length = held.length - 1 :=
          List.length_erase_of_mem hmem
        obtain ⟨pool', hr, hb', hle, hcount⟩ :=
          ih (pool.set k { page := e.page, in_use := false }) (held.erase e.page)
            (by rw [List.length_set]; exact hb) hinv' hv (by omega)
        refine ⟨pool', by simp only [run_calls, hput]; exact hr, hb', by omega, by omega⟩
      · exact absurd rfl (h1 _ e hin.1 hin.2 hpj)

/-- C1: on one worker whose slice starts all available with pairwise distinct pages, after
a sequence of N <= HUGEPAGE_POOL_SIZE calls of `get_available_hugepage` and M calls of
`put_hugepage`, each on a page acquired earlier and not yet released, every call returns,
M <= N, the slice has HUGEPAGE_POOL_SIZE - N + M available entries, and if none is
available a further `get_available_hugepage` returns `NULL`. -/
theorem pool_accounting (hugepage_pool : List hugepage_pool_entry) (cpu : Nat)
    (calls : List pool_call)
    (hb : cpu * HUGEPAGE_POOL_SIZE + HUGEPAGE_POOL_SIZE ≤ hugepage_pool.length)
    (hfree : ∀ e ∈ pool_slice hugepage_pool cpu, e.in_use = false)
    (hd : ((pool_slice hugepage_pool cpu).map (fun e => e.page)).Nodup)
    (hv : calls_valid cpu calls hugepage_pool [] = true)
    (hN : count_get calls ≤ HUGEPAGE_POOL_SIZE) :
    ∃ pool', run_calls cpu calls hugepage_pool = some pool' ∧
      count_put calls ≤ count_get calls ∧
      available_count pool' cpu = HUGEPAGE_POOL_SIZE - count_get calls + count_put calls ∧
      (available_count pool' cpu = 0 →
        get_available_hugepage pool' cpu = some (pool', 0)) := by
  have hinv : slice_inv (pool_slice hugepage_pool cpu) [] := by
    refine ⟨hd, List.nodup_nil, ?_, ?_⟩
    · intro q
      constructor
      · intro h
        cases h
      · rintro ⟨j, e, h1, _, h3⟩
        have := hfree e (List.mem_iff_getElem?.2 ⟨j, h1⟩)
        rw [h3] at this
        cases this
    · rw [List.length_nil, Nat.add_zero]
      apply List.countP_eq_length.2
      intro a ha
      simp [hfree a ha]
  obtain ⟨pool', hr, hb', hle, hcount⟩ :=
    run_calls_inv cpu calls hugepage_pool [] hb hinv hv (by simpa using hN)
  rw [List.length_nil] at hle hcount
  refine ⟨pool', hr, by omega, by omega, ?_⟩
  intro hzero
  rcases get_loop_spec pool' HUGEPAGE_POOL_SIZE (cpu * HUGEPAGE_POOL_SIZE) hb' with
    ⟨k, e, h1, h2, h3, h4, _, _⟩ | ⟨_, h2⟩
  · exfalso
    have hk : in_slice cpu k := ⟨h1, h2⟩
    have hmem : e ∈ pool_slice pool' cpu :=
      List.mem_iff_getElem?.2 ⟨_, (pool_slice_getElem? pool' cpu k hk).trans h3⟩
    have := List.countP_eq_zero.1 hzero e hmem
    simp [h4] at this
  · exact h2

/-- C8 (amended): when the pages of the calling worker's slice are pairwise distinct and
`p` is held by an entry of that slice whose `in_use` flag is already false,
`put_hugepage(p)` returns `-1` and the pool is unchanged. -/
theorem put_hugepage_double_release (hugepage_pool : List hugepage_pool_entry)
    (cpu p k : Nat) (e : hugepage_pool_entry)
    (hb : cpu * HUGEPAGE_POOL_SIZE + HUGEPAGE_POOL_SIZE ≤ hugepage_pool.length)
    (hd : ((pool_slice hugepage_pool cpu).map (fun e => e.page)).Nodup)
    (hk : in_slice cpu k) (hke : hugepage_pool[k]? = some e) (hp : e.page = p)
    (hfree : e.in_use = false) :
    put_hugepage hugepage_pool cpu p = some (hugepage_pool, -1) := by
  rcases put_loop_spec hugepage_pool p HUGEPAGE_POOL_SIZE (cpu * HUGEPAGE_POOL_SIZE) hb with
    ⟨k', e', h1, h2, h3, h4, _, h6⟩ | ⟨h1, _⟩
  · have hk' : in_slice cpu k' := ⟨h1, h2⟩
    have hs := (pool_slice_getElem? hugepage_pool cpu k hk).trans hke
    have hs' := (pool_slice_getElem? hugepage_pool cpu k' hk').trans h3
    have hjj := nodup_pages_index _ hd _ _ e' e hs' hs (by rw [h4, hp])
    rw [hjj, hs] at hs'
    cases hs'
    rw [if_pos hfree] at h6
    exact h6
  · exact absurd hp (h1 k e hk.1 hk.2 hke)

/-- C8 (counterexample): in `null_pool` the page `NULL` is held by an entry of the slice
of processor 0 whose `in_use` flag is false (index 1), yet `put_hugepage(NULL)` returns 0
and clears the flag of entry 0. -/
theorem put_hugepage_double_release_counterexample :
    (∃ k e, in_slice 0 k ∧ null_pool[k]? = some e ∧ e.page = 0 ∧ e.in_use = false) ∧
    put_hugepage null_pool 0 0 =
      some (List.replicate 100 { page := 0, in_use := false }, 0) :=
  ⟨⟨1, { page := 0, in_use := false }, by decide, rfl, rfl, rfl⟩, by decide⟩

/-- C1 (witness): three acquisitions and one release on a fresh slice of processor 0. -/
theorem pool_accounting_witness :
    ∃ pool', run_calls 0 [pool_call.get, pool_call.get, pool_call.put 1, pool_call.get]
        (fresh_pool 1 100) = some pool' ∧
      1 ≤ 3 ∧ available_count pool' 0 = HUGEPAGE_POOL_SIZE - 3 + 1 ∧
      (available_count pool' 0 = 0 → get_available_hugepage pool' 0 = some (pool', 0)) :=
  pool_accounting (fresh_pool 1 100) 0
    [pool_call.get, pool_call.get, pool_call.put 1, pool_call.get]
    (by decide) (by decide) (by decide) (by decide) (by decide)

/-- C8 (witness): releasing page 1 of a fresh slice, which is not in use. -/
theorem put_hugepage_double_release_witness :
    put_hugepage (fresh_pool 1 100) 0 1 = some (fresh_pool 1 100, -1) :=
  put_hugepage_double_release (fresh_pool 1 100) 0 1 0 { page := 1, in_use := false }
    (by decide) (by decide) (by decide) rfl rfl rfl

/-- C9 (witness): on a pool of two slices, processor 1 releases a page of processor 0. -/
theorem put_hugepage_contract_witness :
    ∃ pool' r, put_hugepage (fresh_pool 1 200) 1 1 = some (pool', r) ∧
      (r = 0 ↔ ∃ k e, in_slice 1 k ∧ (fresh_pool 1 200)[k]? = some e ∧
          e.page = 1 ∧ e.in_use = true) ∧
      (∀ k e, in_slice 1 k → (fresh_pool 1 200)[k]? = some e → e.page = 1 →
          e.in_use = true → pool' = (fresh_pool 1 200).set k { page := 1, in_use := false }) ∧
      ((∀ k e, in_slice 1 k → (fresh_pool 1 200)[k]? = some e → e.page ≠ 1) →
          r = -1 ∧ pool' = fresh_pool 1 200) :=
  put_hugepage_contract (fresh_pool 1 200) 1 1 (by decide) (by decide)

/-- C10 (witness): processor 1 acquires the first entry of its slice, index 100. -/
theorem get_available_hugepage_contract_witness :
    get_available_hugepage (fresh_pool 1 200) 1 =
      some ((fresh_pool 1 200).set 100 { page := 101, in_use := true }, 101) :=
  (get_available_hugepage_contract (fresh_pool 1 200) 1 (by decide)).1 100
    { page := 101, in_use := false } (by decide) rfl rfl
    (fun j _ hj hlt => absurd hj.1 (by simp only [HUGEPAGE_POOL_SIZE]; omega))

/-! ## Theorems: the descriptor codec -/

theorem le_value_le_bytes_4 (v : Nat) (h : v < 2 ^ 32) : le_value (le_bytes 4 v) = v := by
  simp only [le_bytes, le_value]
  omega

theorem le_value_le_bytes_8 (v : Nat) (h : v < 2 ^ 64) : le_value (le_bytes 8 v) = v := by
  simp only [le_bytes, le_value]
  omega

theorem fd_info_arr_bytes_length (es : List bpfof_fd_info) :
    (fd_info_arr_bytes es).length = 12 * es.length := by
  induction es with
  | nil => rfl
  | cons e es ih =>
    simp only [fd_info_arr_bytes, fd_info_bytes, le_bytes, List.length_append,
      List.length_cons, List.length_nil, ih]
    omega

theorem fd_info_arr_of_bytes_bytes (es : List bpfof_fd_info) (rest : List Nat)
    (hb : ∀ e ∈ es, e.fd < 2 ^ 32 ∧ e.inode_identifier < 2 ^ 64) :
    fd_info_arr_of_bytes es.length (fd_info_arr_bytes es ++ rest) = es := by
  induction es with
  | nil => rfl
  | cons e es ih =>
    have he := hb e (List.mem_cons_self _ _)
    have h4 := le_value_le_bytes_4 e.fd he.1
    have h8 := le_value_le_bytes_8 e.inode_identifier he.2
    have ih' := ih (fun x hx => hb x (List.mem_cons_of_mem _ hx))
    simp only [le_bytes] at h4 h8
    simp only [List.length_cons, fd_info_arr_of_bytes, fd_info_arr_bytes, fd_info_bytes,
      le_bytes, List.cons_append, List.nil_append, List.take_succ_cons, List.take_zero,
      List.drop_succ_cons, List.drop_zero, h4, h8, ih']

theorem config_of_bytes_config_bytes (c : bpfof_cmd_config) (rest : List Nat)
    (hlen : c.bpfof_fd_info_arr.length = 10) (hs : c.data_buffer_size < 2 ^ 32)
    (hb : ∀ e ∈ c.bpfof_fd_info_arr, e.fd < 2 ^ 32 ∧ e.inode_identifier < 2 ^ 64) :
    config_of_bytes ((config_bytes c ++ rest).take sizeof_bpfof_cmd_config) = c := by
  have hl : (config_bytes c).length = sizeof_bpfof_cmd_config := by
    simp only [config_bytes, List.length_append, fd_info_arr_bytes_length, hlen, le_bytes,
      List.length_cons, List.length_nil, sizeof_bpfof_cmd_config]
  rw [List.take_left' hl]
  have h4 := le_value_le_bytes_4 c.data_buffer_size hs
  have harr := fd_info_arr_of_bytes_bytes c.bpfof_fd_info_arr [] hb
  rw [hlen, List.append_nil] at harr
  simp only [le_bytes] at h4
  cases c with
  | mk size arr =>
    simp only [config_of_bytes, config_bytes, le_bytes, List.cons_append, List.nil_append,
      List.take_succ_cons, List.take_zero, List.drop_succ_cons, List.drop_zero]
    simp only at h4 harr
    rw [h4, harr]

theorem serialize_copy_loop_spec (src : List xrp_fd_info) (n : Nat) :
    ∀ (i : Nat) (tmp : List bpfof_fd_info), i + n ≤ tmp.length → i + n ≤ src.length →
    ∃ out, serialize_copy_loop src i n tmp = some out ∧ out.length = tmp.length ∧
      ∀ j, out[j]? =
        if i ≤ j ∧ j < i + n then
          (src[j]?).map (fun x => { fd := x.fd, inode_identifier := x.i_ino })
        else tmp[j]? := by
  induction n with
  | zero =>
    intro i tmp _ _
    refine ⟨tmp, rfl, rfl, fun j => ?_⟩
    rw [if_neg (by omega)]
  | succ n ih =>
    intro i tmp h1 h2
    have hsrc : src[i]? = some src[i] := List.getElem?_eq_getElem (by omega)
    have hi : i < tmp.length := by omega
    obtain ⟨out, ho, hlen, hpt⟩ :=
      ih (i + 1) (tmp.set i { fd := src[i].fd, inode_identifier := src[i].i_ino })
        (by rw [List.length_set]; omega) (by omega)
    refine ⟨out, ?_, by rw [hlen, List.length_set], fun j => ?_⟩
    · simp only [serialize_copy_loop, hsrc, hi, if_true]
      exact ho
    · rw [hpt j]
      by_cases hj : j = i
      · subst hj
        rw [if_neg (by omega), if_pos (by omega), List.getElem?_set_self hi, hsrc]
        rfl
      · rw [List.getElem?_set_ne (fun h => hj h.symm)]
        by_cases hr : i + 1 ≤ j ∧ j < i + 1 + n
        · rw [if_pos hr, if_pos (by omega)]
        · rw [if_neg hr, if_neg (by omega)]

theorem serialize_zero_loop_spec (n : Nat) :
    ∀ (i : Nat) (tmp : List bpfof_fd_info), i + n ≤ tmp.length →
    (serialize_zero_loop i n tmp).length = tmp.length ∧
      ∀ j, (serialize_zero_loop i n tmp)[j]? =
        if i ≤ j ∧ j < i + n then some { fd := 0, inode_identifier := 0 } else tmp[j]? := by
  induction n with
  | zero =>
    intro i tmp _
    refine ⟨rfl, fun j => ?_⟩
    rw [if_neg (by omega)]
    rfl
  | succ n ih =>
    intro i tmp h1
    have hi : i < tmp.length := by omega
    obtain ⟨hlen, hpt⟩ :=
      ih (i + 1) (tmp.set i { fd := 0, inode_identifier := 0 })
        (by rw [List.length_set]; omega)
    refine ⟨by simp only [serialize_zero_loop]; rw [hlen, List.length_set], fun j => ?_⟩
    simp only [serialize_zero_loop]
    rw [hpt j]
    by_cases hj : j = i
    · subst hj
      rw [if_neg (by omega), if_pos (by omega), List.getElem?_set_self hi]
    · rw [List.getElem?_set_ne (fun h => hj h.symm)]
      by_cases hr : i + 1 ≤ j ∧ j < i + 1 + n
      · rw [if_pos hr, if_pos (by omega)]
      · rw [if_neg hr, if_neg (by omega)]

/-- C5: for a descriptor with a non-zero data buffer size and k <= 10 populated pairs
(all values within their C types) and an output buffer of at least the record size,
`serialize_bpfof_cmd_config` returns 0 and `deserialize_bpfof_cmd_config` on the bytes it
wrote returns 0 with the same size, the k pairs in order, and zero pairs in entries k..9. -/
theorem codec_round_trip (bpfof_data_buffer_count xrp_fd_count : Nat)
    (xrp_fd_info_arr : List xrp_fd_info) (buffer : List Nat) (buffer_size : Nat)
    (config : bpfof_cmd_config)
    (hnz : bpfof_data_buffer_count ≠ 0) (h32 : bpfof_data_buffer_count < 2 ^ 32)
    (hk : xrp_fd_count ≤ 10) (hsrc : xrp_fd_count ≤ xrp_fd_info_arr.length)
    (hfd : ∀ j x, j < xrp_fd_count → xrp_fd_info_arr[j]? = some x →
      x.fd < 2 ^ 32 ∧ x.i_ino < 2 ^ 64)
    (hbuf : sizeof_bpfof_cmd_config ≤ buffer_size) :
    ∃ out cfg,
      serialize_bpfof_cmd_config bpfof_data_buffer_count xrp_fd_count xrp_fd_info_arr
        buffer buffer_size = some (0, out) ∧
      deserialize_bpfof_cmd_config out buffer_size config = (0, cfg) ∧
      cfg.data_buffer_size = bpfof_data_buffer_count ∧
      cfg.bpfof_fd_info_arr.length = 10 ∧
      (∀ j x, j < xrp_fd_count → xrp_fd_info_arr[j]? = some x →
        cfg.bpfof_fd_info_arr[j]? = some { fd := x.fd, inode_identifier := x.i_ino }) ∧
      (∀ j, xrp_fd_count ≤ j → j < 10 →
        cfg.bpfof_fd_info_arr[j]? = some { fd := 0, inode_identifier := 0 }) := by
  obtain ⟨tmp1, h1, hlen1, hpt1⟩ :=
    serialize_copy_loop_spec xrp_fd_info_arr xrp_fd_count 0
      (List.replicate 10 { fd := 0, inode_identifier := 0 })
      (by rw [List.length_replicate]; omega) (by omega)
  rw [List.length_replicate] at hlen1
  obtain ⟨hlen2, hpt2⟩ :=
    serialize_zero_loop_spec (10 - xrp_fd_count) xrp_fd_count tmp1 (by omega)
  rw [hlen1] at hlen2
  have hlow : ∀ j x, j < xrp_fd_count → xrp_fd_info_arr[j]? = some x →
      (serialize_zero_loop xrp_fd_count (10 - xrp_fd_count) tmp1)[j]? =
        some { fd := x.fd, inode_identifier := x.i_ino } := by
    intro j x hj hx
    rw [hpt2 j, if_neg (by omega), hpt1 j, if_pos (by omega), hx]
    rfl
  have hhigh : ∀ j, xrp_fd_count ≤ j → j < 10 →
      (serialize_zero_loop xrp_fd_count (10 - xrp_fd_count) tmp1)[j]? =
        some { fd := 0, inode_identifier := 0 } := by
    intro j hj1 hj2
    rw [hpt2 j, if_pos (by omega)]
  have hbound : ∀ e ∈ serialize_zero_loop xrp_fd_count (10 - xrp_fd_count) tmp1,
      e.fd < 2 ^ 32 ∧ e.inode_identifier < 2 ^ 64 := by
    intro e he
    obtain ⟨j, hj⟩ := List.mem_iff_getElem?.1 he
    have hjl := getElem?_lt_length _ j e hj
    rw [hlen2] at hjl
    by_cases hjk : j < xrp_fd_count
    · have hsj : xrp_fd_info_arr[j]? = some xrp_fd_info_arr[j] :=
        List.getElem?_eq_getElem (by omega)
      rw [hlow j _ hjk hsj] at hj
      cases hj
      exact hfd j _ hjk hsj
    · rw [hhigh j (by omega) hjl] at hj
      cases hj
      exact ⟨by norm_num, by norm_num⟩
  have hrt := config_of_bytes_config_bytes
    { data_buffer_size := bpfof_data_buffer_count,
      bpfof_fd_info_arr := serialize_zero_loop xrp_fd_count (10 - xrp_fd_count) tmp1 }
    (buffer.drop sizeof_bpfof_cmd_config) hlen2 h32 hbound
  refine ⟨config_bytes
      { data_buffer_size := bpfof_data_buffer_count,
        bpfof_fd_info_arr := serialize_zero_loop xrp_fd_count (10 - xrp_fd_count) tmp1 } ++
      buffer.drop sizeof_bpfof_cmd_config,
    { data_buffer_size := bpfof_data_buffer_count,
      bpfof_fd_info_arr := serialize_zero_loop xrp_fd_count (10 - xrp_fd_count) tmp1 },
    ?_, ?_, rfl, hlen2, hlow, hhigh⟩
  · simp only [serialize_bpfof_cmd_config, if_neg (Nat.not_lt.2 hbuf), if_neg hnz, h1]
  · simp only [deserialize_bpfof_cmd_config, if_neg (Nat.not_lt.2 hbuf), hrt, if_neg hnz]

/-- C5 (witness): the descriptor of the specification, size 4096 and the pair (7, 42). -/
theorem codec_round_trip_witness :
    ∃ out cfg,
      serialize_bpfof_cmd_config 4096 1 [{ fd := 7, i_ino := 42 }]
        (List.replicate 124 0) 124 = some (0, out) ∧
      deserialize_bpfof_cmd_config out 124 { data_buffer_size := 0, bpfof_fd_info_arr := [] }
        = (0, cfg) ∧
      cfg.data_buffer_size = 4096 ∧
      cfg.bpfof_fd_info_arr.length = 10 ∧
      (∀ j x, j < 1 → [({ fd := 7, i_ino := 42 } : xrp_fd_info)][j]? = some x →
        cfg.bpfof_fd_info_arr[j]? = some { fd := x.fd, inode_identifier := x.i_ino }) ∧
      (∀ j, 1 ≤ j → j < 10 →
        cfg.bpfof_fd_info_arr[j]? = some { fd := 0, inode_identifier := 0 }) :=
  codec_round_trip 4096 1 [{ fd := 7, i_ino := 42 }] (List.replicate 124 0) 124
    { data_buffer_size := 0, bpfof_fd_info_arr := [] } (by decide) (by norm_num) (by decide)
    (by decide)
    (fun j x hj hx => by
      have hj0 : j = 0 := by omega
      subst hj0
      cases hx
      exact ⟨by norm_num, by norm_num⟩)
    (by decide)

/-- C6: with `buffer_size` smaller than the record size, `deserialize_bpfof_cmd_config`
returns -1 and leaves `*config` as it was, and `serialize_bpfof_cmd_config` returns -1 and
leaves the buffer as it was, whatever the buffer and the descriptor hold. -/
theorem short_buffer_rejected (buffer : List Nat) (buffer_size : Nat)
    (config : bpfof_cmd_config) (bpfof_data_buffer_count xrp_fd_count : Nat)
    (xrp_fd_info_arr : List xrp_fd_info) (out_buffer : List Nat)
    (h : buffer_size < sizeof_bpfof_cmd_config) :
    deserialize_bpfof_cmd_config buffer buffer_size config = (-1, config) ∧
    serialize_bpfof_cmd_config bpfof_data_buffer_count xrp_fd_count xrp_fd_info_arr
      out_buffer buffer_size = some (-1, out_buffer) := by
  constructor
  · simp only [deserialize_bpfof_cmd_config, if_pos h]
  · simp only [serialize_bpfof_cmd_config, if_pos h]

/-- C6 (witness): a buffer of 123 bytes, one less than the record size. -/
theorem short_buffer_rejected_witness :
    deserialize_bpfof_cmd_config (List.replicate 123 1) 123
        { data_buffer_size := 5, bpfof_fd_info_arr := [] } =
      (-1, { data_buffer_size := 5, bpfof_fd_info_arr := [] }) ∧
    serialize_bpfof_cmd_config 4096 1 [{ fd := 7, i_ino := 42 }] (List.replicate 123 1) 123 =
      some (-1, List.replicate 123 1) :=
  short_buffer_rejected (List.replicate 123 1) 123
    { data_buffer_size := 5, bpfof_fd_info_arr := [] } 4096 1 [{ fd := 7, i_ino := 42 }]
    (List.replicate 123 1) (by decide)

/-- C7: `serialize_bpfof_cmd_config` on a descriptor whose data buffer size is 0 returns -1
and leaves the output buffer as it was, for every output buffer and size; and
`deserialize_bpfof_cmd_config` on an input buffer of at least the record size whose
`data_buffer_size` field (the first four bytes) is 0 returns -1. -/
theorem zero_size_rejected (xrp_fd_count : Nat) (xrp_fd_info_arr : List xrp_fd_info)
    (out_buffer : List Nat) (out_size : Nat) (buffer : List Nat) (buffer_size : Nat)
    (config : bpfof_cmd_config)
    (hsize : sizeof_bpfof_cmd_config ≤ buffer_size)
    (hzero : le_value (buffer.take 4) = 0) :
    serialize_bpfof_cmd_config 0 xrp_fd_count xrp_fd_info_arr out_buffer out_size =
      some (-1, out_buffer) ∧
    (deserialize_bpfof_cmd_config buffer buffer_size config).1 = -1 := by
  constructor
  · simp only [serialize_bpfof_cmd_config]
    split <;> simp
  · have hz : (config_of_bytes (buffer.take sizeof_bpfof_cmd_config)).data_buffer_size = 0 := by
      simp only [config_of_bytes, sizeof_bpfof_cmd_config, List.take_take]
      exact hzero
    simp only [deserialize_bpfof_cmd_config, if_neg (Nat.not_lt.2 hsize), hz, if_true]

/-- C7 (witness): a record of 124 bytes whose first four bytes are zero. -/
theorem zero_size_rejected_witness :
    serialize_bpfof_cmd_config 0 1 [{ fd := 7, i_ino := 42 }] [] 0 = some (-1, []) ∧
    (deserialize_bpfof_cmd_config (List.replicate 4 0 ++ List.replicate 120 9) 124
        { data_buffer_size := 5, bpfof_fd_info_arr := [] }).1 = -1 :=
  zero_size_rejected 1 [{ fd := 7, i_ino := 42 }] [] 0
    (List.replicate 4 0 ++ List.replicate 120 9) 124
    { data_buffer_size := 5, bpfof_fd_info_arr := [] } (by decide) (by decide)

/-! ## Theorems: the request executor -/

theorem blk_to_nvme_status_ioerr_xrp (req : nvmet_req)
    (hop : req.opcode = nvme_opcode.nvme_cmd_xrp_read) :
    blk_to_nvme_status req blk_status_t.BLK_STS_IOERR =
      ({ sc := nvme_sc.NVME_SC_INTERNAL, dnr := true },
        { req with error_loc := error_loc_t.offsetof_common_opcode, error_slba := 0 }) := by
  simp [blk_to_nvme_status, hop]

theorem bio_io_error_not_xrp (cpu : Nat) (use_hugepages : Bool) (w : world) (b : bio)
    (h1 : b.bi_end_io = bio_end_io_t.nvmet_bio_done) (h2 : b.bi_remaining ≤ 1)
    (h3 : b.xrp_enabled = false) (hop : w.req.opcode = nvme_opcode.nvme_cmd_xrp_read) :
    ∃ tail, bio_io_error cpu use_hugepages w b =
      some { req := { w.req with error_loc := error_loc_t.offsetof_common_opcode,
                                 error_slba := 0 },
             hugepage_pool := w.hugepage_pool,
             trace := w.trace ++
               event.nvmet_req_complete { sc := nvme_sc.NVME_SC_INTERNAL, dnr := true } ::
               tail } ∧
      ∀ e ∈ tail, ∃ b', e = event.bio_put b' := by
  have hst := blk_to_nvme_status_ioerr_xrp w.req hop
  by_cases hin : b.is_inline = true
  · refine ⟨[], ?_, fun e he => by cases he⟩
    simp [bio_io_error, bio_endio, nvmet_bio_done, h1, h2, h3, hst, hin, world.emit]
  · refine ⟨[event.bio_put { b with bi_status := blk_status_t.BLK_STS_IOERR }], ?_, ?_⟩
    · simp [bio_io_error, bio_endio, nvmet_bio_done, h1, h2, h3, hst, hin, world.emit]
    · intro e he
      exact ⟨_, List.mem_singleton.1 he⟩

theorem rw_first_bio_fresh (env : rw_env) (req : nvmet_req) :
    (rw_first_bio env req).bi_end_io = bio_end_io_t.nvmet_bio_done ∧
    (rw_first_bio env req).bi_remaining = 1 ∧
    (rw_first_bio env req).xrp_enabled = false := by
  unfold rw_first_bio
  split_ifs <;> exact ⟨rfl, rfl, rfl⟩

theorem xrp_read_config_zero (env : rw_env) (page : Nat)
    (hzero : le_value (((env.page_address page).drop xrp_config_offset).take 4) = 0) :
    (xrp_read_config env page).1 = -1 := by
  have hz : (config_of_bytes (((env.page_address page).drop xrp_config_offset).take
      sizeof_bpfof_cmd_config)).data_buffer_size = 0 := by
    simp only [config_of_bytes, sizeof_bpfof_cmd_config, List.take_take]
    exact hzero
  simp only [xrp_read_config, deserialize_bpfof_cmd_config, lt_irrefl, if_false, hz, if_true]

theorem rw_xrp_zero_size (env : rw_env) (op : req_opf) (fuel : Nat) (w : world) (b : bio)
    (sector sg_cnt : Nat)
    (h1 : b.bi_end_io = bio_end_io_t.nvmet_bio_done) (h2 : b.bi_remaining ≤ 1)
    (h3 : b.xrp_enabled = false) (hop : w.req.opcode = nvme_opcode.nvme_cmd_xrp_read)
    (hzero : le_value
      (((env.page_address (first_sg_page w.req)).drop xrp_config_offset).take 4) = 0) :
    ∃ tail, rw_xrp env op fuel w b sector sg_cnt =
      some (rw_step.returned
        { req := { w.req with error_loc := error_loc_t.offsetof_common_opcode,
                              error_slba := 0 },
          hugepage_pool := w.hugepage_pool,
          trace := w.trace ++
            event.nvmet_req_complete { sc := nvme_sc.NVME_SC_INTERNAL, dnr := true } ::
            tail }) ∧
      ∀ e ∈ tail, ∃ b', e = event.bio_put b' := by
  cases hres : env.driver_get_nvmeof_xrp_info with
  | none =>
    obtain ⟨tail, ht, hall⟩ :=
      bio_io_error_not_xrp env.cpu env.nvmeof_xrp_use_hugepages w b h1 h2 h3 hop
    refine ⟨tail, ?_, hall⟩
    simp only [rw_xrp, hres, ht, Option.map_some']
  | some resolver =>
    obtain ⟨tail, ht, hall⟩ :=
      bio_io_error_not_xrp env.cpu env.nvmeof_xrp_use_hugepages w
        { b with xrp_scratch_page := first_sg_page w.req } h1 h2 h3 hop
    have hd := xrp_read_config_zero env (first_sg_page w.req) hzero
    refine ⟨tail, ?_, hall⟩
    simp only [rw_xrp, hres, hd, ht, Option.map_some']
    simp

/-- C3 (amended): for every offload read that passes the transfer length check, has a
non-empty scatter list, and whose descriptor as `nvmet_bdev_execute_rw` reads it from the
scratch page has a zero `data_buffer_size` field, the executor does not fall back to a
plain read: it completes the command with the I/O-error status `NVME_SC_INTERNAL |
NVME_SC_DNR`, submits no bio, and leaves the pool as it was (no acquisition). -/
theorem xrp_zero_size_io_error (env : rw_env) (fuel : Nat) (w : world)
    (hop : w.req.opcode = nvme_opcode.nvme_cmd_xrp_read)
    (hchk : env.nvmet_check_transfer_len = true)
    (hsg : w.req.sg ≠ [])
    (hzero : le_value
      (((env.page_address (first_sg_page w.req)).drop xrp_config_offset).take 4) = 0) :
    ∃ tail, nvmet_bdev_execute_rw env fuel w =
      some { req := { w.req with error_loc := error_loc_t.offsetof_common_opcode,
                                 error_slba := 0 },
             hugepage_pool := w.hugepage_pool,
             trace := w.trace ++
               event.nvmet_req_complete { sc := nvme_sc.NVME_SC_INTERNAL, dnr := true } ::
               tail } ∧
      ∀ e ∈ tail, ∃ b', e = event.bio_put b' := by
  have hlen : w.req.sg.length ≠ 0 := by
    intro h
    exact hsg (List.length_eq_zero.1 h)
  obtain ⟨h1, h2, h3⟩ := rw_first_bio_fresh env w.req
  obtain ⟨tail, ht, hall⟩ := rw_xrp_zero_size env (rw_op env w.req) fuel w
    (rw_first_bio env w.req) (env.nvmet_lba_to_sect w.req.slba) w.req.sg.length
    h1 (le_of_eq h2) h3 hop hzero
  refine ⟨tail, ?_, hall⟩
  simp only [nvmet_bdev_execute_rw, hchk, hlen, hop, ht, Bool.not_true, Bool.false_eq_true,
    if_false, if_true]

/-- C3 (counterexample): an offload read whose scratch page is all zero, so that the
descriptor declares `data_buffer_size == 0` wherever it is read, is completed with
`NVME_SC_INTERNAL | NVME_SC_DNR`; no bio is submitted. -/
theorem xrp_zero_size_fallback_counterexample :
    nvmet_bdev_execute_rw (xrp_env zero_page 0) 1 xrp_world =
      some { req := { xrp_world.req with error_loc := error_loc_t.offsetof_common_opcode,
                                         error_slba := 0 },
             hugepage_pool := xrp_world.hugepage_pool,
             trace := [event.nvmet_req_complete
               { sc := nvme_sc.NVME_SC_INTERNAL, dnr := true }] } := by
  decide

/-- C3 (witness): the amended statement at the all-zero scratch page. -/
theorem xrp_zero_size_io_error_witness :
    ∃ tail, nvmet_bdev_execute_rw (xrp_env zero_page 3) 0 xrp_world =
      some { req := { xrp_world.req with error_loc := error_loc_t.offsetof_common_opcode,
                                         error_slba := 0 },
             hugepage_pool := xrp_world.hugepage_pool,
             trace := xrp_world.trace ++
               event.nvmet_req_complete { sc := nvme_sc.NVME_SC_INTERNAL, dnr := true } ::
               tail } ∧
      ∀ e ∈ tail, ∃ b', e = event.bio_put b' :=
  xrp_zero_size_io_error (xrp_env zero_page 3) 0 xrp_world rfl rfl (by decide) (by decide)

/-- C2 (failing input): processor 0 runs an offload read with a descriptor of size 4096 and
acquires page 1 (entry 0 of the pool), which is attached to the submitted bio. When the
completion callback runs on processor 1, `put_hugepage` returns -1, the failure is logged
and entry 0 stays in use; when it runs on processor 0 the entry is released. -/
theorem xrp_completion_on_other_cpu_leaks :
    (nvmet_bdev_execute_rw (xrp_env size_4096_page 0) 1 xrp_world).map
        (fun w => (w.hugepage_pool[0]?, w.trace.length)) =
      some (some { page := 1, in_use := true }, 1) ∧
    ((nvmet_bdev_execute_rw (xrp_env size_4096_page 0) 1 xrp_world).bind
        (complete_last_submitted 1 true)).map
        (fun w => (w.hugepage_pool[0]?, w.trace.drop 1)) =
      some (some { page := 1, in_use := true },
        [event.pr_err_put_hugepage (-1),
         event.nvmet_req_complete { sc := nvme_sc.NVME_SC_SUCCESS, dnr := false }]) ∧
    ((nvmet_bdev_execute_rw (xrp_env size_4096_page 0) 1 xrp_world).bind
        (complete_last_submitted 0 true)).map
        (fun w => (w.hugepage_pool[0]?, w.trace.drop 1)) =
      some (some { page := 1, in_use := false },
        [event.nvmet_req_complete { sc := nvme_sc.NVME_SC_SUCCESS, dnr := false }]) := by
  decide

/-- C4 (counterexample): two scratch pages that hold the same bytes from offset
`PAGE_SIZE - sizeof(struct bpfof_cmd_config)` to the end of the page, and differ only in
the byte before that offset, make `nvmet_bdev_execute_rw` behave differently: the
descriptor is not decoded from that offset. -/
theorem xrp_descriptor_location_counterexample :
    zero_page.drop (PAGE_SIZE - sizeof_bpfof_cmd_config) =
      one_at_3971_page.drop (PAGE_SIZE - sizeof_bpfof_cmd_config) ∧
    nvmet_bdev_execute_rw (xrp_env zero_page 0) 1 xrp_world ≠
      nvmet_bdev_execute_rw (xrp_env one_at_3971_page 0) 1 xrp_world := by
  decide

theorem take_drop_congr (l l' : List Nat) (k n : Nat)
    (h : ∀ i, k ≤ i → i < k + n → l[i]? = l'[i]?) :
    (l.drop k).take n = (l'.drop k).take n := by
  apply List.ext_getElem?
  intro j
  by_cases hj : j < n
  · rw [List.getElem?_take_of_lt hj, List.getElem?_take_of_lt hj, List.getElem?_drop,
      List.getElem?_drop]
    exact h (k + j) (by omega) (by omega)
  · rw [List.getElem?_take_eq_none (by omega), List.getElem?_take_eq_none (by omega)]

theorem rw_add_loop_page_address (env : rw_env) (page' : Nat → List Nat) (op : req_opf)
    (sg : scatterlist) (fuel : Nat) :
    ∀ (w : world) (b : bio) (sector sg_cnt : Nat),
      rw_add_loop { env with page_address := page' } op sg fuel w b sector sg_cnt =
        rw_add_loop env op sg fuel w b sector sg_cnt := by
  induction fuel with
  | zero => intro w b sector sg_cnt; rfl
  | succ n ih =>
    intro w b sector sg_cnt
    simp only [rw_add_loop, ih]

theorem rw_sg_loop_page_address (env : rw_env) (page' : Nat → List Nat) (op : req_opf)
    (fuel : Nat) (sgs : List scatterlist) :
    ∀ (w : world) (b : bio) (sector sg_cnt : Nat),
      rw_sg_loop { env with page_address := page' } op fuel sgs w b sector sg_cnt =
        rw_sg_loop env op fuel sgs w b sector sg_cnt := by
  induction sgs with
  | nil => intro w b sector sg_cnt; rfl
  | cons sg rest ih =>
    intro w b sector sg_cnt
    simp only [rw_sg_loop, rw_add_loop_page_address, ih]

theorem xrp_read_config_congr (env : rw_env) (page' : Nat → List Nat) (p : Nat)
    (h : ∀ i, xrp_config_offset ≤ i → i < xrp_config_offset + sizeof_bpfof_cmd_config →
      (page' p)[i]? = (env.page_address p)[i]?) :
    xrp_read_config { env with page_address := page' } p = xrp_read_config env p := by
  have ht := take_drop_congr (page' p) (env.page_address p) xrp_config_offset
    sizeof_bpfof_cmd_config h
  simp only [xrp_read_config, deserialize_bpfof_cmd_config, List.take_drop] at ht ⊢
  rw [ht]

/-- C4 (amended): `nvmet_bdev_execute_rw` decodes the descriptor from byte offset
`PAGE_SIZE - 1 - sizeof(struct bpfof_cmd_config)` of the scratch page, so that the record
ends one byte before the end of the page: the outcome of the executor is the same for any
two memories whose pages hold the same bytes at the offsets from
`PAGE_SIZE - 1 - sizeof(struct bpfof_cmd_config)` up to `PAGE_SIZE - 2`. -/
theorem xrp_descriptor_location (env : rw_env) (page' : Nat → List Nat) (fuel : Nat)
    (w : world)
    (hsame : ∀ p i, PAGE_SIZE - 1 - sizeof_bpfof_cmd_config ≤ i → i < PAGE_SIZE - 1 →
      (page' p)[i]? = (env.page_address p)[i]?) :
    nvmet_bdev_execute_rw { env with page_address := page' } fuel w =
      nvmet_bdev_execute_rw env fuel w := by
  have hcfg : ∀ p, xrp_read_config { env with page_address := page' } p =
      xrp_read_config env p := by
    intro p
    apply xrp_read_config_congr
    intro i h1 h2
    exact hsame p i h1 (by
      simp only [xrp_config_offset, PAGE_SIZE, sizeof_bpfof_cmd_config] at h2 ⊢
      omega)
  simp only [nvmet_bdev_execute_rw, rw_xrp, rw_no_xrp, rw_op, rw_first_bio,
    rw_sg_loop_page_address, hcfg]

/-- C4 (witness): changing the last byte of the scratch page does not change the outcome. -/
theorem xrp_descriptor_location_witness :
    nvmet_bdev_execute_rw
        { xrp_env size_4096_page 0 with page_address := fun _ => size_4096_page_last_255 }
        1 xrp_world =
      nvmet_bdev_execute_rw (xrp_env size_4096_page 0) 1 xrp_world :=
  xrp_descriptor_location (xrp_env size_4096_page 0) (fun _ => size_4096_page_last_255) 1
    xrp_world (fun _ i _ h2 => by
      have hl : size_4096_bytes.length = 4095 := by
        unfold size_4096_bytes
        rw [List.length_append, List.length_replicate, List.length_cons, List.length_cons,
          List.length_replicate]
      have hi : i < size_4096_bytes.length := by
        rw [hl]
        simpa [PAGE_SIZE] using h2
      show (size_4096_bytes ++ [255])[i]? = (size_4096_bytes ++ [0])[i]?
      rw [List.getElem?_append_left hi, List.getElem?_append_left hi])

theorem rw_xrp_not_enabled (env : rw_env) (op : req_opf) (fuel : Nat) (w : world) (b : bio)
    (sector sg_cnt : Nat)
    (h1 : b.bi_end_io = bio_end_io_t.nvmet_bio_done) (h2 : b.bi_remaining ≤ 1)
    (h3 : b.xrp_enabled = false) (hop : w.req.opcode = nvme_opcode.nvme_cmd_xrp_read)
    (hres : env.driver_get_nvmeof_xrp_info = none ∨
      ∃ resolver, env.driver_get_nvmeof_xrp_info = some resolver ∧
        (xrp_read_config env (first_sg_page w.req)).1 = 0 ∧
        ((resolver (xrp_read_config env (first_sg_page w.req)).2.bpfof_fd_info_arr).ret ≠ 0 ∨
         (resolver (xrp_read_config env (first_sg_page w.req)).2.bpfof_fd_info_arr).xrp_enabled
           = false)) :
    ∃ tail, rw_xrp env op fuel w b sector sg_cnt =
      some (rw_step.returned
        { req := { w.req with error_loc := error_loc_t.offsetof_common_opcode,
                              error_slba := 0 },
          hugepage_pool := w.hugepage_pool,
          trace := w.trace ++
            event.nvmet_req_complete { sc := nvme_sc.NVME_SC_INTERNAL, dnr := true } ::
            tail }) ∧
      ∀ e ∈ tail, ∃ b', e = event.bio_put b' := by
  rcases hres with hnone | ⟨resolver, hsome, hdec, hinfo⟩
  · obtain ⟨tail, ht, hall⟩ :=
      bio_io_error_not_xrp env.cpu env.nvmeof_xrp_use_hugepages w b h1 h2 h3 hop
    refine ⟨tail, ?_, hall⟩
    simp only [rw_xrp, hnone, ht, Option.map_some']
  · obtain ⟨tail, ht, hall⟩ :=
      bio_io_error_not_xrp env.cpu env.nvmeof_xrp_use_hugepages w
        { b with
          xrp_scratch_page := first_sg_page w.req,
          xrp_fd_info_arr :=
            (resolver (xrp_read_config env (first_sg_page w.req)).2.bpfof_fd_info_arr).xrp_fd_info_arr,
          xrp_fd_count :=
            (resolver (xrp_read_config env (first_sg_page w.req)).2.bpfof_fd_info_arr).xrp_fd_count }
        h1 h2 h3 hop
    refine ⟨tail, ?_, hall⟩
    rcases hinfo with hret | hen
    · simp only [rw_xrp, hsome, hdec, lt_irrefl, if_false, hret, ne_eq, not_false_eq_true,
        if_true, ht, Option.map_some']
    · by_cases hret : (resolver
          (xrp_read_config env (first_sg_page w.req)).2.bpfof_fd_info_arr).ret = 0
      · simp only [rw_xrp, hsome, hdec, lt_irrefl, if_false, hret, ne_eq, not_true_eq_false,
          hen, Bool.not_false, if_true, ht, Option.map_some']
      · simp only [rw_xrp, hsome, hdec, lt_irrefl, if_false, hret, ne_eq, not_false_eq_true,
          if_true, ht, Option.map_some']

/-- C11: for every offload read that passes the transfer length check and has a non-empty
scatter list, if the resolver pointer is `NULL`, or the descriptor decodes successfully and
the resolver returns a non-zero code or returns 0 with `xrp_enabled == false`, then
`nvmet_bdev_execute_rw` completes the command with `NVME_SC_INTERNAL | NVME_SC_DNR` (the
I/O-error completion), submits no bio and leaves the pool as it was (no acquisition). -/
theorem xrp_not_enabled_io_error (env : rw_env) (fuel : Nat) (w : world)
    (hop : w.req.opcode = nvme_opcode.nvme_cmd_xrp_read)
    (hchk : env.nvmet_check_transfer_len = true)
    (hsg : w.req.sg ≠ [])
    (hres : env.driver_get_nvmeof_xrp_info = none ∨
      ∃ resolver, env.driver_get_nvmeof_xrp_info = some resolver ∧
        (xrp_read_config env (first_sg_page w.req)).1 = 0 ∧
        ((resolver (xrp_read_config env (first_sg_page w.req)).2.bpfof_fd_info_arr).ret ≠ 0 ∨
         (resolver (xrp_read_config env (first_sg_page w.req)).2.bpfof_fd_info_arr).xrp_enabled
           = false)) :
    ∃ tail, nvmet_bdev_execute_rw env fuel w =
      some { req := { w.req with error_loc := error_loc_t.offsetof_common_opcode,
                                 error_slba := 0 },
             hugepage_pool := w.hugepage_pool,
             trace := w.trace ++
               event.nvmet_req_complete { sc := nvme_sc.NVME_SC_INTERNAL, dnr := true } ::
               tail } ∧
      ∀ e ∈ tail, ∃ b', e = event.bio_put b' := by
  have hlen : w.req.sg.length ≠ 0 := by
    intro h
    exact hsg (List.length_eq_zero.1 h)
  obtain ⟨h1, h2, h3⟩ := rw_first_bio_fresh env w.req
  obtain ⟨tail, ht, hall⟩ := rw_xrp_not_enabled env (rw_op env w.req) fuel w
    (rw_first_bio env w.req) (env.nvmet_lba_to_sect w.req.slba) w.req.sg.length
    h1 (le_of_eq h2) h3 hop hres
  refine ⟨tail, ?_, hall⟩
  simp only [nvmet_bdev_execute_rw, hchk, hlen, hop, ht, Bool.not_true, Bool.false_eq_true,
    if_false, if_true]

/-- C11 (witness): a valid descriptor and a resolver that returns 0 with
`xrp_enabled == false`. -/
theorem xrp_not_enabled_io_error_witness :
    ∃ tail, nvmet_bdev_execute_rw xrp_env_not_enabled 1 xrp_world =
      some { req := { xrp_world.req with error_loc := error_loc_t.offsetof_common_opcode,
                                         error_slba := 0 },
             hugepage_pool := xrp_world.hugepage_pool,
             trace := xrp_world.trace ++
               event.nvmet_req_complete { sc := nvme_sc.NVME_SC_INTERNAL, dnr := true } ::
               tail } ∧
      ∀ e ∈ tail, ∃ b', e = event.bio_put b' :=
  xrp_not_enabled_io_error xrp_env_not_enabled 1 xrp_world rfl rfl (by decide)
    (Or.inr ⟨not_enabled_resolver, rfl, by decide, Or.inr rfl⟩)

/-- C12 (failing input): with the pool enabled, a descriptor whose `data_buffer_size` is
2^31 passes the size-limit check (the comparison is made on the `int` -2^31): a pool
page is attached with length 2^31 and the bio is submitted, nothing is completed. With
the pool switched off, a descriptor of size 8192 is attached to the single page that
`alloc_page` returned and submitted. -/
theorem xrp_size_limit_not_enforced :
    (nvmet_bdev_execute_rw (xrp_env size_2g_page 0) 1 xrp_world).map
        (fun w => (submitted_vecs w, completions w)) =
      some ([[{ bv_page := 1, bv_len := 2147483648, bv_offset := 0 }]], []) ∧
    (nvmet_bdev_execute_rw (xrp_env_alloc_page size_8192_page 900) 1 xrp_world).map
        (fun w => (submitted_vecs w, completions w)) =
      some ([[{ bv_page := 900, bv_len := 8192, bv_offset := 0 }]], []) := by
  decide

/-- C13 (failing input): with the pool switched off and `alloc_page` returning `NULL`, an
offload read with a valid descriptor of size 4096 attaches the `NULL` page and submits
the bio; the command is not completed with an error. -/
theorem xrp_alloc_page_null_not_checked :
    (nvmet_bdev_execute_rw (xrp_env_alloc_page size_4096_page 0) 1 xrp_world).map
        (fun w => (submitted_vecs w, completions w)) =
      some ([[{ bv_page := 0, bv_len := 4096, bv_offset := 0 }]], []) := by
  decide

/-- C15 (failing input): for the offload read `xrp_world.req`, whose `slba` is 16, a
failure `BLK_STS_IOERR` leaves `error_slba` at 0, whereas the same command with opcode
`nvme_cmd_read` gets `error_slba` 16. -/
theorem blk_to_nvme_status_xrp_read_slba :
    xrp_world.req.opcode = nvme_opcode.nvme_cmd_xrp_read ∧ xrp_world.req.slba = 16 ∧
    (blk_to_nvme_status xrp_world.req blk_status_t.BLK_STS_IOERR).2.error_slba = 0 ∧
    (blk_to_nvme_status { xrp_world.req with opcode := nvme_opcode.nvme_cmd_read }
      blk_status_t.BLK_STS_IOERR).2.error_slba = 16 := by
  decide

/-- C19 (failing input): an offload read whose descriptor declares 2^21 + 1 bytes acquires
a pool page, fails the size-limit check and is completed with `NVME_SC_INTERNAL |
NVME_SC_DNR`; nothing is submitted, and the slice of processor 0 has 99 available entries
afterwards against 100 before: the acquired page is not reclaimed. -/
theorem xrp_size_limit_failure_leaks :
    available_count xrp_world.hugepage_pool 0 = 100 ∧
    (nvmet_bdev_execute_rw (xrp_env size_over_2m_page 0) 1 xrp_world).map
        (fun w => (available_count w.hugepage_pool 0, completions w, submitted_vecs w)) =
      some (99, [{ sc := nvme_sc.NVME_SC_INTERNAL, dnr := true }], []) := by
  decide

/-- C14: `blk_to_nvme_status` returns `NVME_SC_SUCCESS` for `BLK_STS_OK` and leaves the
request as it was; `NOSPC` gives `CAP_EXCEEDED | DNR` with `error_loc` at `rw.length`;
`TARGET` gives `LBA_RANGE | DNR` at `rw.slba`; `NOTSUPP` gives `ONCS_NOT_SUPPORTED | DNR`
for the opcodes dsm and write_zeroes and `INVALID_OPCODE | DNR` for every other opcode, at
`opcode`; `MEDIUM` gives `ACCESS_DENIED` at `rw.nsid`; `IOERR` and every other failure
code give `INTERNAL | DNR` at `opcode`; the result is `NVME_SC_SUCCESS` only for
`BLK_STS_OK`. -/
theorem blk_to_nvme_status_table (req : nvmet_req) :
    blk_to_nvme_status req blk_status_t.BLK_STS_OK =
      ({ sc := nvme_sc.NVME_SC_SUCCESS, dnr := false }, req) ∧
    ((blk_to_nvme_status req blk_status_t.BLK_STS_NOSPC).1 =
        { sc := nvme_sc.NVME_SC_CAP_EXCEEDED, dnr := true } ∧
      (blk_to_nvme_status req blk_status_t.BLK_STS_NOSPC).2.error_loc =
        error_loc_t.offsetof_rw_length) ∧
    ((blk_to_nvme_status req blk_status_t.BLK_STS_TARGET).1 =
        { sc := nvme_sc.NVME_SC_LBA_RANGE, dnr := true } ∧
      (blk_to_nvme_status req blk_status_t.BLK_STS_TARGET).2.error_loc =
        error_loc_t.offsetof_rw_slba) ∧
    ((blk_to_nvme_status req blk_status_t.BLK_STS_NOTSUPP).1 =
        (if req.opcode = nvme_opcode.nvme_cmd_dsm ∨
            req.opcode = nvme_opcode.nvme_cmd_write_zeroes then
          { sc := nvme_sc.NVME_SC_ONCS_NOT_SUPPORTED, dnr := true }
        else { sc := nvme_sc.NVME_SC_INVALID_OPCODE, dnr := true }) ∧
      (blk_to_nvme_status req blk_status_t.BLK_STS_NOTSUPP).2.error_loc =
        error_loc_t.offsetof_common_opcode) ∧
    ((blk_to_nvme_status req blk_status_t.BLK_STS_MEDIUM).1 =
        { sc := nvme_sc.NVME_SC_ACCESS_DENIED, dnr := false } ∧
      (blk_to_nvme_status req blk_status_t.BLK_STS_MEDIUM).2.error_loc =
        error_loc_t.offsetof_rw_nsid) ∧
    ((blk_to_nvme_status req blk_status_t.BLK_STS_IOERR).1 =
        { sc := nvme_sc.NVME_SC_INTERNAL, dnr := true } ∧
      (blk_to_nvme_status req blk_status_t.BLK_STS_IOERR).2.error_loc =
        error_loc_t.offsetof_common_opcode) ∧
    (∀ code, (blk_to_nvme_status req (blk_status_t.other code)).1 =
        { sc := nvme_sc.NVME_SC_INTERNAL, dnr := true } ∧
      (blk_to_nvme_status req (blk_status_t.other code)).2.error_loc =
        error_loc_t.offsetof_common_opcode) ∧
    (∀ blk_sts, (blk_to_nvme_status req blk_sts).1 =
        { sc := nvme_sc.NVME_SC_SUCCESS, dnr := false } ↔
      blk_sts = blk_status_t.BLK_STS_OK) := by
  refine ⟨?_, ?_, ?_, ?_, ?_, ?_, ?_, ?_⟩
  · simp [blk_to_nvme_status]
  · cases h : req.opcode <;> simp [blk_to_nvme_status, h]
  · cases h : req.opcode <;> simp [blk_to_nvme_status, h]
  · cases h : req.opcode <;> simp [blk_to_nvme_status, h]
  · cases h : req.opcode <;> simp [blk_to_nvme_status, h]
  · cases h : req.opcode <;> simp [blk_to_nvme_status, h]
  · intro code
    cases h : req.opcode <;> simp [blk_to_nvme_status, h]
  · intro blk_sts
    cases blk_sts <;> cases h : req.opcode <;> simp [blk_to_nvme_status, h]

/-! ## Theorems: the pool initialisation -/

theorem hugepage_pool_init_loop_spec (alloc_pages : Nat → Nat) (n : Nat) :
    ∀ (i : Nat) (pool : List hugepage_pool_entry), i + n ≤ pool.length →
    ∃ out, hugepage_pool_init_loop alloc_pages i n pool = some out ∧
      out.length = pool.length ∧
      ∀ j, out[j]? =
        if i ≤ j ∧ j < i + n then some { page := alloc_pages j, in_use := false }
        else pool[j]? := by
  induction n with
  | zero =>
    intro i pool _
    refine ⟨pool, rfl, rfl, fun j => ?_⟩
    rw [if_neg (by omega)]
  | succ n ih =>
    intro i pool h
    have hi : i < pool.length := by omega
    obtain ⟨out, ho, hlen, hpt⟩ :=
      ih (i + 1) (pool.set i { page := alloc_pages i, in_use := false })
        (by rw [List.length_set]; omega)
    refine ⟨out, ?_, by rw [hlen, List.length_set], fun j => ?_⟩
    · simp only [hugepage_pool_init_loop, hi, if_true]
      exact ho
    · rw [hpt j]
      by_cases hj : j = i
      · subst hj
        rw [if_neg (by omega), if_pos (by omega), List.getElem?_set_self hi]
      · rw [List.getElem?_set_ne (fun h => hj h.symm)]
        by_cases hr : i + 1 ≤ j ∧ j < i + 1 + n
        · rw [if_pos hr, if_pos (by omega)]
        · rw [if_neg hr, if_neg (by omega)]

/-- C16 (amended): `hugepage_pool_init_for_all_cpus` has no failure handling. Whenever the
entry array is allocated, it returns with exactly `num_cpus * HUGEPAGE_POOL_SIZE` entries,
all with `in_use == false`, entry `i` holding what the `i`-th `alloc_pages` returned
(`NULL` included), and with `nvmeof_xrp_use_hugepages` as it was before; if the allocator
satisfies every request, no entry holds a `NULL` page. -/
theorem hugepage_pool_init_spec (num_online_cpus : Nat)
    (kmalloc_array : Nat → Option (List hugepage_pool_entry)) (alloc_pages : Nat → Nat)
    (g : pool_globals) (mem : List hugepage_pool_entry)
    (hk : kmalloc_array (num_online_cpus * HUGEPAGE_POOL_SIZE) = some mem)
    (hlen : mem.length = num_online_cpus * HUGEPAGE_POOL_SIZE) :
    ∃ pool,
      hugepage_pool_init_for_all_cpus num_online_cpus kmalloc_array alloc_pages g =
        some { hugepage_pool := some pool,
               hugepage_pool_size := num_online_cpus * HUGEPAGE_POOL_SIZE,
               num_cpus := num_online_cpus,
               nvmeof_xrp_use_hugepages := g.nvmeof_xrp_use_hugepages } ∧
      pool.length = num_online_cpus * HUGEPAGE_POOL_SIZE ∧
      (∀ i, i < num_online_cpus * HUGEPAGE_POOL_SIZE →
        pool[i]? = some { page := alloc_pages i, in_use := false }) ∧
      ((∀ i, i < num_online_cpus * HUGEPAGE_POOL_SIZE → alloc_pages i ≠ 0) →
        ∀ e ∈ pool, e.page ≠ 0 ∧ e.in_use = false) := by
  obtain ⟨out, ho, hol, hpt⟩ := hugepage_pool_init_loop_spec alloc_pages
    (num_online_cpus * HUGEPAGE_POOL_SIZE) 0 mem (by omega)
  have hent : ∀ i, i < num_online_cpus * HUGEPAGE_POOL_SIZE →
      out[i]? = some { page := alloc_pages i, in_use := false } := by
    intro i hi
    rw [hpt i, if_pos (by omega)]
  refine ⟨out, ?_, by rw [hol, hlen], hent, ?_⟩
  · simp only [hugepage_pool_init_for_all_cpus, hk, ho]
  · intro hall e he
    obtain ⟨j, hj⟩ := List.mem_iff_getElem?.1 he
    have hjl := getElem?_lt_length _ j e hj
    rw [hol, hlen] at hjl
    rw [hent j hjl] at hj
    cases hj
    exact ⟨hall j hjl, rfl⟩

/-- C16 (witness): one processor, stale memory, every `alloc_pages` returning a page. -/
theorem hugepage_pool_init_spec_witness :
    ∃ pool,
      hugepage_pool_init_for_all_cpus 1 stale_memory (fun i => 1000 + i)
          globals_before_init =
        some { hugepage_pool := some pool,
               hugepage_pool_size := 1 * HUGEPAGE_POOL_SIZE,
               num_cpus := 1,
               nvmeof_xrp_use_hugepages := globals_before_init.nvmeof_xrp_use_hugepages } ∧
      pool.length = 1 * HUGEPAGE_POOL_SIZE ∧
      (∀ i, i < 1 * HUGEPAGE_POOL_SIZE →
        pool[i]? = some { page := (fun i => 1000 + i) i, in_use := false }) ∧
      ((∀ i, i < 1 * HUGEPAGE_POOL_SIZE → (fun i => 1000 + i) i ≠ 0) →
        ∀ e ∈ pool, e.page ≠ 0 ∧ e.in_use = false) :=
  hugepage_pool_init_spec 1 stale_memory (fun i => 1000 + i) globals_before_init
    (List.replicate (1 * HUGEPAGE_POOL_SIZE) { page := 7, in_use := true }) rfl
    (List.length_replicate _ _)

/-- C16 (counterexample): the first `alloc_pages` returns `NULL`. The initialisation
returns with `nvmeof_xrp_use_hugepages` still true and with entry 0 holding the `NULL`
page; `get_available_hugepage` on processor 0 then marks that entry in use and hands out
`NULL`. -/
theorem hugepage_pool_init_failure_counterexample :
    (hugepage_pool_init_for_all_cpus 1 stale_memory failing_alloc_pages
        globals_before_init).map
        (fun g => (g.nvmeof_xrp_use_hugepages, g.hugepage_pool.map (fun p => p[0]?))) =
      some (true, some (some { page := 0, in_use := false })) ∧
    ((hugepage_pool_init_for_all_cpus 1 stale_memory failing_alloc_pages
        globals_before_init).bind
        (fun g => g.hugepage_pool.bind (fun p => get_available_hugepage p 0))).map
        (fun r => (r.1[0]?, r.2)) =
      some (some { page := 0, in_use := true }, 0) := by
  decide

/-! ## Theorems: the discard path -/

theorem nvmet_bdev_discard_range_spec (env : discard_env) (w : world) (i : Nat)
    (cur : Option bio) :
    (nvmet_bdev_discard_range env w (dsm_range env i) cur).2.2 = discard_status env i cur ∧
    (nvmet_bdev_discard_range env w (dsm_range env i) cur).1.trace =
      w.trace ++ [discard_event env i] ∧
    (nvmet_bdev_discard_range env w (dsm_range env i) cur).1.hugepage_pool =
      w.hugepage_pool ∧
    (nvmet_bdev_discard_range env w (dsm_range env i) cur).1.req.opcode = w.req.opcode ∧
    (discard_status env i cur ≠ nvme_success →
      (nvmet_bdev_discard_range env w (dsm_range env i) cur).1.req.error_slba =
        (dsm_range env i).slba) := by
  unfold nvmet_bdev_discard_range discard_status discard_event
  simp only [world.emit]
  split_ifs with h
  · exact ⟨rfl, rfl, rfl, rfl, fun _ => rfl⟩
  · exact ⟨rfl, rfl, rfl, rfl, fun hne => absurd rfl hne⟩

theorem discard_loop_spec (env : discard_env) (n : Nat) :
    ∀ (f i : Nat) (w : world) (cur : Option bio) (st : nvme_status),
      f ≤ n → i + n < 2 ^ 31 →
      (∀ j, i ≤ j → j < i + f →
        copy_status env j = nvme_success ∧ ∀ c, discard_status env j c = nvme_success) →
      (f < n → copy_status env (i + f) ≠ nvme_success ∨
        (copy_status env (i + f) = nvme_success ∧
          ∀ c, discard_status env (i + f) c ≠ nvme_success)) →
      ∃ w' cur' s, discard_loop env n i w cur st = some (w', cur', s) ∧
        w'.hugepage_pool = w.hugepage_pool ∧
        w'.req.opcode = w.req.opcode ∧
        w'.trace = w.trace ++ (List.range' i f).map (discard_event env) ++
          (if f < n ∧ copy_status env (i + f) = nvme_success then [discard_event env (i + f)]
           else []) ∧
        (f < n → copy_status env (i + f) ≠ nvme_success → s = copy_status env (i + f)) ∧
        (f < n → copy_status env (i + f) = nvme_success →
          (∃ c, s = discard_status env (i + f) c) ∧
          w'.req.error_slba = (dsm_range env (i + f)).slba) ∧
        (f = n → 0 < n → s = nvme_success) := by
  induction n with
  | zero =>
    intro f i w cur st hf _ _ _
    have hf0 : f = 0 := by omega
    subst hf0
    refine ⟨w, cur, st, rfl, rfl, rfl, by simp, ?_, ?_, ?_⟩
    · intro h; omega
    · intro h; omega
    · intro _ h; omega
  | succ n ih =>
    intro f i w cur st hf hi hok hfail
    cases f with
    | zero =>
      rcases hfail (by omega) with hc | ⟨hc, hd⟩
      · simp only [Nat.add_zero] at hc
        refine ⟨(after_copy env w i), cur, copy_status env i, ?_, rfl, rfl, ?_, ?_, ?_, ?_⟩
        · have hc' : (env.nvmet_copy_from_sgl (i * env.sizeof_nvme_dsm_range)).1 ≠
              nvme_success := hc
          simp only [discard_loop, hc', ne_eq, not_false_eq_true, if_true]
          rfl
        · simp [hc, after_copy]
        · intro _ _; rfl
        · intro _ h; exact absurd h hc
        · intro h; omega
      · simp only [Nat.add_zero] at hc hd
        have hc' : (env.nvmet_copy_from_sgl (i * env.sizeof_nvme_dsm_range)).1 =
            nvme_success := hc
        obtain ⟨h1, h2, h3, h4, h5⟩ := nvmet_bdev_discard_range_spec env
          (after_copy env w i) i cur
        have hne := hd cur
        have hd2 : (nvmet_bdev_discard_range env (after_copy env w i)
            (env.nvmet_copy_from_sgl (i * env.sizeof_nvme_dsm_range)).2.2 cur).2.2 ≠
            nvme_success := by
          have := h1
          unfold dsm_range at this
          rw [this]
          exact hne
        refine ⟨(nvmet_bdev_discard_range env (after_copy env w i) (dsm_range env i) cur).1,
          (nvmet_bdev_discard_range env (after_copy env w i) (dsm_range env i) cur).2.1,
          (nvmet_bdev_discard_range env (after_copy env w i) (dsm_range env i) cur).2.2,
          ?_, h3, h4, ?_, ?_, ?_, ?_⟩
        · simp only [discard_loop, hc', ne_eq, not_true_eq_false, if_false, hd2,
            not_false_eq_true, if_true]
          rfl
        · rw [h2]
          simp [hc, after_copy]
        · intro _ h; exact absurd hc h
        · intro _ _
          exact ⟨⟨cur, h1⟩, h5 hne⟩
        · intro h; omega
    | succ f =>
      obtain ⟨hc, hd⟩ := hok i (le_refl _) (by omega)
      have hc' : (env.nvmet_copy_from_sgl (i * env.sizeof_nvme_dsm_range)).1 =
          nvme_success := hc
      obtain ⟨h1, h2, h3, h4, _⟩ := nvmet_bdev_discard_range_spec env
        (after_copy env w i) i cur
      have hd2 : (nvmet_bdev_discard_range env
          (after_copy env w i)
          (env.nvmet_copy_from_sgl (i * env.sizeof_nvme_dsm_range)).2.2 cur).2.2 =
          nvme_success := by
        have := h1
        unfold dsm_range at this
        rw [this]
        exact hd cur
      have hidx : i + 1 + f = i + (f + 1) := by omega
      obtain ⟨w', cur', s, hr, hp, hop, htr, hs1, hs2, hs3⟩ :=
        ih f (i + 1)
          (nvmet_bdev_discard_range env
            (after_copy env w i) (dsm_range env i) cur).1
          (nvmet_bdev_discard_range env
            (after_copy env w i) (dsm_range env i) cur).2.1
          nvme_success
          (by omega) (by omega)
          (fun j hj1 hj2 => hok j (by omega) (by omega))
          (fun hlt => by
            rw [hidx]
            exact hfail (by omega))
      rw [hidx] at htr hs1 hs2
      refine ⟨w', cur', s, ?_, by rw [hp, h3]; rfl, by rw [hop, h4]; rfl, ?_, ?_, ?_, ?_⟩
      · have hlt : i + 1 < 2 ^ 31 := by omega
        simp only [discard_loop, hc', ne_eq, not_true_eq_false, if_false, hd2, hlt, if_true]
        exact hr
      · rw [htr, h2, List.range'_succ, List.map_cons]
        have hiff : (f < n ∧ copy_status env (i + (f + 1)) = nvme_success) ↔
            (f + 1 < n + 1 ∧ copy_status env (i + (f + 1)) = nvme_success) := by
          constructor
          · rintro ⟨a, b⟩; exact ⟨by omega, b⟩
          · rintro ⟨a, b⟩; exact ⟨by omega, b⟩
        simp only [hiff, List.append_assoc, List.singleton_append]
        rfl
      · intro hlt hne
        exact hs1 (by omega) hne
      · intro hlt heq
        exact hs2 (by omega) heq
      · intro hfn _
        by_cases hn0 : 0 < n
        · exact hs3 (by omega) hn0
        · have hn : n = 0 := by omega
          subst hn
          have hf0 : f = 0 := by omega
          subst hf0
          simp only [discard_loop] at hr
          cases hr
          rfl
theorem blk_to_nvme_status_ioerr_dsm (req : nvmet_req)
    (hop : req.opcode = nvme_opcode.nvme_cmd_dsm) :
    blk_to_nvme_status req blk_status_t.BLK_STS_IOERR =
      ({ sc := nvme_sc.NVME_SC_INTERNAL, dnr := true },
        { req with error_loc := error_loc_t.offsetof_common_opcode, error_slba := 0 }) := by
  simp [blk_to_nvme_status, hop]

theorem bio_io_error_dsm (cpu : Nat) (use_hugepages : Bool) (w : world) (b : bio)
    (h1 : b.bi_end_io = bio_end_io_t.nvmet_bio_done) (h2 : b.bi_remaining ≤ 1)
    (h3 : b.xrp_enabled = false) (hop : w.req.opcode = nvme_opcode.nvme_cmd_dsm) :
    ∃ tail, bio_io_error cpu use_hugepages w b =
      some { req := { w.req with error_loc := error_loc_t.offsetof_common_opcode,
                                 error_slba := 0 },
             hugepage_pool := w.hugepage_pool,
             trace := w.trace ++
               event.nvmet_req_complete { sc := nvme_sc.NVME_SC_INTERNAL, dnr := true } ::
               tail } ∧
      ∀ e ∈ tail, ∃ b', e = event.bio_put b' := by
  have hst := blk_to_nvme_status_ioerr_dsm w.req hop
  by_cases hin : b.is_inline = true
  · refine ⟨[], ?_, fun e he => by cases he⟩
    simp [bio_io_error, bio_endio, nvmet_bio_done, h1, h2, h3, hst, hin, world.emit]
  · refine ⟨[event.bio_put { b with bi_status := blk_status_t.BLK_STS_IOERR }], ?_, ?_⟩
    · simp [bio_io_error, bio_endio, nvmet_bio_done, h1, h2, h3, hst, hin, world.emit]
    · intro e he
      exact ⟨_, List.mem_singleton.1 he⟩

theorem nvmet_bio_done_ioerr_dsm (cpu : Nat) (use_hugepages : Bool) (w : world) (b : bio)
    (hx : b.xrp_enabled = false) (hst : b.bi_status = blk_status_t.BLK_STS_IOERR)
    (hop : w.req.opcode = nvme_opcode.nvme_cmd_dsm) :
    ∃ tail, nvmet_bio_done cpu use_hugepages w b =
      some { req := { w.req with error_loc := error_loc_t.offsetof_common_opcode,
                                 error_slba := 0 },
             hugepage_pool := w.hugepage_pool,
             trace := w.trace ++
               event.nvmet_req_complete { sc := nvme_sc.NVME_SC_INTERNAL, dnr := true } ::
               tail } ∧
      ∀ e ∈ tail, ∃ b', e = event.bio_put b' := by
  have hs := blk_to_nvme_status_ioerr_dsm w.req hop
  by_cases hin : b.is_inline = true
  · refine ⟨[], ?_, fun e he => by cases he⟩
    simp [nvmet_bio_done, hx, hst, hs, hin, world.emit]
  · refine ⟨[event.bio_put b], ?_, ?_⟩
    · simp [nvmet_bio_done, hx, hst, hs, hin, world.emit]
    · intro e he
      exact ⟨_, List.mem_singleton.1 he⟩

theorem complete_chained_prefix (use_hugepages : Bool) (w : world) :
    ∀ (pre : List completion) (p : bio),
      p.bi_status = blk_status_t.BLK_STS_IOERR → pre.length < p.bi_remaining →
      ∃ p', complete_chained use_hugepages w p pre = some (w, p') := by
  intro pre
  induction pre with
  | nil =>
    intro p _ _
    exact ⟨p, rfl⟩
  | cons c rest ih =>
    intro p hst hlen
    rw [List.length_cons] at hlen
    have hne : p.bi_remaining - 1 ≠ 0 := by omega
    obtain ⟨p', hp'⟩ := ih { p with bi_remaining := p.bi_remaining - 1 } hst
      (by show rest.length < p.bi_remaining - 1; omega)
    have hcond : ¬ (c.status ≠ blk_status_t.BLK_STS_OK ∧
        p.bi_status = blk_status_t.BLK_STS_OK) := by
      rw [hst]
      exact fun h => absurd h.2 (by decide)
    refine ⟨p', ?_⟩
    simp only [complete_chained, bio_chain_endio, hcond, if_false, hne, ne_eq,
      not_false_eq_true, if_true]
    exact hp'

theorem complete_chained_spec (use_hugepages : Bool) (w : world)
    (hop : w.req.opcode = nvme_opcode.nvme_cmd_dsm) :
    ∀ (children : List completion) (p : bio),
      p.xrp_enabled = false → p.bi_status = blk_status_t.BLK_STS_IOERR →
      children ≠ [] → children.length = p.bi_remaining →
      ∃ tail p', complete_chained use_hugepages w p children =
        some ({ req := { w.req with error_loc := error_loc_t.offsetof_common_opcode,
                                    error_slba := 0 },
                hugepage_pool := w.hugepage_pool,
                trace := w.trace ++
                  event.nvmet_req_complete { sc := nvme_sc.NVME_SC_INTERNAL, dnr := true } ::
                  tail }, p') ∧
        ∀ e ∈ tail, ∃ b', e = event.bio_put b' := by
  intro children
  induction children with
  | nil =>
    intro p _ _ hne _
    exact absurd rfl hne
  | cons c rest ih =>
    intro p hx hst _ hlen
    rw [List.length_cons] at hlen
    have hcond : ¬ (c.status ≠ blk_status_t.BLK_STS_OK ∧
        p.bi_status = blk_status_t.BLK_STS_OK) := by
      rw [hst]
      exact fun h => absurd h.2 (by decide)
    cases rest with
    | nil =>
      have hrem : p.bi_remaining - 1 = 0 := by
        rw [← hlen]
        rfl
      obtain ⟨tail, ht, hall⟩ := nvmet_bio_done_ioerr_dsm c.cpu use_hugepages w
        { p with bi_remaining := p.bi_remaining - 1 } hx hst hop
      refine ⟨tail, { p with bi_remaining := p.bi_remaining - 1 }, ?_, hall⟩
      simp only [complete_chained, bio_chain_endio, hcond, if_false]
      rw [if_neg (not_not.2 hrem), ht]
      rfl
    | cons c2 rest2 =>
      rw [List.length_cons] at hlen
      have hne : p.bi_remaining - 1 ≠ 0 := by omega
      obtain ⟨tail, p', hp', hall⟩ := ih { p with bi_remaining := p.bi_remaining - 1 } hx hst
        (by simp) (by show (c2 :: rest2).length = p.bi_remaining - 1
                      rw [List.length_cons]; omega)
      refine ⟨tail, p', ?_, hall⟩
      simp only [complete_chained, bio_chain_endio, hcond, if_false, hne, ne_eq,
        not_false_eq_true, if_true] at hp' ⊢
      exact hp'

/-- C17 (amended): when range `k` is the first to fail, with status `s != 0`, the loop
ends with status `s` (and with `error_slba` the start of range `k` when the discard
itself failed). If no range produced a bio, `nvmet_req_complete` is called with `s`. If
a bio exists, the command is completed through `bio_io_error` on that bio, and the status
reported is `NVME_SC_INTERNAL | NVME_SC_DNR` with `error_slba` 0: for a bio that no
chained bio waits on, `nvmet_bio_done` runs at once; for a bio that is waited on, the
function returns with the bio handed to the block layer, nothing is reported while a
chained bio is outstanding, and when the last of them has completed, whatever their
statuses, `nvmet_bio_done` runs and reports that status. -/
theorem discard_failure_reporting (env : discard_env) (w : world) (k : Nat)
    (s : nvme_status)
    (hnr : env.nr + 1 < 2 ^ 31) (hk : k ≤ env.nr) (hs : s ≠ nvme_success)
    (hop : w.req.opcode = nvme_opcode.nvme_cmd_dsm)
    (hok : ∀ j, j < k →
      copy_status env j = nvme_success ∧ ∀ c, discard_status env j c = nvme_success)
    (hfail : copy_status env k = s ∨
      (copy_status env k = nvme_success ∧ ∀ c, discard_status env k c = s)) :
    ∃ w1 cur, discard_loop env (env.nr + 1) 0 w none nvme_success = some (w1, cur, s) ∧
      (copy_status env k = nvme_success → w1.req.error_slba = (dsm_range env k).slba) ∧
      (cur = none →
        nvmet_bdev_execute_discard env w = some (w1.emit (event.nvmet_req_complete s))) ∧
      (∀ b, cur = some b → b.xrp_enabled = false → b.bi_remaining ≤ 1 →
        ∃ tail, nvmet_bdev_execute_discard env w =
          some { req := { w1.req with error_loc := error_loc_t.offsetof_common_opcode,
                                      error_slba := 0 },
                 hugepage_pool := w1.hugepage_pool,
                 trace := w1.trace ++
                   event.nvmet_req_complete { sc := nvme_sc.NVME_SC_INTERNAL, dnr := true } ::
                   tail } ∧
          ∀ e ∈ tail, ∃ b', e = event.bio_put b') ∧
      (∀ b, cur = some b → 1 < b.bi_remaining →
        ∃ b' w2,
          b' = { b with bi_private := bi_private_t.req,
                        bi_end_io := bio_end_io_t.nvmet_bio_done,
                        bi_status := blk_status_t.BLK_STS_IOERR } ∧
          w2 = w1.emit (event.bio_endio b') ∧
          nvmet_bdev_execute_discard env w = some w2 ∧
          (b.xrp_enabled = false →
            ∀ children : List completion, children.length + 1 = b.bi_remaining →
              (∃ tail p,
                complete_chained env.nvmeof_xrp_use_hugepages w2 (pending_bio b') children =
                  some ({ req := { w2.req with
                                   error_loc := error_loc_t.offsetof_common_opcode,
                                   error_slba := 0 },
                          hugepage_pool := w2.hugepage_pool,
                          trace := w2.trace ++
                            event.nvmet_req_complete
                              { sc := nvme_sc.NVME_SC_INTERNAL, dnr := true } :: tail }, p) ∧
                ∀ e ∈ tail, ∃ b'', e = event.bio_put b'') ∧
              (∀ pre suf, children = pre ++ suf → suf ≠ [] →
                ∃ p, complete_chained env.nvmeof_xrp_use_hugepages w2 (pending_bio b') pre =
                  some (w2, p)))) := by
  have hfail' : k < env.nr + 1 → copy_status env (0 + k) ≠ nvme_success ∨
      (copy_status env (0 + k) = nvme_success ∧
        ∀ c, discard_status env (0 + k) c ≠ nvme_success) := by
    intro _
    rw [Nat.zero_add]
    rcases hfail with h | ⟨h1, h2⟩
    · left; rw [h]; exact hs
    · right; exact ⟨h1, fun c => by rw [h2 c]; exact hs⟩
  obtain ⟨w1, cur, s', hr, _, hop1, _, hs1, hs2, _⟩ :=
    discard_loop_spec env (env.nr + 1) k 0 w none nvme_success (by omega) (by omega)
      (fun j _ hj => hok j (by omega)) hfail'
  rw [Nat.zero_add] at hs1 hs2
  have hss : s' = s := by
    rcases hfail with h | ⟨h1, h2⟩
    · rw [← h]
      exact hs1 (by omega) (by rw [h]; exact hs)
    · obtain ⟨⟨c, hc⟩, _⟩ := hs2 (by omega) h1
      rw [hc, h2 c]
  subst hss
  refine ⟨w1, cur, hr, fun h => (hs2 (by omega) h).2, ?_, ?_, ?_⟩
  · intro hcur
    subst hcur
    simp only [nvmet_bdev_execute_discard, hr]
  · intro b hcur hx hrem
    subst hcur
    obtain ⟨tail, ht, hall⟩ := bio_io_error_dsm env.cpu env.nvmeof_xrp_use_hugepages w1
      { b with bi_private := bi_private_t.req, bi_end_io := bio_end_io_t.nvmet_bio_done }
      rfl hrem hx (by rw [hop1, hop])
    refine ⟨tail, ?_, hall⟩
    simp only [nvmet_bdev_execute_discard, hr, hs, ne_eq, not_false_eq_true, if_true, ht]
  · intro b hcur hrem
    subst hcur
    have hnot : ¬ b.bi_remaining ≤ 1 := by omega
    refine ⟨_, _, rfl, rfl, ?_, ?_⟩
    · simp only [nvmet_bdev_execute_discard, hr, hs, ne_eq, not_false_eq_true, if_true,
        bio_io_error, bio_endio, hnot, and_false, if_false]
    · intro hx children hlen
      constructor
      · exact complete_chained_spec env.nvmeof_xrp_use_hugepages _ (by
            show w1.req.opcode = nvme_opcode.nvme_cmd_dsm
            rw [hop1, hop]) children _ hx rfl
          (by
            intro h0
            rw [h0] at hlen
            simp only [List.length_nil] at hlen
            omega)
          (by
            show children.length = b.bi_remaining - 1
            omega)
      · intro pre suf hsplit hsuf
        have hpos : 0 < suf.length := List.length_pos.2 hsuf
        exact complete_chained_prefix env.nvmeof_xrp_use_hugepages _ pre _ rfl (by
          show pre.length < b.bi_remaining - 1
          rw [hsplit, List.length_append] at hlen
          omega)

/-- C17 (witness): the second of two ranges fails in the discard with
`NVME_SC_CAP_EXCEEDED | NVME_SC_DNR`, after the first produced a bio; and the third of
three ranges fails in the same way, when the bio is waited on by the bio of the first
range: the command is completed when that bio completes, on processor 1. -/
theorem discard_failure_reporting_witness :
    (∃ w1 cur, discard_loop discard_env_second_fails 2 0 dsm_world none nvme_success =
      some (w1, cur, { sc := nvme_sc.NVME_SC_CAP_EXCEEDED, dnr := true })) ∧
    (∃ w2 tail p,
      nvmet_bdev_execute_discard discard_env_third_fails dsm_world = some w2 ∧
      complete_chained false w2 (pending_bio discard_failed_bio)
          [{ id := 0, status := blk_status_t.BLK_STS_OK, cpu := 1 }] =
        some ({ req := { w2.req with error_loc := error_loc_t.offsetof_common_opcode,
                                     error_slba := 0 },
                hugepage_pool := w2.hugepage_pool,
                trace := w2.trace ++
                  event.nvmet_req_complete { sc := nvme_sc.NVME_SC_INTERNAL, dnr := true } ::
                  tail }, p)) := by
  constructor
  · obtain ⟨w1, cur, h, _⟩ := discard_failure_reporting discard_env_second_fails dsm_world 1
      { sc := nvme_sc.NVME_SC_CAP_EXCEEDED, dnr := true } (by decide) (by decide) (by decide)
      rfl
      (fun j hj => by
        have hj0 : j = 0 := by omega
        subst hj0
        exact ⟨rfl, fun c => rfl⟩)
      (Or.inr ⟨rfl, fun c => rfl⟩)
    exact ⟨w1, cur, h⟩
  · obtain ⟨w1, cur, hr, _, _, _, h4⟩ :=
      discard_failure_reporting discard_env_third_fails dsm_world 2
        { sc := nvme_sc.NVME_SC_CAP_EXCEEDED, dnr := true } (by decide) (by decide)
        (by decide) rfl
        (fun j hj => by
          rcases (by omega : j = 0 ∨ j = 1) with h | h <;> subst h <;>
            exact ⟨rfl, fun c => rfl⟩)
        (Or.inr ⟨rfl, fun c => rfl⟩)
    have hloop : (discard_loop discard_env_third_fails (discard_env_third_fails.nr + 1) 0
        dsm_world none nvme_success).map (fun r => r.2.1) = some (some discard_chained_bio) := by
      decide
    rw [hr] at hloop
    have hcur : cur = some discard_chained_bio := Option.some.inj hloop
    obtain ⟨b', w2, hb', _, hrun, hfin⟩ := h4 discard_chained_bio hcur (by decide)
    have hb2 : b' = discard_failed_bio := hb'
    subst hb2
    obtain ⟨⟨tail, p, ht, _⟩, _⟩ := hfin rfl
      [{ id := 0, status := blk_status_t.BLK_STS_OK, cpu := 1 }] rfl
    exact ⟨w2, tail, p, hrun, ht⟩

/-- C17 (counterexample): range 1 is the first to fail, in the discard, with
`NVME_SC_CAP_EXCEEDED | NVME_SC_DNR` and start address 4096, after range 0 produced a bio;
the status passed to `nvmet_req_complete` is `NVME_SC_INTERNAL | NVME_SC_DNR` and
`error_slba` is 0. And when range 2 is the first to fail, with start address 8192, after
two ranges whose bios are chained, nothing is reported when the function returns, and
when the chained bio has completed the status reported is again
`NVME_SC_INTERNAL | NVME_SC_DNR` with `error_slba` 0. -/
theorem discard_failure_reporting_counterexample :
    (discard_loop discard_env_second_fails 2 0 dsm_world none nvme_success).map
        (fun r => (r.2.2, r.1.req.error_slba, r.2.1.isSome)) =
      some ({ sc := nvme_sc.NVME_SC_CAP_EXCEEDED, dnr := true }, 4096, true) ∧
    (nvmet_bdev_execute_discard discard_env_second_fails dsm_world).map
        (fun w => (completions w, w.req.error_slba)) =
      some ([{ sc := nvme_sc.NVME_SC_INTERNAL, dnr := true }], 0) ∧
    (discard_loop discard_env_third_fails 3 0 dsm_world none nvme_success).map
        (fun r => (r.2.2, r.1.req.error_slba, r.2.1)) =
      some ({ sc := nvme_sc.NVME_SC_CAP_EXCEEDED, dnr := true }, 8192,
        some discard_chained_bio) ∧
    (nvmet_bdev_execute_discard discard_env_third_fails dsm_world).map
        (fun w => (completions w, w.trace.getLast?)) =
      some ([], some (event.bio_endio discard_failed_bio)) ∧
    ((nvmet_bdev_execute_discard discard_env_third_fails dsm_world).bind
        (fun w => complete_chained false w (pending_bio discard_failed_bio)
          [{ id := 0, status := blk_status_t.BLK_STS_OK, cpu := 1 }])).map
        (fun r => (completions r.1, r.1.req.error_slba)) =
      some ([{ sc := nvme_sc.NVME_SC_INTERNAL, dnr := true }], 0) := by
  decide

theorem discard_loop_cur (env : discard_env) (P : bio → Prop)
    (hP : ∀ sector nr_sects c b, (∀ b', c = some b' → P b') →
      (env.blkdev_issue_discard sector nr_sects c).2 = some b → P b) (n : Nat) :
    ∀ (i : Nat) (w : world) (cur : Option bio) (st : nvme_status) (w' : world)
      (cur' : Option bio) (s : nvme_status),
      (∀ b, cur = some b → P b) →
      discard_loop env n i w cur st = some (w', cur', s) →
      ∀ b, cur' = some b → P b := by
  induction n with
  | zero =>
    intro i w cur st w' cur' s hcur hr
    simp only [discard_loop, Option.some.injEq, Prod.mk.injEq] at hr
    obtain ⟨_, h2, _⟩ := hr
    subst h2
    exact hcur
  | succ n ih =>
    intro i w cur st w' cur' s hcur hr
    have hnew : ∀ b, (nvmet_bdev_discard_range env (after_copy env w i)
        (env.nvmet_copy_from_sgl (i * env.sizeof_nvme_dsm_range)).2.2 cur).2.1 = some b →
        P b := by
      intro b hb
      unfold nvmet_bdev_discard_range at hb
      simp only at hb
      split_ifs at hb
      · exact hP _ _ _ b hcur hb
      · exact hP _ _ _ b hcur hb
    simp only [discard_loop] at hr
    split_ifs at hr with h1 h2 h3
    · simp only [Option.some.injEq, Prod.mk.injEq] at hr
      obtain ⟨_, h, _⟩ := hr
      subst h
      exact hcur
    · simp only [Option.some.injEq] at hr
      intro b hb
      apply hnew b
      rw [hr]
      exact hb
    · exact ih _ _ _ _ _ _ _ hnew hr

theorem discard_calls_append (l₁ l₂ : List event) :
    discard_calls (l₁ ++ l₂) = discard_calls l₁ ++ discard_calls l₂ := by
  simp [discard_calls]

theorem discard_calls_map_discard_event (env : discard_env) (l : List Nat) :
    discard_calls (l.map (discard_event env)) = l.map (discard_event env) := by
  induction l with
  | nil => rfl
  | cons a l ih =>
    simp only [List.map_cons]
    have : discard_calls (discard_event env a :: l.map (discard_event env)) =
        discard_event env a :: discard_calls (l.map (discard_event env)) := by
      simp [discard_calls, discard_event]
    rw [this, ih]

theorem bio_io_error_discard_calls (cpu : Nat) (use_hugepages : Bool) (w : world) (b : bio)
    (hx : b.xrp_enabled = false) :
    ∃ w', bio_io_error cpu use_hugepages w b = some w' ∧
      discard_calls w'.trace = discard_calls w.trace := by
  unfold bio_io_error bio_endio
  split_ifs with h
  · by_cases hin : b.is_inline = true
    · refine ⟨_, by simp [nvmet_bio_done, hx, hin]; rfl, ?_⟩
      simp [world.emit, discard_calls]
    · refine ⟨_, by simp [nvmet_bio_done, hx, hin]; rfl, ?_⟩
      simp [world.emit, discard_calls]
  · exact ⟨_, rfl, by simp [world.emit, discard_calls]⟩

/-- C20: with `k` the index of the first range whose copy or discard fails (`k = nr + 1`
when none fails), `nvmet_bdev_execute_discard` returns having issued the discards of the
ranges 0, 1, ..., `k - 1` in this order, followed by the discard of range `k` when that
is the call that failed, and no other: `nr + 1` discards when nothing fails, none for an
index above `k` otherwise; range `i` is the one read at byte offset
`i * sizeof(struct nvme_dsm_range)`; and a discard that returns `-EOPNOTSUPP` has the
status of a success. -/
theorem discard_iteration (env : discard_env) (w : world) (k : Nat)
    (hnr : env.nr + 1 < 2 ^ 31) (hk : k ≤ env.nr + 1)
    (hbio : ∀ sector nr_sects c b, (∀ b', c = some b' → b'.xrp_enabled = false) →
      (env.blkdev_issue_discard sector nr_sects c).2 = some b → b.xrp_enabled = false)
    (hok : ∀ j, j < k →
      copy_status env j = nvme_success ∧ ∀ c, discard_status env j c = nvme_success)
    (hfail : k ≤ env.nr → copy_status env k ≠ nvme_success ∨
      (copy_status env k = nvme_success ∧ ∀ c, discard_status env k c ≠ nvme_success)) :
    (∃ w', nvmet_bdev_execute_discard env w = some w' ∧
      discard_calls w'.trace =
        discard_calls w.trace ++ (List.range k).map (discard_event env) ++
          (if k ≤ env.nr ∧ copy_status env k = nvme_success then [discard_event env k]
           else [])) ∧
    (∀ i, dsm_range env i =
      (env.nvmet_copy_from_sgl (i * env.sizeof_nvme_dsm_range)).2.2) ∧
    (∀ i c, (env.blkdev_issue_discard (env.nvmet_lba_to_sect (dsm_range env i).slba)
        (discard_nr_sects env (dsm_range env i)) c).1 = -env.EOPNOTSUPP →
      discard_status env i c = nvme_success) := by
  refine ⟨?_, fun _ => rfl, ?_⟩
  · obtain ⟨w1, cur, s, hr, _, _, htr, _, _, _⟩ :=
      discard_loop_spec env (env.nr + 1) k 0 w none nvme_success hk (by omega)
        (fun j _ hj => hok j (by omega))
        (fun hlt => by
          rw [Nat.zero_add]
          exact hfail (by omega))
    have hcur := discard_loop_cur env (fun b => b.xrp_enabled = false) hbio (env.nr + 1) 0 w
      none nvme_success w1 cur s (fun b hb => by cases hb) hr
    have hiff : (k < env.nr + 1 ∧ copy_status env (0 + k) = nvme_success) ↔
        (k ≤ env.nr ∧ copy_status env k = nvme_success) := by
      rw [Nat.zero_add]
      constructor
      · rintro ⟨a, b⟩; exact ⟨by omega, b⟩
      · rintro ⟨a, b⟩; exact ⟨by omega, b⟩
    have hcalls : discard_calls w1.trace =
        discard_calls w.trace ++ (List.range k).map (discard_event env) ++
          (if k ≤ env.nr ∧ copy_status env k = nvme_success then [discard_event env k]
           else []) := by
      rw [htr, discard_calls_append, discard_calls_append, discard_calls_map_discard_event,
        List.range_eq_range']
      simp only [hiff]
      split_ifs
      · have := discard_calls_map_discard_event env [0 + k]
        simp only [List.map_cons, List.map_nil, Nat.zero_add] at this
        rw [Nat.zero_add, this]
      · rfl
    cases cur with
    | none =>
      refine ⟨w1.emit (event.nvmet_req_complete s),
        by simp only [nvmet_bdev_execute_discard, hr], ?_⟩
      rw [← hcalls]
      simp [world.emit, discard_calls]
    | some b =>
      have hx : b.xrp_enabled = false := hcur b rfl
      by_cases hs : s = nvme_success
      · refine ⟨w1.emit (event.submit_bio
            { b with bi_private := bi_private_t.req,
                     bi_end_io := bio_end_io_t.nvmet_bio_done }),
          by simp only [nvmet_bdev_execute_discard, hr, hs, ne_eq,
            not_true_eq_false, if_false], ?_⟩
        rw [← hcalls]
        simp [world.emit, discard_calls]
      · obtain ⟨w', hw', hd⟩ := bio_io_error_discard_calls env.cpu
          env.nvmeof_xrp_use_hugepages w1
          { b with bi_private := bi_private_t.req,
                   bi_end_io := bio_end_io_t.nvmet_bio_done } hx
        refine ⟨w', by simp only [nvmet_bdev_execute_discard, hr, hs, ne_eq,
          not_false_eq_true, if_true, hw'], ?_⟩
        rw [hd, hcalls]
  · intro i c h
    simp only [discard_status, h, ne_eq, not_true_eq_false, and_false, if_false]

/-- C20 (witness): three ranges on a device that reports every discard as unsupported:
all three discards are issued. -/
theorem discard_iteration_witness :
    ∃ w', nvmet_bdev_execute_discard discard_env_unsupported dsm_world = some w' ∧
      discard_calls w'.trace =
        discard_calls dsm_world.trace ++
          (List.range 3).map (discard_event discard_env_unsupported) ++
          (if 3 ≤ discard_env_unsupported.nr ∧
              copy_status discard_env_unsupported 3 = nvme_success then
            [discard_event discard_env_unsupported 3]
           else []) :=
  (discard_iteration discard_env_unsupported dsm_world 3 (by decide) (by decide)
    (fun _ _ c b hc h => hc b h)
    (fun j _ => ⟨rfl, fun c => rfl⟩)
    (fun h => absurd h (by decide))).1

/-! ## Theorems: completion of a chain of bios -/

theorem completions_emit_of_ne (w : world) (e : event)
    (h : ∀ s, e ≠ event.nvmet_req_complete s) :
    completions (w.emit e) = completions w := by
  cases e with
  | nvmet_req_complete s => exact absurd rfl (h s)
  | _ => simp [completions, world.emit]

theorem nvmet_bio_done_completions (cpu : Nat) (use_hugepages : Bool) (w : world) (b : bio)
    (hx : b.xrp_enabled = false) :
    ∃ w', nvmet_bio_done cpu use_hugepages w b = some w' ∧
      completions w' = completions w ++ [(blk_to_nvme_status w.req b.bi_status).1] := by
  by_cases hin : b.is_inline = true
  · refine ⟨_, by simp [nvmet_bio_done, hx, hin]; rfl, ?_⟩
    simp [world.emit, completions]
  · refine ⟨_, by simp [nvmet_bio_done, hx, hin]; rfl, ?_⟩
    simp [world.emit, completions]

theorem chain_bio_endio_spec (cpu : Nat) (use_hugepages : Bool) (bios : List bio)
    (hshape : chain_shape bios) (D : List Nat) (m : Nat) :
    ∀ (fuel : Nat) (st : chain_state), m < bios.length → m < fuel →
      st.remaining.length = bios.length → st.status.length = bios.length →
      (∀ i, i < m → ∃ a, st.remaining[i]? = some (a + 1) ∧
        (i ∈ D → a = 0) ∧ (i ∉ D → a = 1)) →
      remaining_ok bios.length D st.remaining m 1 →
      (∀ i, m < i → i < bios.length → remaining_ok bios.length D st.remaining i 0) →
      ∃ st', chain_bio_endio cpu use_hugepages bios fuel st m = some st' ∧
        st'.remaining.length = bios.length ∧ st'.status.length = bios.length ∧
        (∀ i, i < bios.length → remaining_ok bios.length D st'.remaining i 0) ∧
        ((∀ j, j < bios.length → j ∈ D) →
          ∃ s, completions st'.w = completions st.w ++ [s]) ∧
        (¬ (∀ j, j < bios.length → j ∈ D) → completions st'.w = completions st.w) := by
  induction m with
  | zero =>
    intro fuel st hm hfuel hrl hsl _ hcur hhigh
    obtain ⟨f, rfl⟩ : ∃ f, fuel = f + 1 := ⟨fuel - 1, by omega⟩
    obtain ⟨a, s, hrem, ha0, ha1, hs0, hs1⟩ := hcur
    have hb : bios[0]? = some bios[0] := List.getElem?_eq_getElem hm
    have hst : st.status[0]? = some st.status[0] := List.getElem?_eq_getElem (by omega)
    obtain ⟨_, hx, _, hend, _⟩ := hshape 0 bios[0] hb
    have hend := hend rfl
    by_cases hz : a + s = 0
    · have ha : a = 0 := by omega
      have hs : s = 0 := by omega
      have hmD : 0 ∈ D := by
        by_contra hc
        have := ha1 hc
        omega
      have hld : later_done bios.length D 0 := by
        by_contra hc
        have := hs1 hc
        omega
      have hall : ∀ j, j < bios.length → j ∈ D := by
        intro j hj
        by_cases hj0 : j = 0
        · subst hj0; exact hmD
        · exact hld j (by omega) hj
      obtain ⟨w', hw', hcomp⟩ := nvmet_bio_done_completions cpu use_hugepages st.w
        { bios[0] with bi_status := st.status[0] } hx
      refine ⟨{ remaining := st.remaining.set 0 0, status := st.status, w := w' }, ?_,
        by simp [hrl], hsl, ?_, fun _ => ⟨_, hcomp⟩, fun h => absurd hall h⟩
      · simp only [hend] at hw'
        simp only [chain_bio_endio, hb, hrem, hst, Nat.add_sub_cancel, hz, ne_eq,
          not_true_eq_false, if_false, hend, hw', Option.map_some']
      · intro i hi
        by_cases hi0 : i = 0
        · subst hi0
          refine ⟨0, 0, ?_, fun _ => rfl, fun h => absurd hmD h, fun _ => rfl,
            fun h => absurd hld h⟩
          simp only [List.getElem?_set_self (by omega : 0 < st.remaining.length)]
        · have := hhigh i (by omega) hi
          unfold remaining_ok at this ⊢
          simp only [List.getElem?_set_ne (Ne.symm hi0)]
          exact this
    · have hnotall : ¬ (∀ j, j < bios.length → j ∈ D) := by
        intro hall
        have h1 := ha0 (hall 0 hm)
        have h2 := hs0 (fun j _ hj => hall j hj)
        omega
      refine ⟨{ st with remaining := st.remaining.set 0 (a + s) }, ?_, by simp [hrl], hsl,
        ?_, fun h => absurd h hnotall, fun _ => rfl⟩
      · simp only [chain_bio_endio, hb, hrem, hst, Nat.add_sub_cancel, hz, ne_eq,
          not_false_eq_true, if_true]
      · intro i hi
        by_cases hi0 : i = 0
        · subst hi0
          refine ⟨a, s, ?_, ha0, ha1, hs0, hs1⟩
          simp only [List.getElem?_set_self (by omega : 0 < st.remaining.length),
            Nat.add_zero]
        · have := hhigh i (by omega) hi
          unfold remaining_ok at this ⊢
          simp only [List.getElem?_set_ne (Ne.symm hi0)]
          exact this
  | succ m ih =>
    intro fuel st hm hfuel hrl hsl hlow hcur hhigh
    obtain ⟨f, rfl⟩ : ∃ f, fuel = f + 1 := ⟨fuel - 1, by omega⟩
    obtain ⟨a, s, hrem, ha0, ha1, hs0, hs1⟩ := hcur
    have hb : bios[m + 1]? = some bios[m + 1] := List.getElem?_eq_getElem hm
    have hst : st.status[m + 1]? = some st.status[m + 1] :=
      List.getElem?_eq_getElem (by omega)
    obtain ⟨_, _, _, _, hend⟩ := hshape (m + 1) bios[m + 1] hb
    obtain ⟨hend, hpar⟩ := hend (by omega)
    rw [Nat.add_sub_cancel] at hpar
    by_cases hz : a + s = 0
    · have ha : a = 0 := by omega
      have hs : s = 0 := by omega
      have hmD : m + 1 ∈ D := by
        by_contra hc
        have := ha1 hc
        omega
      have hld : later_done bios.length D (m + 1) := by
        by_contra hc
        have := hs1 hc
        omega
      have hldm : later_done bios.length D m := by
        intro j hj1 hj2
        by_cases hjm : j = m + 1
        · subst hjm; exact hmD
        · exact hld j (by omega) hj2
      -- the state handed to the parent
      have key : ∀ (st2 : chain_state), st2.remaining = st.remaining.set (m + 1) 0 →
          st2.status.length = bios.length → completions st2.w = completions st.w →
          ∃ st', chain_bio_endio cpu use_hugepages bios f st2 m = some st' ∧
            st'.remaining.length = bios.length ∧ st'.status.length = bios.length ∧
            (∀ i, i < bios.length → remaining_ok bios.length D st'.remaining i 0) ∧
            ((∀ j, j < bios.length → j ∈ D) →
              ∃ s, completions st'.w = completions st.w ++ [s]) ∧
            (¬ (∀ j, j < bios.length → j ∈ D) → completions st'.w = completions st.w) := by
        intro st2 hr2 hs2 hc2
        obtain ⟨st', h1, h2, h3, h4, h5, h6⟩ := ih f st2 (by omega) (by omega)
          (by rw [hr2, List.length_set]; exact hrl) hs2
          (fun i hi => by
            rw [hr2, List.getElem?_set_ne (by omega)]
            exact hlow i (by omega))
          (by
            obtain ⟨a', h1, h2, h3⟩ := hlow m (by omega)
            refine ⟨a', 0, ?_, h2, h3, fun _ => rfl, fun h => absurd hldm h⟩
            rw [hr2, List.getElem?_set_ne (by omega)]
            simpa using h1)
          (fun i hi1 hi2 => by
            by_cases him : i = m + 1
            · subst him
              refine ⟨0, 0, ?_, fun _ => rfl, fun h => absurd hmD h, fun _ => rfl,
                fun h => absurd hld h⟩
              rw [hr2, List.getElem?_set_self (by omega)]
            · have := hhigh i (by omega) hi2
              unfold remaining_ok at this ⊢
              rw [hr2, List.getElem?_set_ne (Ne.symm him)]
              exact this)
        refine ⟨st', h1, h2, h3, h4, ?_, ?_⟩
        · intro hall
          obtain ⟨s', hs'⟩ := h5 hall
          exact ⟨s', by rw [hs', hc2]⟩
        · intro hn
          rw [h6 hn, hc2]
      by_cases hprop : st.status[m + 1] ≠ blk_status_t.BLK_STS_OK ∧
          st.status[m]? = some blk_status_t.BLK_STS_OK
      · obtain ⟨st', h1, hrest⟩ := key
          { remaining := st.remaining.set (m + 1) 0,
            status := st.status.set m st.status[m + 1],
            w := st.w.emit (event.bio_put bios[m + 1]) } rfl
          (by simp [hsl])
          (completions_emit_of_ne _ _ (fun s h => by cases h))
        refine ⟨st', ?_, hrest⟩
        simp only [chain_bio_endio, hb, hrem, hst, Nat.add_sub_cancel, hz, ne_eq,
          not_true_eq_false, if_false, hend, hpar]
        rw [if_pos hprop]
        exact h1
      · obtain ⟨st', h1, hrest⟩ := key
          { remaining := st.remaining.set (m + 1) 0,
            status := st.status,
            w := st.w.emit (event.bio_put bios[m + 1]) } rfl hsl
          (completions_emit_of_ne _ _ (fun s h => by cases h))
        refine ⟨st', ?_, hrest⟩
        simp only [chain_bio_endio, hb, hrem, hst, Nat.add_sub_cancel, hz, ne_eq,
          not_true_eq_false, if_false, hend, hpar]
        rw [if_neg hprop]
        exact h1
    · have hwit : ∃ j, j < bios.length ∧ m < j ∧ j ∉ D := by
        by_cases hmD : m + 1 ∈ D
        · have hs' : ¬ later_done bios.length D (m + 1) := by
            intro hc
            have h1 := ha0 hmD
            have h2 := hs0 hc
            omega
          unfold later_done at hs'
          push_neg at hs'
          obtain ⟨j, hj1, hj2, hj3⟩ := hs'
          exact ⟨j, hj2, by omega, hj3⟩
        · exact ⟨m + 1, hm, by omega, hmD⟩
      obtain ⟨j0, hj0n, hj0m, hj0D⟩ := hwit
      have hnotall : ¬ (∀ j, j < bios.length → j ∈ D) := fun hall => hj0D (hall j0 hj0n)
      refine ⟨{ st with remaining := st.remaining.set (m + 1) (a + s) }, ?_, by simp [hrl],
        hsl, ?_, fun h => absurd h hnotall, fun _ => rfl⟩
      · simp only [chain_bio_endio, hb, hrem, hst, Nat.add_sub_cancel, hz, ne_eq,
          not_false_eq_true, if_true]
      · intro i hi
        by_cases him : i = m + 1
        · subst him
          refine ⟨a, s, ?_, ha0, ha1, hs0, hs1⟩
          simp only [List.getElem?_set_self (by omega : m + 1 < st.remaining.length),
            Nat.add_zero]
        · by_cases hlt : i < m + 1
          · obtain ⟨a', h1, h2, h3⟩ := hlow i hlt
            have hnl : ¬ later_done bios.length D i := fun hc => hj0D (hc j0 (by omega) hj0n)
            refine ⟨a', 1, ?_, h2, h3, fun h => absurd h hnl, fun _ => rfl⟩
            simp only [List.getElem?_set_ne (Ne.symm him)]
            simpa using h1
          · have := hhigh i (by omega) hi
            unfold remaining_ok at this ⊢
            simp only [List.getElem?_set_ne (Ne.symm him)]
            exact this

theorem device_complete_all_spec (use_hugepages : Bool) (bios : List bio)
    (hshape : chain_shape bios) :
    ∀ (order : List completion) (done : List Nat) (st : chain_state),
      st.remaining.length = bios.length → st.status.length = bios.length →
      (∀ i, i < bios.length → remaining_ok bios.length done st.remaining i 0) →
      (order.map (fun c => c.id)).Nodup →
      (∀ c ∈ order, c.id < bios.length ∧ c.id ∉ done) →
      ¬ (∀ j, j < bios.length → j ∈ done) →
      ∃ st', device_complete_all use_hugepages bios order st = some st' ∧
        ((∀ j, j < bios.length → j ∈ done ∨ j ∈ order.map (fun c => c.id)) →
          ∃ s, completions st'.w = completions st.w ++ [s]) ∧
        (¬ (∀ j, j < bios.length → j ∈ done ∨ j ∈ order.map (fun c => c.id)) →
          completions st'.w = completions st.w) := by
  intro order
  induction order with
  | nil =>
    intro done st _ _ _ _ _ hnot
    refine ⟨st, rfl, ?_, fun _ => rfl⟩
    intro hall
    exfalso
    apply hnot
    intro j hj
    rcases hall j hj with h | h
    · exact h
    · cases h
  | cons c rest ih =>
    intro done st hrl hsl hinv hnd hmem hnot
    obtain ⟨hk, hkd⟩ := hmem c (List.mem_cons_self _ _)
    rw [List.map_cons, List.nodup_cons] at hnd
    obtain ⟨hkrest, hndrest⟩ := hnd
    -- the state after the device has stored its status
    obtain ⟨st1, hdc, hr1, hs1, hw1⟩ : ∃ st1 : chain_state,
        device_complete use_hugepages bios st c =
          chain_bio_endio c.cpu use_hugepages bios (bios.length + 1) st1 c.id ∧
        st1.remaining = st.remaining ∧ st1.status.length = bios.length ∧ st1.w = st.w := by
      by_cases hsts : c.status ≠ blk_status_t.BLK_STS_OK
      · exact ⟨{ st with status := st.status.set c.id c.status },
          by simp only [device_complete, hsts, ne_eq, not_false_eq_true, if_true], rfl,
          by simp [hsl], rfl⟩
      · exact ⟨st, by simp only [device_complete, hsts, if_false], rfl, hsl, rfl⟩
    have hDmem : ∀ i, i ≠ c.id → (i ∈ c.id :: done ↔ i ∈ done) := by
      intro i hi
      simp [hi]
    have hlater : ∀ i, c.id ≤ i →
        (later_done bios.length (c.id :: done) i ↔ later_done bios.length done i) := by
      intro i hi
      constructor
      · intro h j hj1 hj2
        exact (hDmem j (by omega)).1 (h j hj1 hj2)
      · intro h j hj1 hj2
        exact (hDmem j (by omega)).2 (h j hj1 hj2)
    obtain ⟨st2, hce, hr2, hs2, hinv2, hall2, hnall2⟩ :=
      chain_bio_endio_spec c.cpu use_hugepages bios hshape (c.id :: done) c.id
        (bios.length + 1) st1 hk (by omega) (by rw [hr1]; exact hrl) hs1
        (fun i hi => by
          obtain ⟨a, s, h1, h2, h3, _, h5⟩ := hinv i (by omega)
          have hs : s = 1 := h5 (fun hc => hkd (hc c.id hi hk))
          refine ⟨a, ?_, fun h => h2 ((hDmem i (by omega)).1 h),
            fun h => h3 (fun hc => h ((hDmem i (by omega)).2 hc))⟩
          rw [hr1, h1, hs])
        (by
          obtain ⟨a, s, h1, _, h3, h4, h5⟩ := hinv c.id hk
          have ha : a = 1 := h3 hkd
          refine ⟨0, s, ?_, fun _ => rfl, fun h => absurd (List.mem_cons_self _ _) h,
            fun h => h4 ((hlater c.id (le_refl _)).1 h),
            fun h => h5 (fun hc => h ((hlater c.id (le_refl _)).2 hc))⟩
          rw [hr1, h1, ha]
          congr 1
          omega)
        (fun i hi1 hi2 => by
          obtain ⟨a, s, h1, h2, h3, h4, h5⟩ := hinv i hi2
          refine ⟨a, s, by rw [hr1]; exact h1,
            fun h => h2 ((hDmem i (by omega)).1 h),
            fun h => h3 (fun hc => h ((hDmem i (by omega)).2 hc)),
            fun h => h4 ((hlater i (by omega)).1 h),
            fun h => h5 (fun hc => h ((hlater i (by omega)).2 hc))⟩)
    have hstep : device_complete use_hugepages bios st c = some st2 := by
      rw [hdc, hce]
    by_cases hall : ∀ j, j < bios.length → j ∈ c.id :: done
    · -- every bio has completed: nothing is left to complete
      have hrest : rest = [] := by
        cases rest with
        | nil => rfl
        | cons c' rest' =>
          exfalso
          obtain ⟨h1, h2⟩ := hmem c' (List.mem_cons_of_mem _ (List.mem_cons_self _ _))
          rcases List.mem_cons.1 (hall c'.id h1) with h | h
          · apply hkrest
            rw [← h]
            exact List.mem_map.2 ⟨c', List.mem_cons_self _ _, rfl⟩
          · exact h2 h
      subst hrest
      obtain ⟨s, hs⟩ := hall2 hall
      refine ⟨st2, by simp only [device_complete_all, hstep], fun _ => ⟨s, by rw [hs, hw1]⟩,
        ?_⟩
      intro hn
      exfalso
      apply hn
      intro j hj
      rcases List.mem_cons.1 (hall j hj) with h | h
      · right
        rw [h]
        exact List.mem_cons_self _ _
      · left
        exact h
    · obtain ⟨st', hrun, h1, h2⟩ := ih (c.id :: done) st2 hr2 hs2 hinv2 hndrest
        (fun c' hc' => by
          obtain ⟨h1, h2⟩ := hmem c' (List.mem_cons_of_mem _ hc')
          refine ⟨h1, fun h => ?_⟩
          rcases List.mem_cons.1 h with h | h
          · apply hkrest
            rw [← h]
            exact List.mem_map.2 ⟨c', hc', rfl⟩
          · exact h2 h)
        hall
      have hcomp : completions st2.w = completions st.w := by
        rw [hnall2 hall, hw1]
      have hiff : (∀ j, j < bios.length →
            j ∈ c.id :: done ∨ j ∈ rest.map (fun c => c.id)) ↔
          (∀ j, j < bios.length →
            j ∈ done ∨ j ∈ (c :: rest).map (fun c => c.id)) := by
        constructor
        · intro h j hj
          rcases h j hj with h | h
          · rcases List.mem_cons.1 h with h | h
            · right
              rw [h]
              exact List.mem_cons_self _ _
            · left
              exact h
          · right
            exact List.mem_cons_of_mem _ h
        · intro h j hj
          rcases h j hj with h | h
          · left
            exact List.mem_cons_of_mem _ h
          · rcases List.mem_cons.1 h with h | h
            · left
              rw [h]
              exact List.mem_cons_self _ _
            · right
              exact h
      refine ⟨st', by simp only [device_complete_all, hstep]; exact hrun, ?_, ?_⟩
      · intro h
        obtain ⟨s, hs⟩ := h1 (hiff.2 h)
        exact ⟨s, by rw [hs, hcomp]⟩
      · intro h
        rw [h2 (fun hc => h (hiff.1 hc)), hcomp]

theorem chain_init_remaining_ok (bios : List bio) (hshape : chain_shape bios) (w : world) :
    ∀ i, i < bios.length →
      remaining_ok bios.length [] (chain_init bios w).remaining i 0 := by
  intro i hi
  have hb : bios[i]? = some bios[i] := List.getElem?_eq_getElem hi
  obtain ⟨_, _, hrem, _, _⟩ := hshape i bios[i] hb
  by_cases hlast : i + 1 = bios.length
  · refine ⟨1, 0, ?_, fun h => absurd h (List.not_mem_nil _), fun _ => rfl, fun _ => rfl,
      fun h => ?_⟩
    · simp only [chain_init, List.getElem?_map, hb, Option.map_some']
      rw [hrem, if_pos hlast]
    · exfalso
      apply h
      intro j hj1 hj2
      omega
  · refine ⟨1, 1, ?_, fun h => absurd h (List.not_mem_nil _), fun _ => rfl, fun h => ?_,
      fun _ => rfl⟩
    · simp only [chain_init, List.getElem?_map, hb, Option.map_some']
      rw [hrem, if_neg hlast]
    · exfalso
      have := h (i + 1) (by omega) (by omega)
      cases this

/-- The chain of a command completes once: for bios of the shape that
`nvmet_bdev_execute_rw` builds and device completions of every bio once, in any order,
`nvmet_req_complete` is called exactly once, and not before the last completion. -/
theorem chain_completes_once (use_hugepages : Bool) (bios : List bio)
    (hshape : chain_shape bios) (hne : bios ≠ []) (w : world) (order : List completion)
    (hperm : (order.map (fun c => c.id)).Perm (List.range bios.length)) :
    (∃ st s, device_complete_all use_hugepages bios order (chain_init bios w) = some st ∧
      completions st.w = completions w ++ [s]) ∧
    (∀ pre suf, order = pre ++ suf → suf ≠ [] →
      ∃ st, device_complete_all use_hugepages bios pre (chain_init bios w) = some st ∧
        completions st.w = completions w) := by
  have hlen : 0 < bios.length := List.length_pos.2 hne
  have hnd : (order.map (fun c => c.id)).Nodup := hperm.nodup_iff.2 (List.nodup_range _)
  have hmem : ∀ c ∈ order, c.id < bios.length := by
    intro c hc
    have : c.id ∈ order.map (fun c => c.id) := List.mem_map.2 ⟨c, hc, rfl⟩
    exact List.mem_range.1 (hperm.mem_iff.1 this)
  have hall : ∀ j, j < bios.length → j ∈ order.map (fun c => c.id) := by
    intro j hj
    exact hperm.mem_iff.2 (List.mem_range.2 hj)
  have hnot : ¬ (∀ j, j < bios.length → j ∈ ([] : List Nat)) := by
    intro h
    cases h 0 hlen
  constructor
  · obtain ⟨st, hrun, h1, _⟩ := device_complete_all_spec use_hugepages bios hshape order []
      (chain_init bios w) (by simp [chain_init]) (by simp [chain_init])
      (chain_init_remaining_ok bios hshape w) hnd
      (fun c hc => ⟨hmem c hc, fun h => by cases h⟩) hnot
    obtain ⟨s, hs⟩ := h1 (fun j hj => Or.inr (hall j hj))
    exact ⟨st, s, hrun, hs⟩
  · intro pre suf hsplit hsuf
    subst hsplit
    rw [List.map_append] at hnd
    obtain ⟨st, hrun, _, h2⟩ := device_complete_all_spec use_hugepages bios hshape pre []
      (chain_init bios w) (by simp [chain_init]) (by simp [chain_init])
      (chain_init_remaining_ok bios hshape w) (List.Nodup.of_append_left hnd)
      (fun c hc => ⟨hmem c (List.mem_append_left _ hc), fun h => by cases h⟩) hnot
    refine ⟨st, hrun, h2 ?_⟩
    intro hc
    obtain ⟨c0, suf', rfl⟩ := List.exists_cons_of_ne_nil hsuf
    have h0 := hmem c0 (List.mem_append_right _ (List.mem_cons_self _ _))
    rcases hc c0.id h0 with h | h
    · cases h
    · have hdis := List.disjoint_of_nodup_append hnd
      exact hdis h (List.mem_map.2 ⟨c0, List.mem_cons_self _ _, rfl⟩)

theorem submitted_bios_map (bios : List bio) :
    submitted_bios (bios.map event.submit_bio) = bios := by
  induction bios with
  | nil => rfl
  | cons b rest ih =>
    simp only [submitted_bios, List.map_cons, List.filterMap_cons] at ih ⊢
    rw [ih]

theorem completions_append_submits (w w' : world) (bios : List bio)
    (h : w'.trace = w.trace ++ bios.map event.submit_bio) :
    completions w' = completions w := by
  unfold completions
  rw [h, List.filterMap_append]
  clear h
  induction bios with
  | nil => simp
  | cons b rest ih =>
    rw [List.map_cons, List.filterMap_cons]
    exact ih

theorem chain_open_shape (subs : List bio) (b : bio) (h : chain_open subs b) :
    chain_shape (subs ++ [b]) := by
  obtain ⟨hs, hid, hx, hr, h0, hp⟩ := h
  intro j s hj
  rw [List.length_append, List.length_singleton]
  by_cases hlt : j < subs.length
  · rw [List.getElem?_append_left hlt] at hj
    obtain ⟨a1, a2, a3, a4, a5⟩ := hs j s hj
    refine ⟨a1, a2, ?_, a4, a5⟩
    rw [a3, if_neg (by omega)]
  · rw [List.getElem?_append_right (by omega)] at hj
    have hj0 : j - subs.length = 0 := by
      by_contra hne
      have : ([b] : List bio)[j - subs.length]? = none := by
        apply List.getElem?_eq_none
        simp only [List.length_singleton]
        omega
      rw [this] at hj
      cases hj
    rw [hj0] at hj
    simp only [List.getElem?_cons_zero, Option.some.injEq] at hj
    subst hj
    have hjeq : j = subs.length := by omega
    subst hjeq
    refine ⟨hid, hx, ?_, fun h => h0 h, fun h => hp h⟩
    rw [hr, if_pos rfl]

theorem bio_add_page_fail (b : bio) (page len offset : Nat)
    (h : (bio_add_page b page len offset).2 ≠ len) :
    (bio_add_page b page len offset).1 = b := by
  unfold bio_add_page at h ⊢
  by_cases hc : b.bi_vcnt < b.bi_max_vecs ∧ b.bi_size + len ≤ UINT_MAX
  · rw [if_pos hc] at h
    exact absurd rfl h
  · rw [if_neg hc]

theorem bio_add_page_chain_open (subs : List bio) (b : bio) (page len offset : Nat)
    (h : chain_open subs b) : chain_open subs (bio_add_page b page len offset).1 := by
  unfold bio_add_page
  by_cases hc : b.bi_vcnt < b.bi_max_vecs ∧ b.bi_size + len ≤ UINT_MAX
  · rw [if_pos hc]
    exact h
  · rw [if_neg hc]
    exact h

theorem chain_open_next (subs : List bio) (b fresh : bio) (h : chain_open subs b)
    (hid : fresh.id = b.id + 1) (hx : fresh.xrp_enabled = false)
    (hr : fresh.bi_remaining = 1)
    (he : fresh.bi_end_io = bio_end_io_t.bio_chain_endio)
    (hp : fresh.bi_private = bi_private_t.parent b.id) :
    chain_open (subs ++ [{ b with bi_remaining := b.bi_remaining + 1 }]) fresh := by
  obtain ⟨hs, bid, bx, br, b0, bp⟩ := h
  refine ⟨?_, ?_, hx, hr, ?_, ?_⟩
  · intro j s hj
    by_cases hlt : j < subs.length
    · rw [List.getElem?_append_left hlt] at hj
      exact hs j s hj
    · rw [List.getElem?_append_right (by omega)] at hj
      have hj0 : j - subs.length = 0 := by
        by_contra hne
        have : ([{ b with bi_remaining := b.bi_remaining + 1 }] : List bio)[j - subs.length]?
            = none := by
          apply List.getElem?_eq_none
          simp only [List.length_singleton]
          omega
        rw [this] at hj
        cases hj
      rw [hj0] at hj
      simp only [List.getElem?_cons_zero, Option.some.injEq] at hj
      subst hj
      have hjeq : j = subs.length := by omega
      subst hjeq
      exact ⟨bid, bx, by simp only [br], fun h => b0 h, fun h => bp h⟩
  · rw [hid, bid, List.length_append, List.length_singleton]
  · intro h
    rw [List.length_append, List.length_singleton] at h
    omega
  · intro _
    rw [List.length_append, List.length_singleton, Nat.add_sub_cancel, ← bid]
    exact ⟨he, hp⟩

theorem rw_add_loop_chain (env : rw_env) (op : req_opf) (sg : scatterlist)
    (t0 : List event) (req : nvmet_req)
    (hbip : req.metadata_len ≠ 0 → ∀ b, env.nvmet_bdev_alloc_bip b = 0) :
    ∀ (fuel : Nat) (w : world) (b : bio) (sector sg_cnt : Nat) (subs : List bio)
      (step : rw_step),
      w.req = req → w.trace = t0 ++ subs.map event.submit_bio → chain_open subs b →
      rw_add_loop env op sg fuel w b sector sg_cnt = some step →
      ∃ w' b' sector' sg_cnt' subs', step = rw_step.running w' b' sector' sg_cnt' ∧
        w'.req = req ∧ w'.trace = t0 ++ subs'.map event.submit_bio ∧ chain_open subs' b' := by
  intro fuel
  induction fuel with
  | zero =>
    intro w b sector sg_cnt subs step _ _ _ h
    simp only [rw_add_loop] at h
    cases h
  | succ fuel ih =>
    intro w b sector sg_cnt subs step hreq htr hopen h
    simp only [rw_add_loop] at h
    by_cases hr : (bio_add_page b sg.page sg.length sg.offset).2 ≠ sg.length
    · rw [if_pos hr] at h
      have hbipf : ¬ (w.req.metadata_len ≠ 0 ∧
          env.nvmet_bdev_alloc_bip (bio_add_page b sg.page sg.length sg.offset).1 ≠ 0) := by
        rintro ⟨h1, h2⟩
        rw [hreq] at h1
        exact h2 (hbip h1 _)
      rw [if_neg hbipf, bio_add_page_fail b _ _ _ hr] at h
      refine ih _ _ _ _ (subs ++ [{ b with bi_remaining := b.bi_remaining + 1 }]) step
        ?_ ?_ ?_ h
      · exact hreq
      · simp only [world.emit, htr, List.map_append, List.map_cons, List.map_nil,
          List.append_assoc]
      · exact chain_open_next subs b _ hopen rfl rfl rfl rfl rfl
    · rw [if_neg hr] at h
      simp only [Option.some.injEq] at h
      exact ⟨w, _, sector, sg_cnt, subs, h.symm, hreq, htr,
        bio_add_page_chain_open subs b _ _ _ hopen⟩

theorem rw_sg_loop_chain (env : rw_env) (op : req_opf) (fuel : Nat)
    (t0 : List event) (req : nvmet_req)
    (hbip : req.metadata_len ≠ 0 → ∀ b, env.nvmet_bdev_alloc_bip b = 0) :
    ∀ (sgl : List scatterlist) (w : world) (b : bio) (sector sg_cnt : Nat)
      (subs : List bio) (step : rw_step),
      w.req = req → w.trace = t0 ++ subs.map event.submit_bio → chain_open subs b →
      rw_sg_loop env op fuel sgl w b sector sg_cnt = some step →
      ∃ w' b' sector' sg_cnt' subs', step = rw_step.running w' b' sector' sg_cnt' ∧
        w'.req = req ∧ w'.trace = t0 ++ subs'.map event.submit_bio ∧ chain_open subs' b' := by
  intro sgl
  induction sgl with
  | nil =>
    intro w b sector sg_cnt subs step hreq htr hopen h
    simp only [rw_sg_loop, Option.some.injEq] at h
    exact ⟨w, b, sector, sg_cnt, subs, h.symm, hreq, htr, hopen⟩
  | cons sg rest ih =>
    intro w b sector sg_cnt subs step hreq htr hopen h
    simp only [rw_sg_loop] at h
    cases hl : rw_add_loop env op sg fuel w b sector sg_cnt with
    | none =>
      rw [hl] at h
      cases h
    | some s1 =>
      obtain ⟨w1, b1, sec1, cnt1, subs1, hs1, hreq1, htr1, hopen1⟩ :=
        rw_add_loop_chain env op sg t0 req hbip fuel w b sector sg_cnt subs s1 hreq htr
          hopen hl
      rw [hl, hs1] at h
      exact ih w1 b1 _ _ subs1 step hreq1 htr1 hopen1 h

theorem execute_rw_chain (env : rw_env) (fuel : Nat) (w w' : world)
    (hop : w.req.opcode ≠ nvme_opcode.nvme_cmd_xrp_read)
    (hcheck : env.nvmet_check_transfer_len = true)
    (hsg : w.req.sg ≠ [])
    (hbip : w.req.metadata_len ≠ 0 → ∀ b, env.nvmet_bdev_alloc_bip b = 0)
    (hrun : nvmet_bdev_execute_rw env fuel w = some w') :
    ∃ bios, bios ≠ [] ∧ chain_shape bios ∧
      w'.trace = w.trace ++ bios.map event.submit_bio := by
  have hlen : ¬ w.req.sg.length = 0 := fun h => hsg (List.length_eq_zero.1 h)
  simp only [nvmet_bdev_execute_rw, hcheck, Bool.not_true, Bool.false_eq_true, if_false, hlen,
    hop, rw_no_xrp] at hrun
  cases hl : rw_sg_loop env (rw_op env w.req) fuel w.req.sg w
      { rw_first_bio env w.req with xrp_enabled := false }
      (env.nvmet_lba_to_sect w.req.slba) w.req.sg.length with
  | none =>
    rw [hl] at hrun
    cases hrun
  | some s1 =>
    have hopen0 : chain_open [] { rw_first_bio env w.req with xrp_enabled := false } := by
      refine ⟨fun j s h => absurd h (by simp), ?_, rfl, ?_, fun _ => rfl,
        fun h => absurd h (by decide)⟩
      · unfold rw_first_bio
        by_cases hi : w.req.transfer_len ≤ env.NVMET_MAX_INLINE_DATA_LEN
        · simp only [hi, if_true]
          rfl
        · simp only [hi, if_false]
          rfl
      · unfold rw_first_bio
        by_cases hi : w.req.transfer_len ≤ env.NVMET_MAX_INLINE_DATA_LEN
        · simp only [hi, if_true]
          rfl
        · simp only [hi, if_false]
          rfl
    obtain ⟨w1, b1, sec1, cnt1, subs1, hs1, hreq1, htr1, hopen1⟩ :=
      rw_sg_loop_chain env (rw_op env w.req) fuel w.trace w.req hbip w.req.sg w _ _ _ [] s1
        rfl (by simp) hopen0 hl
    rw [hl, hs1] at hrun
    have hbipf : ¬ (w1.req.metadata_len ≠ 0 ∧ env.nvmet_bdev_alloc_bip b1 ≠ 0) := by
      rintro ⟨h1, h2⟩
      rw [hreq1] at h1
      exact h2 (hbip h1 _)
    simp only [hbipf, if_false, Option.some.injEq] at hrun
    refine ⟨subs1 ++ [b1], by simp, chain_open_shape subs1 b1 hopen1, ?_⟩
    rw [← hrun]
    simp only [world.emit, htr1, List.map_append, List.map_cons, List.map_nil,
      List.append_assoc]

theorem rw_add_loop_returns (env : rw_env) (op : req_opf) (sg : scatterlist) (fuel : Nat)
    (w : world) (b : bio) (sector sg_cnt : Nat)
    (hlen : sg.length ≤ UINT_MAX) (hsegs : 0 < env.bio_max_segs sg_cnt)
    (hbip : w.req.metadata_len ≠ 0 → ∀ b, env.nvmet_bdev_alloc_bip b = 0) :
    ∃ step, rw_add_loop env op sg (fuel + 2) w b sector sg_cnt = some step := by
  simp only [rw_add_loop]
  by_cases hr : (bio_add_page b sg.page sg.length sg.offset).2 ≠ sg.length
  · have hbipf : ¬ (w.req.metadata_len ≠ 0 ∧
        env.nvmet_bdev_alloc_bip (bio_add_page b sg.page sg.length sg.offset).1 ≠ 0) := by
      rintro ⟨h1, h2⟩
      exact h2 (hbip h1 _)
    rw [if_pos hr, if_neg hbipf]
    have hadd : ∀ fresh : bio, fresh.bi_vcnt = 0 → fresh.bi_size = 0 →
        fresh.bi_max_vecs = env.bio_max_segs sg_cnt →
        (bio_add_page fresh sg.page sg.length sg.offset).2 = sg.length := by
      intro fresh h1 h2 h3
      unfold bio_add_page
      rw [if_pos ⟨by rw [h1, h3]; exact hsegs, by rw [h2, Nat.zero_add]; exact hlen⟩]
    rw [if_neg (not_not.2 (hadd _ rfl rfl rfl))]
    exact ⟨_, rfl⟩
  · rw [if_neg hr]
    exact ⟨_, rfl⟩

theorem rw_sg_loop_chain_returns (env : rw_env) (op : req_opf) (fuel : Nat)
    (t0 : List event) (req : nvmet_req)
    (hsegs : ∀ n, 0 < n → 0 < env.bio_max_segs n)
    (hbip : req.metadata_len ≠ 0 → ∀ b, env.nvmet_bdev_alloc_bip b = 0) :
    ∀ (sgl : List scatterlist) (w : world) (b : bio) (sector sg_cnt : Nat)
      (subs : List bio),
      (∀ sg ∈ sgl, sg.length ≤ UINT_MAX) → sgl.length ≤ sg_cnt →
      w.req = req → w.trace = t0 ++ subs.map event.submit_bio → chain_open subs b →
      ∃ w' b' sector' sg_cnt' subs',
        rw_sg_loop env op (fuel + 2) sgl w b sector sg_cnt =
          some (rw_step.running w' b' sector' sg_cnt') ∧
        w'.req = req ∧ w'.trace = t0 ++ subs'.map event.submit_bio ∧ chain_open subs' b' := by
  intro sgl
  induction sgl with
  | nil =>
    intro w b sector sg_cnt subs _ _ hreq htr hopen
    exact ⟨w, b, sector, sg_cnt, subs, rfl, hreq, htr, hopen⟩
  | cons sg rest ih =>
    intro w b sector sg_cnt subs hlen hcnt hreq htr hopen
    rw [List.length_cons] at hcnt
    obtain ⟨s1, hl⟩ := rw_add_loop_returns env op sg fuel w b sector sg_cnt
      (hlen sg (List.mem_cons_self _ _)) (hsegs sg_cnt (by omega)) (by rw [hreq]; exact hbip)
    obtain ⟨w1, b1, sec1, cnt1, subs1, hs1, hreq1, htr1, hopen1⟩ :=
      rw_add_loop_chain env op sg t0 req hbip (fuel + 2) w b sector sg_cnt subs s1 hreq htr
        hopen hl
    obtain ⟨w2, b2, sec2, cnt2, subs2, hl2, hreq2, htr2, hopen2⟩ :=
      ih w1 b1 ((sector + sg.length / 512) % 2 ^ 64) (sg_cnt - 1) subs1
        (fun sg' h => hlen sg' (List.mem_cons_of_mem _ h)) (by omega) hreq1 htr1 hopen1
    refine ⟨w2, b2, sec2, cnt2, subs2, ?_, hreq2, htr2, hopen2⟩
    simp only [rw_sg_loop, hl, hs1]
    exact hl2

theorem execute_rw_returns (env : rw_env) (fuel : Nat) (w : world)
    (hop : w.req.opcode ≠ nvme_opcode.nvme_cmd_xrp_read)
    (hcheck : env.nvmet_check_transfer_len = true)
    (hsg : w.req.sg ≠ [])
    (hbip : w.req.metadata_len ≠ 0 → ∀ b, env.nvmet_bdev_alloc_bip b = 0)
    (hsegs : ∀ n, 0 < n → 0 < env.bio_max_segs n)
    (hlen : ∀ sg ∈ w.req.sg, sg.length ≤ UINT_MAX) :
    ∃ w', nvmet_bdev_execute_rw env (fuel + 2) w = some w' := by
  have hne : ¬ w.req.sg.length = 0 := fun h => hsg (List.length_eq_zero.1 h)
  have hopen0 : chain_open [] { rw_first_bio env w.req with xrp_enabled := false } := by
    refine ⟨fun j s h => absurd h (by simp), ?_, rfl, ?_, fun _ => rfl,
      fun h => absurd h (by decide)⟩
    · unfold rw_first_bio
      by_cases hi : w.req.transfer_len ≤ env.NVMET_MAX_INLINE_DATA_LEN
      · simp only [hi, if_true]
        rfl
      · simp only [hi, if_false]
        rfl
    · unfold rw_first_bio
      by_cases hi : w.req.transfer_len ≤ env.NVMET_MAX_INLINE_DATA_LEN
      · simp only [hi, if_true]
        rfl
      · simp only [hi, if_false]
        rfl
  obtain ⟨w1, b1, sec1, cnt1, subs1, hl, hreq1, _, _⟩ :=
    rw_sg_loop_chain_returns env (rw_op env w.req) fuel w.trace w.req hsegs hbip w.req.sg w
      { rw_first_bio env w.req with xrp_enabled := false }
      (env.nvmet_lba_to_sect w.req.slba) w.req.sg.length [] hlen (le_refl _) rfl (by simp)
      hopen0
  have hbipf : ¬ (w1.req.metadata_len ≠ 0 ∧ env.nvmet_bdev_alloc_bip b1 ≠ 0) := by
    rintro ⟨h1, h2⟩
    rw [hreq1] at h1
    exact h2 (hbip h1 _)
  simp only [nvmet_bdev_execute_rw, hcheck, Bool.not_true, Bool.false_eq_true, if_false, hne,
    hop, rw_no_xrp, hl, hbipf]
  exact ⟨_, rfl⟩

/-- C18: single completion of a chained command. Every plain read or write with a
non-empty scatter list of fragments of at most `UINT_MAX` bytes (no integrity payload
allocation fails, and `bio_max_segs` is positive on positive counts) makes
`nvmet_bdev_execute_rw` return after submitting a chain `bios` of at least one bio, without
calling `nvmet_req_complete` itself; and when the device completes every bio once, in any
order, on any processors and with any statuses, the block layer's chaining runs to its end
with `nvmet_req_complete` called exactly once, and it has not been called while a
completion is still outstanding. -/
theorem chained_command_completes_once (env : rw_env) (fuel : Nat) (w : world)
    (hop : w.req.opcode = nvme_opcode.nvme_cmd_read ∨
      w.req.opcode = nvme_opcode.nvme_cmd_write)
    (hcheck : env.nvmet_check_transfer_len = true)
    (hsg : w.req.sg ≠ [])
    (hbip : w.req.metadata_len ≠ 0 → ∀ b, env.nvmet_bdev_alloc_bip b = 0)
    (hsegs : ∀ n, 0 < n → 0 < env.bio_max_segs n)
    (hlen : ∀ sg ∈ w.req.sg, sg.length ≤ UINT_MAX) :
    ∃ w' bios, nvmet_bdev_execute_rw env (fuel + 2) w = some w' ∧
      bios = submitted_bios (w'.trace.drop w.trace.length) ∧
      1 ≤ bios.length ∧ completions w' = completions w ∧
      ∀ order : List completion,
        (order.map (fun c => c.id)).Perm (List.range bios.length) →
        (∃ st s,
          device_complete_all env.nvmeof_xrp_use_hugepages bios order (chain_init bios w') =
            some st ∧
          completions st.w = completions w ++ [s]) ∧
        (∀ pre suf, order = pre ++ suf → suf ≠ [] →
          ∃ st,
            device_complete_all env.nvmeof_xrp_use_hugepages bios pre (chain_init bios w') =
              some st ∧
            completions st.w = completions w) := by
  have hop' : w.req.opcode ≠ nvme_opcode.nvme_cmd_xrp_read := by
    rcases hop with h | h <;> rw [h] <;> decide
  obtain ⟨w', hrun⟩ := execute_rw_returns env fuel w hop' hcheck hsg hbip hsegs hlen
  obtain ⟨bios, hne, hshape, htr⟩ :=
    execute_rw_chain env (fuel + 2) w w' hop' hcheck hsg hbip hrun
  have hcomp := completions_append_submits w w' bios htr
  refine ⟨w', bios, hrun, ?_, List.length_pos.2 hne, hcomp, ?_⟩
  · rw [htr, List.drop_left, submitted_bios_map]
  · intro order hperm
    obtain ⟨h1, h2⟩ := chain_completes_once env.nvmeof_xrp_use_hugepages bios hshape hne w'
      order hperm
    constructor
    · obtain ⟨st, s, hst, hs⟩ := h1
      exact ⟨st, s, hst, by rw [hs, hcomp]⟩
    · intro pre suf hsplit hsuf
      obtain ⟨st, hst, hs⟩ := h2 pre suf hsplit hsuf
      exact ⟨st, hst, by rw [hs, hcomp]⟩

/-- C18 (witness): a write of three fragments on a device whose bios hold one fragment
each is split into a chain of three bios; the device completes bio 2, then bio 0, then
bio 1 with an error, and `nvmet_req_complete` is called once, after the last of them. -/
theorem chained_command_completes_once_witness :
    nvmet_bdev_execute_rw chain_env 2 chain_world = some chain_world_submitted ∧
    (submitted_bios chain_world_submitted.trace).length = 3 ∧
    (∃ st s,
      device_complete_all true (submitted_bios chain_world_submitted.trace) chain_order
        (chain_init (submitted_bios chain_world_submitted.trace) chain_world_submitted) =
          some st ∧
      completions st.w = completions chain_world ++ [s]) ∧
    (∃ st,
      device_complete_all true (submitted_bios chain_world_submitted.trace)
        (chain_order.take 2)
        (chain_init (submitted_bios chain_world_submitted.trace) chain_world_submitted) =
          some st ∧
      completions st.w = completions chain_world) := by
  obtain ⟨w', bios, hrun, hb, _, _, hall⟩ :=
    chained_command_completes_once chain_env 0 chain_world (Or.inr rfl) rfl (by decide)
      (fun h => absurd rfl h) (fun _ _ => Nat.one_pos) (by decide)
  have hrun2 : nvmet_bdev_execute_rw chain_env (0 + 2) chain_world =
      some chain_world_submitted := by decide
  have hw : w' = chain_world_submitted := by
    rw [hrun2] at hrun
    exact (Option.some.inj hrun).symm
  subst hw
  have hb2 : bios = submitted_bios chain_world_submitted.trace := hb
  subst hb2
  obtain ⟨h1, h2⟩ := hall chain_order (by decide)
  exact ⟨by decide, by decide, h1,
    h2 (chain_order.take 2) (chain_order.drop 2) (by decide) (by decide)⟩

/-! ## Theorems: the geometry of a chain -/

theorem take_set_same {α : Type} (v : α) :
    ∀ (l : List α) (n : Nat), (l.set n v).take n = l.take n := by
  intro l
  induction l with
  | nil => intro n; rfl
  | cons a l ih =>
    intro n
    cases n with
    | zero => rfl
    | succ n => simp only [List.set_cons_succ, List.take_succ_cons, ih n]

theorem take_set_succ {α : Type} (l : List α) (n : Nat) (v : α) (h : n < l.length) :
    (l.set n v).take (n + 1) = l.take n ++ [v] := by
  rw [List.take_succ, List.getElem?_set_self h, take_set_same]
  rfl

theorem sectors_of_append (a b : List scatterlist) :
    sectors_of (a ++ b) = sectors_of a + sectors_of b := by
  simp [sectors_of]

theorem chain_geometry_snoc (s0 : Nat) (chunks : List (List scatterlist)) (subs : List bio)
    (cur : List scatterlist) (b : bio) (h : chain_geometry s0 chunks subs) (hcur : cur ≠ [])
    (hvec : b.bi_io_vec.take b.bi_vcnt = cur.map sg_vec)
    (hsec : b.bi_sector = (s0 + sectors_of chunks.flatten) % 2 ^ 64)
    (hsize : b.bi_size = (cur.map (fun sg => sg.length)).sum) :
    chain_geometry s0 (chunks ++ [cur]) (subs ++ [b]) := by
  obtain ⟨hlen, hall⟩ := h
  refine ⟨by simp [hlen], ?_⟩
  intro k c b' hc hb
  by_cases hk : k < chunks.length
  · rw [List.getElem?_append_left hk] at hc
    rw [List.getElem?_append_left (by omega)] at hb
    rw [List.take_append_of_le_length (by omega)]
    exact hall k c b' hc hb
  · have hk2 : k = chunks.length := by
      by_contra hne
      have : (chunks ++ [cur])[k]? = none := by
        apply List.getElem?_eq_none
        simp only [List.length_append, List.length_singleton]
        omega
      rw [this] at hc
      cases hc
    subst hk2
    rw [List.getElem?_append_right (le_refl _), Nat.sub_self] at hc
    rw [List.getElem?_append_right (by omega), hlen, Nat.sub_self] at hb
    simp only [List.getElem?_cons_zero, Option.some.injEq] at hc hb
    subst hc
    subst hb
    rw [List.take_append_of_le_length (le_refl _), List.take_length]
    exact ⟨hcur, hvec, hsec, hsize⟩

theorem bio_add_page_geometry (b : bio) (sg : scatterlist) (cur : List scatterlist)
    (hc : b.bi_vcnt < b.bi_max_vecs ∧ b.bi_size + sg.length ≤ UINT_MAX)
    (hvec : b.bi_io_vec.take b.bi_vcnt = cur.map sg_vec) (hcnt : b.bi_vcnt = cur.length)
    (hmax : b.bi_max_vecs = b.bi_io_vec.length)
    (hsize : b.bi_size = (cur.map (fun sg => sg.length)).sum) :
    (bio_add_page b sg.page sg.length sg.offset).2 = sg.length ∧
    (bio_add_page b sg.page sg.length sg.offset).1.bi_io_vec.take
        (bio_add_page b sg.page sg.length sg.offset).1.bi_vcnt = (cur ++ [sg]).map sg_vec ∧
    (bio_add_page b sg.page sg.length sg.offset).1.bi_vcnt = (cur ++ [sg]).length ∧
    (bio_add_page b sg.page sg.length sg.offset).1.bi_max_vecs =
      (bio_add_page b sg.page sg.length sg.offset).1.bi_io_vec.length ∧
    (bio_add_page b sg.page sg.length sg.offset).1.bi_max_vecs = b.bi_max_vecs ∧
    (bio_add_page b sg.page sg.length sg.offset).1.bi_vcnt ≤ b.bi_max_vecs ∧
    (bio_add_page b sg.page sg.length sg.offset).1.bi_sector = b.bi_sector ∧
    (bio_add_page b sg.page sg.length sg.offset).1.bi_size =
      ((cur ++ [sg]).map (fun sg => sg.length)).sum := by
  unfold bio_add_page
  rw [if_pos hc]
  refine ⟨rfl, ?_, ?_, ?_, rfl, ?_, rfl, ?_⟩
  · show (b.bi_io_vec.set b.bi_vcnt _).take (b.bi_vcnt + 1) = _
    rw [take_set_succ _ _ _ (by rw [← hmax]; exact hc.1), hvec, List.map_append]
    rfl
  · show b.bi_vcnt + 1 = _
    rw [hcnt, List.length_append, List.length_singleton]
  · show b.bi_max_vecs = (b.bi_io_vec.set b.bi_vcnt _).length
    rw [List.length_set, hmax]
  · show b.bi_vcnt + 1 ≤ b.bi_max_vecs
    exact hc.1
  · show b.bi_size + sg.length = _
    rw [hsize, List.map_append, List.sum_append]
    simp

theorem rw_add_loop_geometry (env : rw_env) (op : req_opf) (sg : scatterlist) (fuel : Nat)
    (t0 : List event) (s0 : Nat) (w : world) (b : bio) (sector sg_cnt : Nat)
    (done : List scatterlist) (subs : List bio)
    (hlen0 : 0 < sg.length) (hlen : sg.length ≤ UINT_MAX)
    (hsegs : 0 < env.bio_max_segs sg_cnt)
    (htable : ∀ n, (env.bio_alloc_table n).length = n)
    (hbip : w.req.metadata_len ≠ 0 → ∀ b, env.nvmet_bdev_alloc_bip b = 0)
    (htr : w.trace = t0 ++ subs.map event.submit_bio)
    (hsec : sector = (s0 + sectors_of done) % 2 ^ 64)
    (hopen : geometry_open s0 done subs b) :
    ∃ w1 b1 subs1,
      rw_add_loop env op sg (fuel + 2) w b sector sg_cnt =
        some (rw_step.running w1 b1 sector sg_cnt) ∧
      w1.req = w.req ∧ w1.trace = t0 ++ subs1.map event.submit_bio ∧
      geometry_open s0 (done ++ [sg]) subs1 b1 := by
  obtain ⟨chunks, cur, hdone, hgeo, hne, hvec, hcnt, hmax, hpos, hle, hbsec, hsize⟩ := hopen
  simp only [rw_add_loop]
  by_cases hc : b.bi_vcnt < b.bi_max_vecs ∧ b.bi_size + sg.length ≤ UINT_MAX
  · obtain ⟨h1, h2, h3, h4, h5, h6, h7, h8⟩ :=
      bio_add_page_geometry b sg cur hc hvec hcnt hmax hsize
    rw [if_neg (not_not.2 h1)]
    refine ⟨w, _, subs, rfl, rfl, htr, chunks, cur ++ [sg], ?_, hgeo, fun _ => by simp,
      h2, h3, h4, by rw [h5]; exact hpos, by rw [h5]; exact h6, by rw [h7]; exact hbsec, h8⟩
    rw [← hdone, List.append_assoc]
  · have hfail : bio_add_page b sg.page sg.length sg.offset = (b, 0) := by
      unfold bio_add_page
      rw [if_neg hc]
    have hr : (bio_add_page b sg.page sg.length sg.offset).2 ≠ sg.length := by
      rw [hfail]
      exact fun h => absurd h (by omega)
    have hbipf : ¬ (w.req.metadata_len ≠ 0 ∧
        env.nvmet_bdev_alloc_bip (bio_add_page b sg.page sg.length sg.offset).1 ≠ 0) := by
      rintro ⟨h1, h2⟩
      exact h2 (hbip h1 _)
    have hcur : cur ≠ [] := by
      intro h0
      apply hc
      rw [h0] at hcnt hsize
      simp only [List.length_nil] at hcnt
      simp only [List.map_nil, List.sum_nil] at hsize
      rw [hcnt, hsize, Nat.zero_add]
      exact ⟨hpos, hlen⟩
    rw [if_pos hr, if_neg hbipf]
    have hfresh : ∀ fresh : bio, fresh.bi_vcnt = 0 → fresh.bi_size = 0 →
        fresh.bi_max_vecs = env.bio_max_segs sg_cnt →
        fresh.bi_io_vec = env.bio_alloc_table (env.bio_max_segs sg_cnt) →
        fresh.bi_sector = sector →
        (bio_add_page fresh sg.page sg.length sg.offset).2 = sg.length ∧
        geometry_open s0 (done ++ [sg])
          (subs ++ [{ b with bi_remaining := b.bi_remaining + 1 }])
          (bio_add_page fresh sg.page sg.length sg.offset).1 := by
      intro fresh f1 f2 f3 f4 f5
      have hmaxf : fresh.bi_max_vecs = fresh.bi_io_vec.length := by
        rw [f3, f4, htable]
      obtain ⟨h1, h2, h3, h4, h5, h6, h7, h8⟩ :=
        bio_add_page_geometry fresh sg [] ⟨by rw [f1, f3]; exact hsegs,
          by rw [f2, Nat.zero_add]; exact hlen⟩ (by rw [f1]; rfl) (by rw [f1]; rfl) hmaxf
          (by rw [f2]; rfl)
      refine ⟨h1, chunks ++ [cur], [sg], ?_, ?_, fun _ => by simp, h2, h3, h4,
        by rw [h5, f3]; exact hsegs, by rw [h5]; exact h6, ?_, h8⟩
      · rw [List.flatten_append, ← hdone]
        simp
      · exact chain_geometry_snoc s0 chunks subs cur _ hgeo hcur hvec hbsec hsize
      · rw [h7, f5, hsec, List.flatten_append, ← hdone]
        simp
    rw [hfail]
    obtain ⟨h1, h2⟩ := hfresh
      { bio_init (b.id + 1) false (env.bio_alloc_table (env.bio_max_segs sg_cnt))
          (env.bio_max_segs sg_cnt) with
        bi_sector := sector, bi_opf := op, bi_private := bi_private_t.parent b.id,
        bi_end_io := bio_end_io_t.bio_chain_endio } rfl rfl rfl rfl rfl
    rw [if_neg (not_not.2 h1)]
    refine ⟨_, _, subs ++ [{ b with bi_remaining := b.bi_remaining + 1 }], rfl, rfl, ?_, h2⟩
    simp only [world.emit, htr, List.map_append, List.map_cons, List.map_nil,
      List.append_assoc]

theorem rw_sg_loop_geometry (env : rw_env) (op : req_opf) (fuel : Nat) (t0 : List event)
    (s0 : Nat) (req : nvmet_req)
    (hsegs : ∀ n, 0 < n → 0 < env.bio_max_segs n)
    (htable : ∀ n, (env.bio_alloc_table n).length = n)
    (hbip : req.metadata_len ≠ 0 → ∀ b, env.nvmet_bdev_alloc_bip b = 0) :
    ∀ (rest : List scatterlist) (w : world) (b : bio) (sector sg_cnt : Nat)
      (done : List scatterlist) (subs : List bio),
      (∀ sg ∈ rest, 0 < sg.length ∧ sg.length ≤ UINT_MAX) → rest.length ≤ sg_cnt →
      w.req = req → w.trace = t0 ++ subs.map event.submit_bio →
      sector = (s0 + sectors_of done) % 2 ^ 64 → geometry_open s0 done subs b →
      ∃ w1 b1 sector1 sg_cnt1 subs1,
        rw_sg_loop env op (fuel + 2) rest w b sector sg_cnt =
          some (rw_step.running w1 b1 sector1 sg_cnt1) ∧
        w1.req = req ∧ w1.trace = t0 ++ subs1.map event.submit_bio ∧
        geometry_open s0 (done ++ rest) subs1 b1 := by
  intro rest
  induction rest with
  | nil =>
    intro w b sector sg_cnt done subs _ _ hreq htr _ hopen
    exact ⟨w, b, sector, sg_cnt, subs, rfl, hreq, htr, by rw [List.append_nil]; exact hopen⟩
  | cons sg rest ih =>
    intro w b sector sg_cnt done subs hlen hcnt hreq htr hsec hopen
    rw [List.length_cons] at hcnt
    obtain ⟨hl0, hl1⟩ := hlen sg (List.mem_cons_self _ _)
    obtain ⟨w1, b1, subs1, hl, hreq1, htr1, hopen1⟩ :=
      rw_add_loop_geometry env op sg fuel t0 s0 w b sector sg_cnt done subs hl0 hl1
        (hsegs sg_cnt (by omega)) htable (by rw [hreq]; exact hbip) htr hsec hopen
    obtain ⟨w2, b2, sec2, cnt2, subs2, hl2, hreq2, htr2, hopen2⟩ :=
      ih w1 b1 ((sector + sg.length / 512) % 2 ^ 64) (sg_cnt - 1) (done ++ [sg]) subs1
        (fun sg' h => hlen sg' (List.mem_cons_of_mem _ h)) (by omega)
        (by rw [hreq1, hreq]) htr1
        (by
          rw [hsec, sectors_of_append, Nat.mod_add_mod, Nat.add_assoc]
          simp [sectors_of])
        hopen1
    refine ⟨w2, b2, sec2, cnt2, subs2, ?_, hreq2, htr2, ?_⟩
    · simp only [rw_sg_loop, hl]
      exact hl2
    · rw [List.append_assoc] at hopen2
      exact hopen2

theorem execute_rw_geometry (env : rw_env) (fuel : Nat) (w : world)
    (hop : w.req.opcode ≠ nvme_opcode.nvme_cmd_xrp_read)
    (hcheck : env.nvmet_check_transfer_len = true)
    (hsg : w.req.sg ≠ [])
    (hbip : w.req.metadata_len ≠ 0 → ∀ b, env.nvmet_bdev_alloc_bip b = 0)
    (hsegs : ∀ n, 0 < n → 0 < env.bio_max_segs n)
    (htable : ∀ n, (env.bio_alloc_table n).length = n)
    (hinline : 0 < w.req.inline_bvec.length)
    (hs0 : env.nvmet_lba_to_sect w.req.slba < 2 ^ 64)
    (hlen : ∀ sg ∈ w.req.sg, 0 < sg.length ∧ sg.length ≤ UINT_MAX) :
    ∃ w' bios chunks, nvmet_bdev_execute_rw env (fuel + 2) w = some w' ∧
      w'.trace = w.trace ++ bios.map event.submit_bio ∧
      chunks.flatten = w.req.sg ∧
      chain_geometry (env.nvmet_lba_to_sect w.req.slba) chunks bios := by
  have hne : ¬ w.req.sg.length = 0 := fun h => hsg (List.length_eq_zero.1 h)
  have hopen0 : geometry_open (env.nvmet_lba_to_sect w.req.slba) [] []
      { rw_first_bio env w.req with xrp_enabled := false } := by
    refine ⟨[], [], rfl, ⟨rfl, fun k c b h => absurd h (by simp)⟩, fun h => absurd rfl h,
      ?_, ?_, ?_, ?_, ?_, ?_, ?_⟩ <;> unfold rw_first_bio <;>
      by_cases hi : w.req.transfer_len ≤ env.NVMET_MAX_INLINE_DATA_LEN <;>
      simp only [hi, if_true, if_false, bio_init, List.take_zero, List.map_nil,
        List.length_nil, List.flatten_nil, sectors_of, List.sum_nil, Nat.add_zero, htable,
        Nat.mod_eq_of_lt hs0, le_refl, Nat.zero_le]
    · exact hinline
    · exact hsegs _ (Nat.pos_of_ne_zero hne)
  obtain ⟨w1, b1, sec1, cnt1, subs1, hl, hreq1, htr1, hopen1⟩ :=
    rw_sg_loop_geometry env (rw_op env w.req) fuel w.trace
      (env.nvmet_lba_to_sect w.req.slba) w.req hsegs htable hbip w.req.sg w
      { rw_first_bio env w.req with xrp_enabled := false }
      (env.nvmet_lba_to_sect w.req.slba) w.req.sg.length [] [] hlen (le_refl _) rfl
      (by simp)
      (by rw [show sectors_of [] = 0 from rfl, Nat.add_zero, Nat.mod_eq_of_lt hs0]) hopen0
  have hbipf : ¬ (w1.req.metadata_len ≠ 0 ∧ env.nvmet_bdev_alloc_bip b1 ≠ 0) := by
    rintro ⟨h1, h2⟩
    rw [hreq1] at h1
    exact h2 (hbip h1 _)
  obtain ⟨chunks, cur, hdone, hgeo, hcur, hvec, _, _, _, _, hbsec, hsize⟩ := hopen1
  rw [List.nil_append] at hdone hcur
  refine ⟨w1.emit (event.submit_bio b1), subs1 ++ [b1], chunks ++ [cur], ?_, ?_, ?_, ?_⟩
  · simp only [nvmet_bdev_execute_rw, hcheck, Bool.not_true, Bool.false_eq_true, if_false,
      hne, hop, rw_no_xrp, hl, hbipf]
  · simp only [world.emit, htr1, List.map_append, List.map_cons, List.map_nil,
      List.append_assoc]
  · rw [List.flatten_append, ← hdone]
    simp
  · exact chain_geometry_snoc _ chunks subs1 cur b1 hgeo (hcur hsg) hvec hbsec hsize

theorem sectors_of_split :
    ∀ (chunks : List (List scatterlist)) (k : Nat) (c : List scatterlist),
      chunks[k]? = some c →
      sectors_of chunks.flatten =
        sectors_of (chunks.take k).flatten + sectors_of c +
          sectors_of (chunks.drop (k + 1)).flatten ∧
      sectors_of (chunks.take (k + 1)).flatten =
        sectors_of (chunks.take k).flatten + sectors_of c := by
  intro chunks
  induction chunks with
  | nil =>
    intro k c h
    simp at h
  | cons a l ih =>
    intro k c h
    cases k with
    | zero =>
      simp only [List.getElem?_cons_zero, Option.some.injEq] at h
      subst h
      simp [sectors_of_append, sectors_of]
    | succ k =>
      simp only [List.getElem?_cons_succ] at h
      obtain ⟨h1, h2⟩ := ih k c h
      simp only [List.flatten_cons, List.take_succ_cons, List.drop_succ_cons,
        sectors_of_append]
      omega

theorem sum_length_div_512 :
    ∀ c : List scatterlist, (∀ sg ∈ c, 512 ∣ sg.length) →
      (c.map (fun sg => sg.length)).sum / 512 = sectors_of c ∧
      512 ∣ (c.map (fun sg => sg.length)).sum := by
  intro c
  induction c with
  | nil => intro _; exact ⟨rfl, Nat.dvd_zero _⟩
  | cons a l ih =>
    intro h
    obtain ⟨h1, h2⟩ := ih (fun sg hsg => h sg (List.mem_cons_of_mem _ hsg))
    have ha := h a (List.mem_cons_self _ _)
    simp only [List.map_cons, List.sum_cons, sectors_of] at h1 ⊢
    rw [Nat.add_div_of_dvd_right ha, h1]
    exact ⟨rfl, Nat.dvd_add ha h2⟩

theorem sectors_of_pos (c : List scatterlist) (hne : c ≠ [])
    (h : ∀ sg ∈ c, 0 < sg.length ∧ 512 ∣ sg.length) : 0 < sectors_of c := by
  cases c with
  | nil => exact absurd rfl hne
  | cons a l =>
    obtain ⟨h1, h2⟩ := h a (List.mem_cons_self _ _)
    have : 1 ≤ a.length / 512 :=
      (Nat.one_le_div_iff (by decide)).2 (Nat.le_of_dvd h1 h2)
    simp only [sectors_of, List.map_cons, List.sum_cons]
    omega

theorem chain_geometry_no_wrap (s0 : Nat) (chunks : List (List scatterlist))
    (bios : List bio) (frags : List scatterlist) (hflat : chunks.flatten = frags)
    (hgeo : chain_geometry s0 chunks bios)
    (h512 : ∀ sg ∈ frags, 0 < sg.length ∧ 512 ∣ sg.length)
    (hfit : s0 + sectors_of frags ≤ 2 ^ 64) :
    (∀ k b, bios[k]? = some b →
      b.bi_sector = s0 + sectors_of (chunks.take k).flatten) ∧
    (∀ k b b', bios[k]? = some b → bios[k + 1]? = some b' →
      b.bi_sector < b'.bi_sector ∧ b'.bi_sector = b.bi_sector + b.bi_size / 512) := by
  obtain ⟨hlen, hall⟩ := hgeo
  have hchunk : ∀ k b, bios[k]? = some b → ∃ c, chunks[k]? = some c ∧ c ≠ [] ∧
      (∀ sg ∈ c, 0 < sg.length ∧ 512 ∣ sg.length) ∧
      b.bi_sector = s0 + sectors_of (chunks.take k).flatten ∧
      b.bi_size / 512 = sectors_of c ∧
      sectors_of (chunks.take (k + 1)).flatten =
        sectors_of (chunks.take k).flatten + sectors_of c := by
    intro k b hb
    have hk : k < chunks.length := by
      rw [hlen]
      exact (List.getElem?_eq_some_iff.1 hb).1
    have hc : chunks[k]? = some chunks[k] := List.getElem?_eq_getElem hk
    obtain ⟨hne, _, hsec, hsize⟩ := hall k chunks[k] b hc hb
    have hmem : ∀ sg ∈ chunks[k], 0 < sg.length ∧ 512 ∣ sg.length := by
      intro sg hsg
      apply h512
      rw [← hflat]
      exact List.mem_flatten.2 ⟨chunks[k], List.getElem_mem hk, hsg⟩
    obtain ⟨h1, h2⟩ := sectors_of_split chunks k chunks[k] hc
    have hpos := sectors_of_pos chunks[k] hne hmem
    rw [hflat] at h1
    refine ⟨chunks[k], hc, hne, hmem, ?_, ?_, h2⟩
    · rw [hsec, Nat.mod_eq_of_lt (by omega)]
    · rw [hsize]
      exact (sum_length_div_512 chunks[k] (fun sg hsg => (hmem sg hsg).2)).1
  constructor
  · intro k b hb
    obtain ⟨c, _, _, _, h, _⟩ := hchunk k b hb
    exact h
  · intro k b b' hb hb'
    obtain ⟨c, _, hne, hmem, hs, hsz, hnext⟩ := hchunk k b hb
    obtain ⟨c', _, _, _, hs', _, _⟩ := hchunk (k + 1) b' hb'
    have hpos := sectors_of_pos c hne hmem
    rw [hs', hs, hsz, hnext]
    omega

/-- C21 (amended): chain geometry. Every plain read or write that passes the transfer
length check, with a non-empty scatter list of fragments of non-zero length and no
failing integrity allocation, makes `nvmet_bdev_execute_rw` return after submitting bios
`bios` that carry the fragments in scatter list order: the scatter list is cut into
consecutive non-empty runs `chunks`, one per bio in order of submission, bio `k` holds
exactly the fragments of run `k`, and it starts at the sector `s0` advanced by the sum of
`length >> 9` over all earlier fragments, computed in 64-bit arithmetic (modulo 2^64).
When moreover every length is a multiple of 512 and the sectors of the command end within
the 2^64 sectors that `sector_t` addresses, the sum does not wrap, the start sectors of
successive bios are strictly increasing, and each bio starts where the bio before it
ends. -/
theorem chain_sectors (env : rw_env) (fuel : Nat) (w : world)
    (hop : w.req.opcode = nvme_opcode.nvme_cmd_read ∨
      w.req.opcode = nvme_opcode.nvme_cmd_write)
    (hcheck : env.nvmet_check_transfer_len = true)
    (hsg : w.req.sg ≠ [])
    (hbip : w.req.metadata_len ≠ 0 → ∀ b, env.nvmet_bdev_alloc_bip b = 0)
    (hsegs : ∀ n, 0 < n → 0 < env.bio_max_segs n)
    (htable : ∀ n, (env.bio_alloc_table n).length = n)
    (hinline : 0 < w.req.inline_bvec.length)
    (hs0 : env.nvmet_lba_to_sect w.req.slba < 2 ^ 64)
    (hlen : ∀ sg ∈ w.req.sg, 0 < sg.length ∧ sg.length ≤ UINT_MAX) :
    ∃ w' bios chunks, nvmet_bdev_execute_rw env (fuel + 2) w = some w' ∧
      bios = submitted_bios (w'.trace.drop w.trace.length) ∧
      chunks.flatten = w.req.sg ∧
      chain_geometry (env.nvmet_lba_to_sect w.req.slba) chunks bios ∧
      ((∀ sg ∈ w.req.sg, 512 ∣ sg.length) →
        env.nvmet_lba_to_sect w.req.slba + sectors_of w.req.sg ≤ 2 ^ 64 →
        (∀ k b, bios[k]? = some b →
          b.bi_sector =
            env.nvmet_lba_to_sect w.req.slba + sectors_of (chunks.take k).flatten) ∧
        (∀ k b b', bios[k]? = some b → bios[k + 1]? = some b' →
          b.bi_sector < b'.bi_sector ∧
          b'.bi_sector = b.bi_sector + b.bi_size / 512)) := by
  have hop' : w.req.opcode ≠ nvme_opcode.nvme_cmd_xrp_read := by
    rcases hop with h | h <;> rw [h] <;> decide
  obtain ⟨w', bios, chunks, hrun, htr, hflat, hgeo⟩ :=
    execute_rw_geometry env fuel w hop' hcheck hsg hbip hsegs htable hinline hs0 hlen
  refine ⟨w', bios, chunks, hrun, ?_, hflat, hgeo, ?_⟩
  · rw [htr, List.drop_left, submitted_bios_map]
  · intro h512 hfit
    exact chain_geometry_no_wrap _ chunks bios w.req.sg hflat hgeo
      (fun sg hsg => ⟨(hlen sg hsg).1, h512 sg hsg⟩) hfit

/-- C21 (witness): the write `chain_world` of three fragments of 16384 bytes at sector 128,
on a device whose bios hold one fragment each. -/
theorem chain_sectors_witness :
    ∃ w' bios chunks, nvmet_bdev_execute_rw chain_env (0 + 2) chain_world = some w' ∧
      bios = submitted_bios (w'.trace.drop chain_world.trace.length) ∧
      chunks.flatten = chain_world.req.sg ∧
      chain_geometry 128 chunks bios ∧
      (∀ k b, bios[k]? = some b →
        b.bi_sector = 128 + sectors_of (chunks.take k).flatten) ∧
      (∀ k b b', bios[k]? = some b → bios[k + 1]? = some b' →
        b.bi_sector < b'.bi_sector ∧ b'.bi_sector = b.bi_sector + b.bi_size / 512) := by
  obtain ⟨w', bios, chunks, h1, h2, h3, h4, h5⟩ :=
    chain_sectors chain_env 0 chain_world (Or.inr rfl) rfl (by decide)
      (fun h => absurd rfl h) (fun _ _ => Nat.one_pos) (fun n => List.length_replicate n _)
      (by decide) (by decide) (by decide)
  exact ⟨w', bios, chunks, h1, h2, h3, h4, h5 (by decide) (by decide)⟩

/-- C21 (counterexample): the write `chain_world` moved to the start sector 2^64 - 8. Its
three fragments of 32 sectors go to three bios; the second bio starts at sector 24 and the
third at 56, not at 2^64 + 24 and 2^64 + 56, and the start sectors are not increasing.
And in the write `chain_world_empty_fragment` the second fragment, of length 0, is
attached to no bio. -/
theorem chain_sectors_counterexample :
    chain_env.nvmet_lba_to_sect chain_world_last_sectors.req.slba = 2 ^ 64 - 8 ∧
    (∀ sg ∈ chain_world_last_sectors.req.sg, 0 < sg.length ∧ 512 ∣ sg.length) ∧
    (nvmet_bdev_execute_rw chain_env 2 chain_world_last_sectors).map submitted_layout =
      some [(2 ^ 64 - 8, [{ bv_page := 5, bv_len := 16384, bv_offset := 0 }]),
            (24, [{ bv_page := 6, bv_len := 16384, bv_offset := 0 }]),
            (56, [{ bv_page := 7, bv_len := 16384, bv_offset := 0 }])] ∧
    (nvmet_bdev_execute_rw chain_env 2 chain_world_empty_fragment).map submitted_layout =
      some [(128, [{ bv_page := 5, bv_len := 16384, bv_offset := 0 }]),
            (160, [{ bv_page := 7, bv_len := 16384, bv_offset := 0 }])] := by
  decide

end NvmetBdev
